import Mathlib

/-! Hexar workspace canvas: tree model and viewport

A shallow embedding of the state and the event handlers of
`src/pages/Workspace.jsx` and `src/components/workspace/ComponentNode.jsx`.

Conventions of the embedding.

* JavaScript numbers are rationals (`ℚ`).  The handlers are first given in exact
  arithmetic; where a property depends on the rounding of doubles, the same
  expression is given again with every operation rounded to binary64 (`f64Round`, and
  the definitions whose names end in `F64`).
* `null` and `undefined` are `none`.  A string used as a condition is truthy exactly
  when it is non-empty (`truthy`).
* React state updates are applied at once: a handler maps the state it sees to the
  state of the next render.
* `Date.now()` and `Math.random()` are inputs of the handlers that read them.
* The recursion of `getDescendants` is bounded by a fuel argument; `none` stands for
  a traversal that never returns (the call stack overflows and the handler aborts).
-/

/-! ## Definitions -/

/-! ### State and handlers of `Workspace.jsx` -/

/-- One element of the `nodes` array of `Workspace.jsx`. -/
structure Node where
  id : String
  type : String
  label : String
  x : ℚ
  y : ℚ
  parentId : Option String
  children : List String
deriving DecidableEq

/-- One entry of the `componentTypes` table. -/
structure ComponentType where
  id : String
  label : String
  color : String
deriving DecidableEq

/-- The React state of the `Workspace` component that the canvas handlers touch. -/
structure WorkspaceState where
  nodes : List Node
  selectedNode : Option String
  zoom : ℚ
  panOffset : ℚ × ℚ
deriving DecidableEq

/-- JavaScript truthiness of a value that is a string, `null` or `undefined`. -/
def truthy : Option String → Bool
  | none => false
  | some s => s != ""

namespace Workspace

/-- The `componentTypes` configuration table. -/
def componentTypes : List ComponentType :=
  [ { id := "system", label := "System", color := "#2563EB" },
    { id := "mechanical", label := "Mechanical", color := "#10B981" },
    { id := "electrical", label := "Electrical", color := "#F59E0B" },
    { id := "electronics", label := "Electronics", color := "#8B5CF6" },
    { id := "software", label := "Software", color := "#EC4899" } ]

/-- The four nodes passed to `useState` for `nodes`. -/
def initialNodes : List Node :=
  [ { id := "root", type := "system", label := "System Root", x := 400, y := 100,
      parentId := none, children := ["motor", "sensor"] },
    { id := "motor", type := "mechanical", label := "Motor Assembly", x := 250, y := 250,
      parentId := some "root", children := ["encoder"] },
    { id := "sensor", type := "electronics", label := "Sensor Module", x := 550, y := 250,
      parentId := some "root", children := [] },
    { id := "encoder", type := "electrical", label := "Rotary Encoder", x := 250, y := 400,
      parentId := some "motor", children := [] } ]

/-- The state of the first render: four nodes, no selection, zoom 1, no pan. -/
def initialState : WorkspaceState :=
  { nodes := initialNodes, selectedNode := none, zoom := 1, panOffset := (0, 0) }

/-- The lookup `nodes.find(n => n.id === id)`. -/
def findNode (nodes : List Node) (id : String) : Option Node :=
  nodes.find? (fun n => n.id == id)

/-- The template string for a fresh id, with `now` the value of `Date.now()`. -/
def newNodeId (now : Nat) : String :=
  "node-" ++ toString now

/-- The handler `handleNodeSelect`. -/
def handleNodeSelect (s : WorkspaceState) (nodeId : String) : WorkspaceState :=
  { s with selectedNode := if some nodeId = s.selectedNode then none else some nodeId }

/-- The handler `handleNodeDrag`: stores the coordinates it is given. -/
def handleNodeDrag (s : WorkspaceState) (nodeId : String) (newX newY : ℚ) : WorkspaceState :=
  { s with nodes := s.nodes.map (fun node =>
      if node.id = nodeId then { node with x := newX, y := newY } else node) }

/-- The label of a node made by `addNode`:
the type's display label, or `Component` when that is missing or empty. -/
def addNodeLabel (type : String) : String :=
  "New " ++
    (match componentTypes.find? (fun t => t.id == type) with
     | some t => if t.label != "" then t.label else "Component"
     | none => "Component")

/-- The handler `addNode(type, parentId)`; `now` is `Date.now()`, `rx` and `ry` are the two
values of `Math.random()`. -/
def addNode (s : WorkspaceState) (now : Nat) (rx ry : ℚ) (type : String)
    (parentId : Option String) : WorkspaceState :=
  let newId := newNodeId now
  let parent : Option Node :=
    if truthy parentId then parentId.bind (findNode s.nodes) else none
  let newNode : Node :=
    { id := newId
      type := type
      label := addNodeLabel type
      x := match parent with
        | some p => p.x + 50
        | none => 400 + rx * 100
      y := match parent with
        | some p => p.y + 150
        | none => 200 + ry * 100
      parentId := parentId
      children := [] }
  let updated := s.nodes ++ [newNode]
  { s with
    nodes :=
      if truthy parentId then
        updated.map (fun node =>
          if some node.id = parentId then { node with children := node.children ++ [newId] }
          else node)
      else updated
    selectedNode := some newId }

/-- The spread `node.children.flatMap(f)` for an `f` that may fail to return. -/
def flatMapOpt (f : String → Option (List String)) : List String → Option (List String)
  | [] => some []
  | c :: cs =>
    match f c with
    | none => none
    | some ds =>
      match flatMapOpt f cs with
      | none => none
      | some rest => some (ds ++ rest)

/-- The local recursive function `getDescendants` of `deleteNode`, with fuel. -/
def getDescendants (nodes : List Node) : Nat → String → Option (List String)
  | 0, _ => none
  | fuel + 1, id =>
    match findNode nodes id with
    | none => some [id]
    | some node =>
      if node.children.length = 0 then some [id]
      else
        match flatMapOpt (getDescendants nodes fuel) node.children with
        | none => none
        | some ds => some (id :: ds)

/-- The handler `deleteNode(nodeId)`; `none` when the traversal does not return. -/
def deleteNode (fuel : Nat) (s : WorkspaceState) (nodeId : String) : Option WorkspaceState :=
  match findNode s.nodes nodeId with
  | none => some s
  | some _ =>
    match getDescendants s.nodes fuel nodeId with
    | none => none
    | some idsToDelete =>
      some { s with
        nodes :=
          (s.nodes.filter (fun node => !idsToDelete.contains node.id)).map (fun node =>
            { node with children := node.children.filter (fun c => !idsToDelete.contains c) })
        selectedNode := if s.selectedNode = some nodeId then none else s.selectedNode }

/-- The handler `updateNodeLabel`. -/
def updateNodeLabel (s : WorkspaceState) (nodeId : String) (newLabel : String) :
    WorkspaceState :=
  { s with nodes := s.nodes.map (fun node =>
      if node.id = nodeId then { node with label := newLabel } else node) }

/-- The handler `handleZoomIn`. -/
def handleZoomIn (s : WorkspaceState) : WorkspaceState :=
  { s with zoom := min (s.zoom + 1 / 10) 2 }

/-- The handler `handleZoomOut`. -/
def handleZoomOut (s : WorkspaceState) : WorkspaceState :=
  { s with zoom := max (s.zoom - 1 / 10) (1 / 2) }

/-- The handler `handleZoomReset`. -/
def handleZoomReset (s : WorkspaceState) : WorkspaceState :=
  { s with zoom := 1, panOffset := (0, 0) }

/-- The expression of the drop handler that maps a pointer position, taken relative to the
canvas container, to scene coordinates, in exact arithmetic; `screenToSceneF64` rounds. -/
def screenToScene (panOffset : ℚ × ℚ) (zoom : ℚ) (p : ℚ × ℚ) : ℚ × ℚ :=
  ((p.1 - panOffset.1) / zoom, (p.2 - panOffset.2) / zoom)

/-- The style `transform: translate(panOffset) scale(zoom)` with `transformOrigin: 0 0`
of the canvas area: a scene point is scaled, then translated, in exact arithmetic;
`sceneToScreenF64` rounds. -/
def sceneToScreen (panOffset : ℚ × ℚ) (zoom : ℚ) (p : ℚ × ℚ) : ℚ × ℚ :=
  (p.1 * zoom + panOffset.1, p.2 * zoom + panOffset.2)

/-- The label of a node made by the drop handler: no fallback, so an unknown type
prints `undefined`. -/
def dropLabel (type : String) : String :=
  "New " ++
    (match componentTypes.find? (fun t => t.id == type) with
     | some t => t.label
     | none => "undefined")

/-- The `onDrop` handler of the canvas container; `type` is the `componentType` entry of the
drag data, `client` the pointer position and `rect` the top-left corner of the container. -/
def onDrop (s : WorkspaceState) (now : Nat) (type : String) (client rect : ℚ × ℚ) :
    WorkspaceState :=
  if type != "" then
    let p := screenToScene s.panOffset s.zoom (client.1 - rect.1, client.2 - rect.2)
    let newId := newNodeId now
    { s with nodes := s.nodes ++
        [ { id := newId, type := type, label := dropLabel type, x := p.1, y := p.2,
            parentId := none, children := [] } ] }
  else s

end Workspace

/-! ### State and handlers of `ComponentNode.jsx` -/

/-- The state local to one `ComponentNode`: the `useState` cells and the `dragOffset` ref. -/
structure NodeLocal where
  isDragging : Bool
  isEditing : Bool
  editLabel : String
  dragOffset : ℚ × ℚ
deriving DecidableEq

/-- What the document reports for the element matched by `closest('[class*="canvasArea"]')`:
the corner of its bounding rectangle and the entry `a` of its computed transform matrix. -/
structure CanvasArea where
  left : ℚ
  top : ℚ
  a : ℚ
deriving DecidableEq

namespace ComponentNode

/-- The white space and line terminator code points that `String.prototype.trim` strips. -/
def isJsWhitespace (c : Char) : Bool :=
  c.val = 0x0009 || c.val = 0x000A || c.val = 0x000B || c.val = 0x000C || c.val = 0x000D ||
  c.val = 0x0020 || c.val = 0x00A0 || c.val = 0x1680 ||
  (0x2000 ≤ c.val && c.val ≤ 0x200A) ||
  c.val = 0x2028 || c.val = 0x2029 || c.val = 0x202F || c.val = 0x205F ||
  c.val = 0x3000 || c.val = 0xFEFF

/-- The method `String.prototype.trim`. -/
def jsTrim (s : String) : String :=
  ⟨((s.data.dropWhile isJsWhitespace).reverse.dropWhile isJsWhitespace).reverse⟩

/-- The document listener `handleMouseMove` installed while `isDragging`, with
`onDrag = handleNodeDrag`; `canvas` is `none` when no canvas area encloses the node,
`client` is the pointer position.  The arithmetic is exact; `handleMouseMoveF64` rounds. -/
def handleMouseMove (s : WorkspaceState) (node : Node) (l : NodeLocal)
    (canvas : Option CanvasArea) (client : ℚ × ℚ) : WorkspaceState :=
  match canvas with
  | none => s
  | some canvasRect =>
    let scale := if canvasRect.a = 0 then 1 else canvasRect.a
    let newX := (client.1 - canvasRect.left - l.dragOffset.1) / scale
    let newY := (client.2 - canvasRect.top - l.dragOffset.2) / scale
    Workspace.handleNodeDrag s node.id (max 0 newX) (max 0 newY)

/-- The handler `handleLabelSave`, with `onLabelChange = label => updateNodeLabel(node.id, label)`. -/
def handleLabelSave (s : WorkspaceState) (node : Node) (l : NodeLocal) :
    WorkspaceState × NodeLocal :=
  if jsTrim l.editLabel != "" then
    (Workspace.updateNodeLabel s node.id (jsTrim l.editLabel), { l with isEditing := false })
  else
    (s, { l with editLabel := node.label, isEditing := false })

end ComponentNode

/-! ### Vocabulary of the properties: closure, consistency, reachable states -/

namespace Workspace

/-- The children recorded for an id: those of the node that the lookup returns for it. -/
def childrenOf (nodes : List Node) (a : String) : List String :=
  match findNode nodes a with
  | some n => n.children
  | none => []

/-- A children link from `a` to `c`. -/
def ChildLink (nodes : List Node) (a c : String) : Prop :=
  c ∈ childrenOf nodes a

/-- The descendant closure of `a`: `a` itself plus every id reachable through children links. -/
def InClosure (nodes : List Node) (a b : String) : Prop :=
  Relation.ReflTransGen (ChildLink nodes) a b

/-- No id reaches itself through one or more children links. -/
def Acyclic (nodes : List Node) : Prop :=
  ∀ a, ¬ Relation.TransGen (ChildLink nodes) a a

/-- No id in the closure of `id` lies on a cycle of children links. -/
def AcyclicFrom (nodes : List Node) (id : String) : Prop :=
  ∀ a, InClosure nodes id a → ¬ Relation.TransGen (ChildLink nodes) a a

/-- The chain root → A → B → C. -/
def chainNodes : List Node :=
  [ { id := "root", type := "system", label := "Root", x := 400, y := 100,
      parentId := none, children := ["A"] },
    { id := "A", type := "mechanical", label := "A", x := 400, y := 250,
      parentId := some "root", children := ["B"] },
    { id := "B", type := "electrical", label := "B", x := 400, y := 400,
      parentId := some "A", children := ["C"] },
    { id := "C", type := "software", label := "C", x := 400, y := 550,
      parentId := some "B", children := [] } ]

/-- A workspace that holds the chain. -/
def chainState : WorkspaceState :=
  { nodes := chainNodes, selectedNode := none, zoom := 1, panOffset := (0, 0) }

/-- A single node that lists itself as its child. -/
def selfLoopState : WorkspaceState :=
  { nodes := [ { id := "a", type := "system", label := "New System", x := 400, y := 200,
                 parentId := some "a", children := ["a"] } ],
    selectedNode := none, zoom := 1, panOffset := (0, 0) }

/-- Bidirectional parent/child consistency: every id in the children list of a node `p` is
the id of a node whose `parentId` is `p.id`, and every node whose `parentId` is `p.id`
has its id in the children list of `p`. -/
def Consistent (nodes : List Node) : Prop :=
  ∀ p ∈ nodes,
    (∀ i ∈ p.children, ∃ n ∈ nodes, n.id = i ∧ n.parentId = some p.id) ∧
    (∀ n ∈ nodes, n.parentId = some p.id → n.id ∈ p.children)

instance (nodes : List Node) : Decidable (Consistent nodes) := by
  unfold Consistent
  infer_instance

/-- The states the handlers of the tree model, of the zoom controls and of canvas panning
produce from the first render.  Every click that adds a node passes the current selection
as `parentId`; the delete button of a node and the rename commit act on a node that is
rendered; a `deleteNode` whose traversal does not return leaves the state as it was; a
pan that starts with a mouse down at `down` sets, on a mouse move at `client`,
`panOffset` to `client - (down - panOffset)`. -/
inductive Reachable : WorkspaceState → Prop
  | init : Reachable initialState
  | select {s : WorkspaceState} (n : Node) :
      Reachable s → n ∈ s.nodes → Reachable (handleNodeSelect s n.id)
  | drag {s : WorkspaceState} (n : Node) (l : NodeLocal) (canvas : Option CanvasArea)
      (client : ℚ × ℚ) :
      Reachable s → n ∈ s.nodes → Reachable (ComponentNode.handleMouseMove s n l canvas client)
  | add {s : WorkspaceState} (now : Nat) (rx ry : ℚ) (t : ComponentType) :
      Reachable s → 0 ≤ rx → rx < 1 → 0 ≤ ry → ry < 1 → t ∈ componentTypes →
      Reachable (addNode s now rx ry t.id s.selectedNode)
  | drop {s : WorkspaceState} (now : Nat) (type : String) (client rect : ℚ × ℚ) :
      Reachable s → Reachable (onDrop s now type client rect)
  | delete {s s' : WorkspaceState} (fuel : Nat) (n : Node) :
      Reachable s → n ∈ s.nodes → deleteNode fuel s n.id = some s' → Reachable s'
  | deleteSelected {s s' : WorkspaceState} (fuel : Nat) (sel : String) :
      Reachable s → s.selectedNode = some sel → truthy (some sel) = true →
      deleteNode fuel s sel = some s' → Reachable s'
  | rename {s : WorkspaceState} (n : Node) (l : NodeLocal) :
      Reachable s → n ∈ s.nodes → Reachable (ComponentNode.handleLabelSave s n l).1
  | zoomIn {s : WorkspaceState} : Reachable s → Reachable (handleZoomIn s)
  | zoomOut {s : WorkspaceState} : Reachable s → Reachable (handleZoomOut s)
  | zoomReset {s : WorkspaceState} : Reachable s → Reachable (handleZoomReset s)
  | pan {s : WorkspaceState} (down client : ℚ × ℚ) :
      Reachable s →
      Reachable { s with panOffset := (client.1 - (down.1 - s.panOffset.1),
                                       client.2 - (down.2 - s.panOffset.2)) }

/-- The "System" entry of the `componentTypes` table. -/
def systemType : ComponentType :=
  { id := "system", label := "System", color := "#2563EB" }

/-- One click on an add button with nothing selected, the clock reading 1700000000000. -/
def afterFirstAdd : WorkspaceState :=
  addNode initialState 1700000000000 (1 / 2) (1 / 2) systemType.id initialState.selectedNode

/-- A second click on an add button while the clock still reads 1700000000000. -/
def afterSecondAdd : WorkspaceState :=
  addNode afterFirstAdd 1700000000000 (1 / 2) (1 / 2) systemType.id afterFirstAdd.selectedNode

/-- A palette drop on the canvas while the clock still reads 1700000000000. -/
def afterDrop : WorkspaceState :=
  onDrop afterSecondAdd 1700000000000 "system" (300, 300) (0, 0)

end Workspace

/-! ### Sequences of zoom calls -/

/-- The three zoom controls of the toolbar. -/
inductive ZoomOp where
  | zoomIn
  | zoomOut
  | resetView
deriving DecidableEq

namespace Workspace

/-- The handler behind a zoom control. -/
def applyZoomOp (s : WorkspaceState) : ZoomOp → WorkspaceState
  | .zoomIn => handleZoomIn s
  | .zoomOut => handleZoomOut s
  | .resetView => handleZoomReset s

/-- A finite sequence of calls of the zoom controls, first call first. -/
def runZoomOps (s : WorkspaceState) (ops : List ZoomOp) : WorkspaceState :=
  ops.foldl applyZoomOp s

end Workspace

/-! ### Connections, toolbar and further example states -/

/-- The `path` element that `renderConnections` returns for one node: its `key` and the
numbers of its `d` attribute, `M start C control1, control2, finish`. -/
structure Connection where
  key : String
  start : ℚ × ℚ
  control1 : ℚ × ℚ
  control2 : ℚ × ℚ
  finish : ℚ × ℚ
deriving DecidableEq

namespace Workspace

/-- The function `renderConnections`: one entry per node, `none` where it returns `null`. -/
def renderConnections (nodes : List Node) : List (Option Connection) :=
  nodes.map (fun node =>
    if !truthy node.parentId then none
    else
      match node.parentId.bind (findNode nodes) with
      | none => none
      | some parent =>
        let startX := parent.x + 80
        let startY := parent.y + 40
        let endX := node.x + 80
        let endY := node.y
        let midY := (startY + endY) / 2
        some { key := parent.id ++ "-" ++ node.id
               start := (startX, startY)
               control1 := (startX, midY)
               control2 := (endX, midY)
               finish := (endX, endY) })

/-- The `onDeleteNode` prop passed to the toolbar: `selectedNode && deleteNode(selectedNode)`. -/
def onDeleteNode (fuel : Nat) (s : WorkspaceState) : Option WorkspaceState :=
  match s.selectedNode with
  | some sel => if truthy (some sel) then deleteNode fuel s sel else some s
  | none => some s

/-- The first render after a click on the root node. -/
def rootSelected : WorkspaceState :=
  handleNodeSelect initialState "root"

/-- The first render after a click on the encoder node. -/
def encoderSelected : WorkspaceState :=
  handleNodeSelect initialState "encoder"

/-- The state in which encoder is selected and only root and sensor are left. -/
def encoderSelectedMotorDeleted : WorkspaceState :=
  { nodes :=
      [ { id := "root", type := "system", label := "System Root", x := 400, y := 100,
          parentId := none, children := ["sensor"] },
        { id := "sensor", type := "electronics", label := "Sensor Module", x := 550, y := 250,
          parentId := some "root", children := [] } ],
    selectedNode := some "encoder", zoom := 1, panOffset := (0, 0) }

/-- A collection whose only node names a parent that is not in the collection. -/
def orphanNodes : List Node :=
  [ { id := "encoder", type := "electrical", label := "Rotary Encoder", x := 250, y := 400,
      parentId := some "motor", children := [] } ]

end Workspace

namespace Toolbar

/-- The `disabled` attribute of the delete button: `!selectedNode`. -/
def deleteDisabled (selectedNode : Option String) : Bool :=
  !truthy selectedNode

/-- The `disabled` attribute of the zoom-out button: `zoom <= 0.5`. -/
def zoomOutDisabled (zoom : ℚ) : Bool :=
  decide (zoom ≤ 1 / 2)

/-- The `disabled` attribute of the zoom-in button: `zoom >= 2`. -/
def zoomInDisabled (zoom : ℚ) : Bool :=
  decide (zoom ≥ 2)

end Toolbar

/-! ### Pointer interaction: panning, node dragging, the assistant panel -/

/-- The state cells and refs of `Workspace` behind canvas panning and the assistant panel:
`isPanning`, `panStartRef`, `isDraggingAssistant`, `assistantPosition` (`none` for
`{ x: null, y: null }`) and `assistantDragRef`. -/
structure WorkspaceLocal where
  isPanning : Bool
  panStartRef : ℚ × ℚ
  isDraggingAssistant : Bool
  assistantPosition : Option (ℚ × ℚ)
  assistantDragRef : ℚ × ℚ
deriving DecidableEq

namespace Workspace

/-- The values passed to `useState` and `useRef` for panning and the assistant panel. -/
def initialLocal : WorkspaceLocal :=
  { isPanning := false, panStartRef := (0, 0), isDraggingAssistant := false,
    assistantPosition := none, assistantDragRef := (0, 0) }

/-- The handler `handleMouseDown` of the canvas container; `onCanvas` says that the event
target is the container or the canvas area. -/
def handleMouseDown (s : WorkspaceState) (c : WorkspaceLocal) (onCanvas : Bool)
    (client : ℚ × ℚ) : WorkspaceLocal :=
  if onCanvas then
    { c with
      isPanning := true
      panStartRef := (client.1 - s.panOffset.1, client.2 - s.panOffset.2) }
  else c

/-- The handler `handleMouseMove` of the canvas container. -/
def handleMouseMove (s : WorkspaceState) (c : WorkspaceLocal) (client : ℚ × ℚ) :
    WorkspaceState :=
  if c.isPanning then
    { s with panOffset := (client.1 - c.panStartRef.1, client.2 - c.panStartRef.2) }
  else s

/-- The handler `handleMouseUp`, which also serves `onMouseLeave`. -/
def handleMouseUp (c : WorkspaceLocal) : WorkspaceLocal :=
  { c with isPanning := false }

/-- A run of pointer-moves over the canvas container, first move first. -/
def runMouseMoves (s : WorkspaceState) (c : WorkspaceLocal) (moves : List (ℚ × ℚ)) :
    WorkspaceState :=
  moves.foldl (fun acc p => handleMouseMove acc c p) s

/-- The `onMouseDown` handler of the assistant header; `onButton` says that the target is
inside a button, `rect` is the top-left corner of the panel. -/
def assistantHeaderMouseDown (c : WorkspaceLocal) (onButton : Bool) (client rect : ℚ × ℚ) :
    WorkspaceLocal :=
  if onButton then c
  else
    { c with
      isDraggingAssistant := true
      assistantDragRef := (client.1 - rect.1, client.2 - rect.2)
      assistantPosition :=
        match c.assistantPosition with
        | none => some rect
        | some pos => some pos }

/-- The `onMouseMove` handler of the assistant header; `innerWidth` and `innerHeight` are
the size of the window. -/
def assistantHeaderMouseMove (c : WorkspaceLocal) (client : ℚ × ℚ)
    (innerWidth innerHeight : ℚ) : WorkspaceLocal :=
  if c.isDraggingAssistant then
    { c with
      assistantPosition :=
        some (max 0 (min (innerWidth - 380) (client.1 - c.assistantDragRef.1)),
              max 0 (min (innerHeight - 100) (client.2 - c.assistantDragRef.2))) }
  else c

/-- The `onMouseUp` and `onMouseLeave` handlers of the assistant header. -/
def assistantHeaderMouseUp (c : WorkspaceLocal) : WorkspaceLocal :=
  { c with isDraggingAssistant := false }

/-- The state after a palette click while the deleted encoder is still the selection. -/
def addedUnderDeleted : WorkspaceState :=
  addNode encoderSelectedMotorDeleted 1700000000000 (1 / 2) (1 / 2) systemType.id
    encoderSelectedMotorDeleted.selectedNode

end Workspace

namespace ComponentNode

/-- The handler `handleMouseDown` of a node; `onActions` says that the target is inside the
action buttons, `rect` is the top-left corner of the node on screen. -/
def handleMouseDown (l : NodeLocal) (onActions : Bool) (client rect : ℚ × ℚ) : NodeLocal :=
  if onActions || l.isEditing then l
  else { l with isDragging := true, dragOffset := (client.1 - rect.1, client.2 - rect.2) }

/-- The effect on `isDragging`: the document listener `handleMouseMove` is installed only
while `isDragging` holds. -/
def dragMouseMove (s : WorkspaceState) (node : Node) (l : NodeLocal)
    (canvas : Option CanvasArea) (client : ℚ × ℚ) : WorkspaceState :=
  if l.isDragging then handleMouseMove s node l canvas client else s

/-- The document listener `handleMouseUp` of the drag effect. -/
def handleMouseUp (l : NodeLocal) : NodeLocal :=
  { l with isDragging := false }

/-- The `onClick` handler of the edit button. -/
def editButtonClick (l : NodeLocal) : NodeLocal :=
  { l with isEditing := true }

/-- The handler `handleLabelCancel`. -/
def handleLabelCancel (node : Node) (l : NodeLocal) : NodeLocal :=
  { l with editLabel := node.label, isEditing := false }

/-- The `onClick` handler of a node, with `onSelect = () => handleNodeSelect(node.id)`. -/
def onClick (s : WorkspaceState) (node : Node) : WorkspaceState :=
  Workspace.handleNodeSelect s node.id

/-- A drag gesture on a node: pointer-down at `p0` outside the action buttons, the
pointer-moves `moves`, pointer-up, and the click that follows on the node. -/
def dragGesture (s : WorkspaceState) (node : Node) (l : NodeLocal)
    (canvas : Option CanvasArea) (p0 rect : ℚ × ℚ) (moves : List (ℚ × ℚ)) :
    WorkspaceState × NodeLocal :=
  let l1 := handleMouseDown l false p0 rect
  let s1 := moves.foldl (fun acc p => dragMouseMove acc node l1 canvas p) s
  (onClick s1 node, handleMouseUp l1)

end ComponentNode

/-! ### The interface as a whole -/

/-- The state of the rendered interface: the state of `Workspace`, its panning and
assistant cells, and the local state of the `ComponentNode` of each node, by key. -/
structure UIState where
  ws : WorkspaceState
  wl : WorkspaceLocal
  locals : String → NodeLocal

namespace UIState

/-- The first render: every `ComponentNode` starts with its node's label in the buffer. -/
def initial : UIState :=
  { ws := Workspace.initialState
    wl := Workspace.initialLocal
    locals := fun id =>
      { isDragging := false, isEditing := false,
        editLabel := match Workspace.findNode Workspace.initialNodes id with
          | some n => n.label
          | none => "",
        dragOffset := (0, 0) } }

/-- A mouse down that reaches the canvas container. -/
def canvasMouseDown (u : UIState) (onCanvas : Bool) (client : ℚ × ℚ) : UIState :=
  { u with wl := Workspace.handleMouseDown u.ws u.wl onCanvas client }

/-- A mouse move over the canvas container. -/
def canvasMouseMove (u : UIState) (client : ℚ × ℚ) : UIState :=
  { u with ws := Workspace.handleMouseMove u.ws u.wl client }

/-- A mouse up over, or a mouse leave of, the canvas container. -/
def canvasMouseUp (u : UIState) : UIState :=
  { u with wl := Workspace.handleMouseUp u.wl }

/-- A mouse down on the node `n`. -/
def nodeMouseDown (u : UIState) (n : Node) (onActions : Bool) (client rect : ℚ × ℚ) :
    UIState :=
  { u with
    locals := Function.update u.locals n.id
      (ComponentNode.handleMouseDown (u.locals n.id) onActions client rect) }

/-- A mouse move anywhere in the document, as the drag effect of the node `n` sees it. -/
def documentMouseMove (u : UIState) (n : Node) (canvas : Option CanvasArea)
    (client : ℚ × ℚ) : UIState :=
  { u with ws := ComponentNode.dragMouseMove u.ws n (u.locals n.id) canvas client }

/-- A mouse up anywhere in the document, as the drag effect of the node `n` sees it. -/
def documentMouseUp (u : UIState) (n : Node) : UIState :=
  { u with
    locals := Function.update u.locals n.id
      (ComponentNode.handleMouseUp (u.locals n.id)) }

/-- A click on the edit button of the node `n`. -/
def editButton (u : UIState) (n : Node) : UIState :=
  { u with
    locals := Function.update u.locals n.id
      (ComponentNode.editButtonClick (u.locals n.id)) }

/-- Enter, blur or the save button in the edit field of the node `n`. -/
def labelSave (u : UIState) (n : Node) : UIState :=
  { u with
    ws := (ComponentNode.handleLabelSave u.ws n (u.locals n.id)).1
    locals := Function.update u.locals n.id
      (ComponentNode.handleLabelSave u.ws n (u.locals n.id)).2 }

/-- Escape or the cancel button in the edit field of the node `n`. -/
def labelCancel (u : UIState) (n : Node) : UIState :=
  { u with
    locals := Function.update u.locals n.id
      (ComponentNode.handleLabelCancel n (u.locals n.id)) }

/-- A mouse down on the assistant header. -/
def assistantMouseDown (u : UIState) (onButton : Bool) (client rect : ℚ × ℚ) : UIState :=
  { u with wl := Workspace.assistantHeaderMouseDown u.wl onButton client rect }

/-- A mouse move over the assistant header. -/
def assistantMouseMove (u : UIState) (client : ℚ × ℚ) (innerWidth innerHeight : ℚ) :
    UIState :=
  { u with wl := Workspace.assistantHeaderMouseMove u.wl client innerWidth innerHeight }

/-- A mouse up over, or a mouse leave of, the assistant header. -/
def assistantMouseUp (u : UIState) : UIState :=
  { u with wl := Workspace.assistantHeaderMouseUp u.wl }

/-- Canvas panning is active. -/
def panning (u : UIState) : Prop :=
  u.wl.isPanning = true

/-- Some rendered node is being dragged. -/
def nodeDragging (u : UIState) : Prop :=
  ∃ n ∈ u.ws.nodes, (u.locals n.id).isDragging = true

/-- The label of some rendered node is being edited. -/
def labelEditing (u : UIState) : Prop :=
  ∃ n ∈ u.ws.nodes, (u.locals n.id).isEditing = true

/-- The assistant panel is being dragged. -/
def assistantDragging (u : UIState) : Prop :=
  u.wl.isDraggingAssistant = true

/-- None of the four interaction states is active. -/
def NoneActive (u : UIState) : Prop :=
  ¬ u.panning ∧ ¬ u.nodeDragging ∧ ¬ u.labelEditing ∧ ¬ u.assistantDragging

/-- At most one of the four interaction states is active. -/
def AtMostOneActive (u : UIState) : Prop :=
  ¬ (u.panning ∧ u.nodeDragging) ∧ ¬ (u.panning ∧ u.labelEditing) ∧
  ¬ (u.panning ∧ u.assistantDragging) ∧ ¬ (u.nodeDragging ∧ u.labelEditing) ∧
  ¬ (u.nodeDragging ∧ u.assistantDragging) ∧ ¬ (u.labelEditing ∧ u.assistantDragging)

end UIState

/-- One call of a pointer or keyboard handler of the interface, on a rendered node where
the handler belongs to a node. -/
inductive UIStep : UIState → UIState → Prop
  | canvasMouseDown (u : UIState) (onCanvas : Bool) (client : ℚ × ℚ) :
      UIStep u (u.canvasMouseDown onCanvas client)
  | canvasMouseMove (u : UIState) (client : ℚ × ℚ) : UIStep u (u.canvasMouseMove client)
  | canvasMouseUp (u : UIState) : UIStep u u.canvasMouseUp
  | nodeMouseDown (u : UIState) (n : Node) (onActions : Bool) (client rect : ℚ × ℚ) :
      n ∈ u.ws.nodes → UIStep u (u.nodeMouseDown n onActions client rect)
  | documentMouseMove (u : UIState) (n : Node) (canvas : Option CanvasArea)
      (client : ℚ × ℚ) : n ∈ u.ws.nodes → UIStep u (u.documentMouseMove n canvas client)
  | documentMouseUp (u : UIState) (n : Node) :
      n ∈ u.ws.nodes → UIStep u (u.documentMouseUp n)
  | editButton (u : UIState) (n : Node) : n ∈ u.ws.nodes → UIStep u (u.editButton n)
  | labelSave (u : UIState) (n : Node) : n ∈ u.ws.nodes → UIStep u (u.labelSave n)
  | labelCancel (u : UIState) (n : Node) : n ∈ u.ws.nodes → UIStep u (u.labelCancel n)
  | assistantMouseDown (u : UIState) (onButton : Bool) (client rect : ℚ × ℚ) :
      UIStep u (u.assistantMouseDown onButton client rect)
  | assistantMouseMove (u : UIState) (client : ℚ × ℚ) (innerWidth innerHeight : ℚ) :
      UIStep u (u.assistantMouseMove client innerWidth innerHeight)
  | assistantMouseUp (u : UIState) : UIStep u u.assistantMouseUp

/-- The interface states that a finite run of handler calls reaches from the first render. -/
def UIReachable (u : UIState) : Prop :=
  Relation.ReflTransGen UIStep UIState.initial u

/-! ### Forests of children links and clocks that never repeat -/

namespace Workspace

/-- Every id is listed as a child under at most one id. -/
def UniqueParent (nodes : List Node) : Prop :=
  ∀ a b c, c ∈ childrenOf nodes a → c ∈ childrenOf nodes b → a = b

/-- No children list that a lookup returns holds an id twice. -/
def NodupChildren (nodes : List Node) : Prop :=
  ∀ a, (childrenOf nodes a).Nodup

/-- The children links form a forest: no cycle, one parent at most, no repeated child. -/
def Forest (nodes : List Node) : Prop :=
  Acyclic nodes ∧ UniqueParent nodes ∧ NodupChildren nodes

/-- The states that the handlers of the tree model produce from the first render when
every `addNode` call reads a clock value whose id was not produced before.  The list is
the record of the ids produced so far: the four initial ids and one id for each call of
`addNode` or of the drop handler.  An add button passes the current selection as
`parentId`; the drop handler, `deleteNode`, `handleNodeDrag` and `updateNodeLabel` take
any arguments. -/
inductive FreshReachable : List String → WorkspaceState → Prop
  | init : FreshReachable (initialNodes.map Node.id) initialState
  | select {used : List String} {s : WorkspaceState} (n : Node) :
      FreshReachable used s → n ∈ s.nodes → FreshReachable used (handleNodeSelect s n.id)
  | add {used : List String} {s : WorkspaceState} (now : Nat) (rx ry : ℚ) (type : String) :
      FreshReachable used s → newNodeId now ∉ used →
      FreshReachable (newNodeId now :: used) (addNode s now rx ry type s.selectedNode)
  | drop {used : List String} {s : WorkspaceState} (now : Nat) (type : String)
      (client rect : ℚ × ℚ) :
      FreshReachable used s →
      FreshReachable (newNodeId now :: used) (onDrop s now type client rect)
  | delete {used : List String} {s s' : WorkspaceState} (fuel : Nat) (nodeId : String) :
      FreshReachable used s → deleteNode fuel s nodeId = some s' → FreshReachable used s'
  | drag {used : List String} {s : WorkspaceState} (nodeId : String) (newX newY : ℚ) :
      FreshReachable used s → FreshReachable used (handleNodeDrag s nodeId newX newY)
  | rename {used : List String} {s : WorkspaceState} (nodeId newLabel : String) :
      FreshReachable used s → FreshReachable used (updateNodeLabel s nodeId newLabel)

end Workspace

/-! ### The binary64 arithmetic of the JavaScript engine -/

/-- The number of binary digits of `m`, computed with `fuel` halvings at most. -/
def bitLengthAux : Nat → Nat → Nat
  | 0, _ => 0
  | fuel + 1, m => if m = 0 then 0 else bitLengthAux fuel (m / 2) + 1

/-- The number of binary digits of `m`: 0 for 0, and `k + 1` when `2 ^ k ≤ m < 2 ^ (k + 1)`. -/
def bitLength (m : Nat) : Nat :=
  bitLengthAux m m

/-- The integer nearest to `n / d`, the even one of the two when `n / d` lies halfway. -/
def roundHalfEven (n d : Nat) : Nat :=
  let q := n / d
  let r := n % d
  if 2 * r < d then q else if d < 2 * r then q + 1 else if q % 2 = 0 then q else q + 1

/-- The Number value of a real: the nearest binary64 value, ties to the even significand,
with 53 significant bits for a binary exponent of at least -1022 and the fixed quantum
`2 ^ (-1074)` below that.  Values of magnitude `2 ^ 1024` and more, which the engine maps
to an infinity, are outside the range in which this is used. -/
def f64Round (x : ℚ) : ℚ :=
  if x = 0 then 0 else
    let n := x.num.natAbs
    let d := x.den
    let e0 : Int := (bitLength n : Int) - (bitLength d : Int)
    let e : Int :=
      if 0 ≤ e0 then (if d * 2 ^ e0.toNat ≤ n then e0 else e0 - 1)
      else (if d ≤ n * 2 ^ (-e0).toNat then e0 else e0 - 1)
    let q : Int := (if e < -1022 then -1022 else e) - 52
    let v : ℚ :=
      if 0 ≤ q then ((roundHalfEven n (d * 2 ^ q.toNat) * 2 ^ q.toNat : Nat) : ℚ)
      else mkRat (roundHalfEven (n * 2 ^ (-q).toNat) d) (2 ^ (-q).toNat)
    if x < 0 then -v else v

namespace Workspace

/-- The handler `handleZoomIn` as the engine computes it: the literal `0.1` and the sum are
Number values. -/
def handleZoomInF64 (s : WorkspaceState) : WorkspaceState :=
  { s with zoom := min (f64Round (s.zoom + f64Round (1 / 10))) 2 }

/-- The formula `p * zoom + pan` of the canvas transform, each operation rounded to a
Number value. -/
def sceneToScreenF64 (panOffset : ℚ × ℚ) (zoom : ℚ) (p : ℚ × ℚ) : ℚ × ℚ :=
  (f64Round (f64Round (p.1 * zoom) + panOffset.1),
   f64Round (f64Round (p.2 * zoom) + panOffset.2))

/-- The formula `(q - pan) / zoom` of the drop handler, each operation rounded to a Number
value. -/
def screenToSceneF64 (panOffset : ℚ × ℚ) (zoom : ℚ) (q : ℚ × ℚ) : ℚ × ℚ :=
  (f64Round (f64Round (q.1 - panOffset.1) / zoom),
   f64Round (f64Round (q.2 - panOffset.2) / zoom))

end Workspace

namespace ComponentNode

/-- The handler `handleMouseDown` of a node as the engine computes it: the two differences
stored in `dragOffset` are Number values. -/
def handleMouseDownF64 (l : NodeLocal) (onActions : Bool) (client rect : ℚ × ℚ) : NodeLocal :=
  if onActions || l.isEditing then l
  else
    { l with
      isDragging := true
      dragOffset := (f64Round (client.1 - rect.1), f64Round (client.2 - rect.2)) }

/-- The document listener `handleMouseMove` as the engine computes it: the two differences
and the quotient of `(e.clientX - canvasRect.left - dragOffset.current.x) / scale` are
Number values, taken from left to right. -/
def handleMouseMoveF64 (s : WorkspaceState) (node : Node) (l : NodeLocal)
    (canvas : Option CanvasArea) (client : ℚ × ℚ) : WorkspaceState :=
  match canvas with
  | none => s
  | some canvasRect =>
    let scale := if canvasRect.a = 0 then 1 else canvasRect.a
    let newX := f64Round (f64Round (f64Round (client.1 - canvasRect.left) - l.dragOffset.1) / scale)
    let newY := f64Round (f64Round (f64Round (client.2 - canvasRect.top) - l.dragOffset.2) / scale)
    Workspace.handleNodeDrag s node.id (max 0 newX) (max 0 newY)

/-- The corner at which a node with scene coordinate `c` is drawn, `origin + zoom * c`,
each operation rounded to a Number value. -/
def drawnAtF64 (origin zoom c : ℚ) : ℚ :=
  f64Round (origin + f64Round (zoom * c))

end ComponentNode

/-! ## Theorems -/

/-! ### The traversal `getDescendants` -/

namespace Workspace

theorem flatMapOpt_mem {f : String → Option (List String)} :
    ∀ {l r : List String}, flatMapOpt f l = some r →
      ∀ i, i ∈ r ↔ ∃ c ∈ l, ∃ ds, f c = some ds ∧ i ∈ ds
  | [], r, h, i => by
    simp only [flatMapOpt, Option.some.injEq] at h
    subst h
    simp
  | c :: cs, r, h, i => by
    unfold flatMapOpt at h
    cases hc : f c with
    | none => simp [hc] at h
    | some ds =>
      cases hcs : flatMapOpt f cs with
      | none => simp [hc, hcs] at h
      | some rest =>
        simp only [hc, hcs, Option.some.injEq] at h
        subst h
        have ih := flatMapOpt_mem hcs i
        simp only [List.mem_append, ih, List.mem_cons, exists_eq_or_imp, hc,
          Option.some.injEq, exists_eq_left']

theorem flatMapOpt_defined {f : String → Option (List String)} :
    ∀ {l r : List String}, flatMapOpt f l = some r → ∀ c ∈ l, ∃ ds, f c = some ds
  | [], _, _, c, hc => by simp at hc
  | d :: cs, r, h, c, hc => by
    unfold flatMapOpt at h
    cases hd : f d with
    | none => simp [hd] at h
    | some ds =>
      cases hcs : flatMapOpt f cs with
      | none => simp [hd, hcs] at h
      | some rest =>
        rcases List.mem_cons.mp hc with rfl | hmem
        · exact ⟨ds, hd⟩
        · exact flatMapOpt_defined hcs c hmem

theorem flatMapOpt_isSome {f : String → Option (List String)} :
    ∀ {l : List String}, (∀ c ∈ l, ∃ ds, f c = some ds) → ∃ r, flatMapOpt f l = some r
  | [], _ => ⟨[], rfl⟩
  | c :: cs, h => by
    obtain ⟨ds, hds⟩ := h c (List.mem_cons_self _ _)
    obtain ⟨rest, hrest⟩ := flatMapOpt_isSome (fun d hd => h d (List.mem_cons_of_mem _ hd))
    exact ⟨ds ++ rest, by simp [flatMapOpt, hds, hrest]⟩

theorem inClosure_iff (nodes : List Node) (a i : String) :
    InClosure nodes a i ↔ i = a ∨ ∃ c ∈ childrenOf nodes a, InClosure nodes c i := by
  unfold InClosure
  rw [Relation.ReflTransGen.cases_head_iff]
  constructor
  · rintro (h | ⟨c, hc, hci⟩)
    · exact Or.inl h.symm
    · exact Or.inr ⟨c, hc, hci⟩
  · rintro (h | ⟨c, hc, hci⟩)
    · exact Or.inl h.symm
    · exact Or.inr ⟨c, hc, hci⟩

/-- What `getDescendants` returns has exactly the members of the descendant closure. -/
theorem getDescendants_mem (nodes : List Node) :
    ∀ (fuel : Nat) (id : String) (ds : List String),
      getDescendants nodes fuel id = some ds → ∀ i, i ∈ ds ↔ InClosure nodes id i
  | 0, _, _, h, _ => by simp [getDescendants] at h
  | fuel + 1, id, ds, h, i => by
    rw [inClosure_iff]
    unfold getDescendants at h
    cases hf : findNode nodes id with
    | none =>
      simp only [hf, Option.some.injEq] at h
      subst h
      simp [childrenOf, hf]
    | some node =>
      simp only [hf] at h
      by_cases hlen : node.children.length = 0
      · simp only [hlen, if_true, Option.some.injEq] at h
        subst h
        have : node.children = [] := List.length_eq_zero.mp hlen
        simp [childrenOf, hf, this]
      · simp only [hlen, if_false] at h
        cases hfm : flatMapOpt (getDescendants nodes fuel) node.children with
        | none => simp [hfm] at h
        | some r =>
          simp only [hfm, Option.some.injEq] at h
          subst h
          have hmem := flatMapOpt_mem hfm i
          simp only [List.mem_cons, hmem, childrenOf, hf]
          constructor
          · rintro (h | ⟨c, hc, dc, hdc, hi⟩)
            · exact Or.inl h
            · exact Or.inr ⟨c, hc, (getDescendants_mem nodes fuel c dc hdc i).mp hi⟩
          · rintro (h | ⟨c, hc, hci⟩)
            · exact Or.inl h
            · right
              obtain ⟨r2, hr2⟩ := flatMapOpt_defined hfm c hc
              exact ⟨c, hc, r2, hr2, (getDescendants_mem nodes fuel c r2 hr2 i).mpr hci⟩

theorem findNode_eq_none {nodes : List Node} {a : String}
    (h : a ∉ nodes.map Node.id) : findNode nodes a = none := by
  unfold findNode
  rw [List.find?_eq_none]
  intro n hn hid
  exact h (List.mem_map.mpr ⟨n, hn, by simpa using hid⟩)

theorem findNode_some_mem {nodes : List Node} {a : String} {n : Node}
    (h : findNode nodes a = some n) : n ∈ nodes ∧ n.id = a := by
  unfold findNode at h
  exact ⟨List.mem_of_find?_eq_some h, by simpa using List.find?_some h⟩

theorem findNode_isSome {nodes : List Node} {a : String}
    (h : a ∈ nodes.map Node.id) : ∃ n, findNode nodes a = some n := by
  cases hf : findNode nodes a with
  | some n => exact ⟨n, rfl⟩
  | none =>
    exfalso
    unfold findNode at hf
    rw [List.find?_eq_none] at hf
    obtain ⟨n, hn, hid⟩ := List.mem_map.mp h
    exact hf n hn (by simpa using hid)

theorem childrenOf_eq_nil {nodes : List Node} {a : String}
    (h : a ∉ nodes.map Node.id) : childrenOf nodes a = [] := by
  simp [childrenOf, findNode_eq_none h]

/-- With unique ids the children recorded for a node's id are the node's own children. -/
theorem childrenOf_of_mem {nodes : List Node} (hnd : (nodes.map Node.id).Nodup)
    {n : Node} (hn : n ∈ nodes) : childrenOf nodes n.id = n.children := by
  obtain ⟨m, hm⟩ := findNode_isSome (List.mem_map.mpr ⟨n, hn, rfl⟩)
  obtain ⟨hmem, hid⟩ := findNode_some_mem hm
  have : m = n := List.inj_on_of_nodup_map hnd hmem hn hid
  simp [childrenOf, hm, this]

/-- An id all of whose descendants are well-founded under children links is traversed
with finite fuel. -/
theorem getDescendants_of_acc (nodes : List Node) (id : String)
    (h : Acc (fun c a => ChildLink nodes a c) id) :
    ∃ fuel0, ∀ fuel, fuel0 ≤ fuel → ∃ ds, getDescendants nodes fuel id = some ds := by
  induction h with
  | intro a _ ih =>
    have hb : ∀ l : List String, (∀ c ∈ l, c ∈ childrenOf nodes a) →
        ∃ N, ∀ c ∈ l, ∀ fuel, N ≤ fuel → ∃ ds, getDescendants nodes fuel c = some ds := by
      intro l
      induction l with
      | nil => intro _; exact ⟨0, by simp⟩
      | cons c cs ihl =>
        intro hl
        obtain ⟨N1, h1⟩ := ih c (hl c (List.mem_cons_self _ _))
        obtain ⟨N2, h2⟩ := ihl (fun d hd => hl d (List.mem_cons_of_mem _ hd))
        refine ⟨max N1 N2, ?_⟩
        intro d hd fuel hfuel
        rcases List.mem_cons.mp hd with rfl | hd
        · exact h1 fuel (le_trans (le_max_left _ _) hfuel)
        · exact h2 d hd fuel (le_trans (le_max_right _ _) hfuel)
    obtain ⟨N, hN⟩ := hb (childrenOf nodes a) (fun c hc => hc)
    refine ⟨N + 1, ?_⟩
    intro fuel hfuel
    obtain ⟨k, rfl⟩ : ∃ k, fuel = k + 1 := ⟨fuel - 1, by omega⟩
    unfold getDescendants
    cases hf : findNode nodes a with
    | none => exact ⟨[a], rfl⟩
    | some node =>
      by_cases hlen : node.children.length = 0
      · exact ⟨[a], by simp [hlen]⟩
      · obtain ⟨r, hr⟩ := flatMapOpt_isSome (f := getDescendants nodes k) (l := node.children)
          (fun c hc => hN c (by simpa [childrenOf, hf] using hc) k (by omega))
        exact ⟨a :: r, by simp [hlen, hr]⟩

/-- Without a cycle in the closure of `id`, every member of the closure is well-founded
under children links. -/
theorem acc_of_acyclicFrom (nodes : List Node) (id : String) (h : AcyclicFrom nodes id) :
    ∀ a, InClosure nodes id a → Acc (fun c a => ChildLink nodes a c) a := by
  have hleaf : ∀ a, a ∉ nodes.map Node.id → Acc (fun c a => ChildLink nodes a c) a := by
    intro a ha
    constructor
    intro d hd
    simp [ChildLink, childrenOf_eq_nil ha] at hd
  let T : Set String := {a | a ∈ nodes.map Node.id ∧ InClosure nodes id a}
  have hfin : T.Finite := (List.finite_toSet (nodes.map Node.id)).subset (fun a ha => ha.1)
  haveI : Finite T := hfin.to_subtype
  let r : T → T → Prop := fun x y => Relation.TransGen (ChildLink nodes) y.1 x.1
  haveI : IsTrans T r := ⟨fun x y z hxy hyz => Relation.TransGen.trans hyz hxy⟩
  haveI : IsIrrefl T r := ⟨fun x hx => h x.1 x.2.2 hx⟩
  have wf : WellFounded r := Finite.wellFounded_of_trans_of_irrefl r
  have key : ∀ x : T, Acc (fun c a => ChildLink nodes a c) x.1 := by
    intro x
    induction x using wf.induction with
    | _ x ih =>
      constructor
      intro c hc
      by_cases hmem : c ∈ nodes.map Node.id
      · exact ih ⟨c, hmem, Relation.ReflTransGen.tail x.2.2 hc⟩ (Relation.TransGen.single hc)
      · exact hleaf c hmem
  intro a ha
  by_cases hmem : a ∈ nodes.map Node.id
  · exact key ⟨a, hmem, ha⟩
  · exact hleaf a hmem

theorem acyclicFrom_of_acyclic {nodes : List Node} (h : Acyclic nodes) (id : String) :
    AcyclicFrom nodes id :=
  fun a _ => h a

/-- The traversal returns, for all large enough fuel, when no cycle is reachable. -/
theorem getDescendants_terminates (nodes : List Node) (id : String)
    (h : AcyclicFrom nodes id) :
    ∃ fuel0, ∀ fuel, fuel0 ≤ fuel → ∃ ds, getDescendants nodes fuel id = some ds :=
  getDescendants_of_acc nodes id (acc_of_acyclicFrom nodes id h id Relation.ReflTransGen.refl)

/-- A rank that decreases along children links rules out cycles. -/
theorem acyclic_of_rank {nodes : List Node} (rank : String → Nat)
    (h : ∀ a c, c ∈ childrenOf nodes a → rank c < rank a) : Acyclic nodes := by
  have key : ∀ a b, Relation.TransGen (ChildLink nodes) a b → rank b < rank a := by
    intro a b hab
    induction hab with
    | single hc => exact h _ _ hc
    | tail _ hc ih => exact lt_trans (h _ _ hc) ih
  intro a ha
  exact lt_irrefl _ (key a a ha)

theorem deleteNode_eq {fuel : Nat} {s : WorkspaceState} {nodeId : String} {ds : List String}
    (hmem : nodeId ∈ s.nodes.map Node.id) (hds : getDescendants s.nodes fuel nodeId = some ds) :
    deleteNode fuel s nodeId = some { s with
      nodes := (s.nodes.filter (fun node => !ds.contains node.id)).map (fun node =>
        { node with children := node.children.filter (fun c => !ds.contains c) })
      selectedNode := if s.selectedNode = some nodeId then none else s.selectedNode } := by
  obtain ⟨n, hn⟩ := findNode_isSome hmem
  simp [deleteNode, hn, hds]

theorem chainNodes_acyclic : Acyclic chainNodes := by
  apply acyclic_of_rank
    (fun a => if a = "root" then 3 else if a = "A" then 2 else if a = "B" then 1 else 0)
  intro a c hc
  unfold childrenOf findNode chainNodes at hc
  by_cases h1 : a = "root"
  · subst h1; simp [List.find?] at hc; subst hc; decide
  · by_cases h2 : a = "A"
    · subst h2; simp [List.find?] at hc; subst hc; decide
    · by_cases h3 : a = "B"
      · subst h3; simp [List.find?] at hc; subst hc; decide
      · by_cases h4 : a = "C"
        · subst h4; simp [List.find?] at hc
        · have e1 : ("root" == a) = false := by simpa using fun h => h1 h.symm
          have e2 : ("A" == a) = false := by simpa using fun h => h2 h.symm
          have e3 : ("B" == a) = false := by simpa using fun h => h3 h.symm
          have e4 : ("C" == a) = false := by simpa using fun h => h4 h.symm
          simp [List.find?, e1, e2, e3, e4] at hc

theorem getDescendants_selfLoop (fuel : Nat) :
    getDescendants selfLoopState.nodes fuel "a" = none := by
  induction fuel with
  | zero => rfl
  | succ k ih =>
    have hf : findNode selfLoopState.nodes "a" = some
        { id := "a", type := "system", label := "New System", x := 400, y := 200,
          parentId := some "a", children := ["a"] } := by
      simp [findNode, selfLoopState, List.find?]
    unfold getDescendants
    simp [hf, flatMapOpt, ih]

end Workspace

/-! ### Deleting a node -/

/-- C1. When the children links are acyclic and `nodeId` is present, `deleteNode` returns
for all large enough fuel, and the ids left are the ids of the collection, in order, minus
the members of the descendant closure of `nodeId`, each node left being a node of the
collection with its children pruned; on the chain root → A → B → C, deleting A leaves
only root. -/
theorem deleteNode_removes_exactly_closure :
    (∀ (s : WorkspaceState) (nodeId : String),
      Workspace.Acyclic s.nodes → nodeId ∈ s.nodes.map Node.id →
        ∃ fuel0, ∀ fuel, fuel0 ≤ fuel →
          ∃ (s' : WorkspaceState) (ds : List String), Workspace.deleteNode fuel s nodeId = some s' ∧
            (∀ i, i ∈ ds ↔ Workspace.InClosure s.nodes nodeId i) ∧
            s'.nodes.map Node.id = (s.nodes.map Node.id).filter (fun i => !ds.contains i) ∧
            (∀ i, i ∈ s'.nodes.map Node.id ↔
              i ∈ s.nodes.map Node.id ∧ ¬ Workspace.InClosure s.nodes nodeId i) ∧
            (∀ m ∈ s'.nodes, ∃ n ∈ s.nodes,
              m = { n with children := n.children.filter (fun c => !ds.contains c) })) ∧
    (Workspace.deleteNode 3 Workspace.chainState "A").map (fun s => s.nodes.map Node.id)
      = some ["root"] := by
  refine ⟨?_, by decide⟩
  intro s nodeId hac hmem
  obtain ⟨fuel0, h0⟩ := Workspace.getDescendants_terminates s.nodes nodeId
    (Workspace.acyclicFrom_of_acyclic hac nodeId)
  refine ⟨fuel0, fun fuel hfuel => ?_⟩
  obtain ⟨ds, hds⟩ := h0 fuel hfuel
  have hcl := Workspace.getDescendants_mem s.nodes fuel nodeId ds hds
  have hids : ((s.nodes.filter (fun node => !ds.contains node.id)).map (fun node =>
      ({ node with children := node.children.filter (fun c => !ds.contains c) } : Node))).map
        Node.id = (s.nodes.map Node.id).filter (fun i => !ds.contains i) := by
    rw [List.map_map, List.filter_map]
    rfl
  refine ⟨_, ds, Workspace.deleteNode_eq hmem hds, hcl, hids, ?_, ?_⟩
  swap
  · intro m hm
    obtain ⟨n, hn, rfl⟩ := List.mem_map.mp hm
    exact ⟨n, (List.mem_filter.mp hn).1, rfl⟩
  intro i
  have hfilter : i ∈ (s.nodes.map Node.id).filter (fun i => !ds.contains i) ↔
      i ∈ s.nodes.map Node.id ∧ ¬ Workspace.InClosure s.nodes nodeId i := by
    rw [List.mem_filter, ← hcl]
    simp
  rw [← hids] at hfilter
  exact hfilter

/-- The acyclic chain root → A → B → C is an instance of C1. -/
theorem deleteNode_removes_exactly_closure_witness :
    Workspace.Acyclic Workspace.chainState.nodes ∧
    "A" ∈ Workspace.chainState.nodes.map Node.id ∧
    ∃ fuel0, ∀ fuel, fuel0 ≤ fuel →
      ∃ (s' : WorkspaceState) (ds : List String), Workspace.deleteNode fuel Workspace.chainState "A" = some s' ∧
        (∀ i, i ∈ ds ↔ Workspace.InClosure Workspace.chainState.nodes "A" i) ∧
        s'.nodes.map Node.id =
          (Workspace.chainState.nodes.map Node.id).filter (fun i => !ds.contains i) ∧
        (∀ i, i ∈ s'.nodes.map Node.id ↔
          i ∈ Workspace.chainState.nodes.map Node.id ∧
            ¬ Workspace.InClosure Workspace.chainState.nodes "A" i) ∧
        (∀ m ∈ s'.nodes, ∃ n ∈ Workspace.chainState.nodes,
          m = { n with children := n.children.filter (fun c => !ds.contains c) }) :=
  ⟨Workspace.chainNodes_acyclic, by decide,
    deleteNode_removes_exactly_closure.1 Workspace.chainState "A"
      Workspace.chainNodes_acyclic (by decide)⟩

/-- C2, as stated, fails on a node that is its own child: the node is present, yet
`deleteNode` never returns, whatever the fuel, so the node stays with its own id among
its children. -/
theorem deleteNode_selfLoop_never_returns :
    "a" ∈ Workspace.selfLoopState.nodes.map Node.id ∧
    (∀ fuel, Workspace.deleteNode fuel Workspace.selfLoopState "a" = none) ∧
    (∃ n ∈ Workspace.selfLoopState.nodes, "a" ∈ n.children) := by
  refine ⟨by decide, fun fuel => ?_, by decide⟩
  have hf : Workspace.findNode Workspace.selfLoopState.nodes "a" = some
      { id := "a", type := "system", label := "New System", x := 400, y := 200,
        parentId := some "a", children := ["a"] } := by
    simp [Workspace.findNode, Workspace.selfLoopState, List.find?]
  simp [Workspace.deleteNode, hf, Workspace.getDescendants_selfLoop]

/-- C2, amended. When no cycle of children links is reachable from a present `nodeId`,
`deleteNode` returns for all large enough fuel, and no node left has `nodeId` or any
other member of the deleted closure among its children. -/
theorem deleteNode_survivors_drop_closure (s : WorkspaceState) (nodeId : String)
    (hac : Workspace.AcyclicFrom s.nodes nodeId) (hmem : nodeId ∈ s.nodes.map Node.id) :
    ∃ fuel0, ∀ fuel, fuel0 ≤ fuel →
      ∃ s', Workspace.deleteNode fuel s nodeId = some s' ∧
        ∀ n ∈ s'.nodes, nodeId ∉ n.children ∧
          ∀ c ∈ n.children, ¬ Workspace.InClosure s.nodes nodeId c := by
  obtain ⟨fuel0, h0⟩ := Workspace.getDescendants_terminates s.nodes nodeId hac
  refine ⟨fuel0, fun fuel hfuel => ?_⟩
  obtain ⟨ds, hds⟩ := h0 fuel hfuel
  have hcl := Workspace.getDescendants_mem s.nodes fuel nodeId ds hds
  refine ⟨_, Workspace.deleteNode_eq hmem hds, ?_⟩
  intro n hn
  obtain ⟨m, _, rfl⟩ := List.mem_map.mp hn
  have key : ∀ c ∈ m.children.filter (fun c => !ds.contains c),
      ¬ Workspace.InClosure s.nodes nodeId c := by
    intro c hc hcc
    have := (List.mem_filter.mp hc).2
    have hin : c ∈ ds := (hcl c).mpr hcc
    simp [hin] at this
  exact ⟨fun hmem2 => key nodeId hmem2 Relation.ReflTransGen.refl, key⟩

/-- The chain root → A → B → C, in which A is deleted, is an instance of amended C2. -/
theorem deleteNode_survivors_drop_closure_witness :
    Workspace.AcyclicFrom Workspace.chainState.nodes "A" ∧
    "A" ∈ Workspace.chainState.nodes.map Node.id ∧
    ∃ fuel0, ∀ fuel, fuel0 ≤ fuel →
      ∃ s', Workspace.deleteNode fuel Workspace.chainState "A" = some s' ∧
        ∀ n ∈ s'.nodes, "A" ∉ n.children ∧
          ∀ c ∈ n.children, ¬ Workspace.InClosure Workspace.chainState.nodes "A" c :=
  ⟨Workspace.acyclicFrom_of_acyclic Workspace.chainNodes_acyclic "A", by decide,
    deleteNode_survivors_drop_closure Workspace.chainState "A"
      (Workspace.acyclicFrom_of_acyclic Workspace.chainNodes_acyclic "A") (by decide)⟩

/-! ### Consistency and ids -/

namespace Workspace

theorem reachable_afterFirstAdd : Reachable afterFirstAdd :=
  Reachable.add 1700000000000 (1 / 2) (1 / 2) systemType Reachable.init
    (by norm_num) (by norm_num) (by norm_num) (by norm_num) (by decide)

theorem reachable_afterSecondAdd : Reachable afterSecondAdd :=
  Reachable.add 1700000000000 (1 / 2) (1 / 2) systemType reachable_afterFirstAdd
    (by norm_num) (by norm_num) (by norm_num) (by norm_num) (by decide)

theorem reachable_afterDrop : Reachable afterDrop :=
  Reachable.drop 1700000000000 "system" (300, 300) (0, 0) reachable_afterSecondAdd

theorem addNode_nodes_of_truthy (s : WorkspaceState) (now : Nat) (rx ry : ℚ) (type P : String)
    (hP : P ≠ "") :
    (addNode s now rx ry type (some P)).nodes =
      s.nodes.map (fun node =>
        if node.id = P then { node with children := node.children ++ [newNodeId now] }
        else node) ++
      [ if newNodeId now = P then
          { id := newNodeId now, type := type, label := addNodeLabel type,
            x := match findNode s.nodes P with
              | some p => p.x + 50
              | none => 400 + rx * 100
            y := match findNode s.nodes P with
              | some p => p.y + 150
              | none => 200 + ry * 100
            parentId := some P, children := [newNodeId now] }
        else
          { id := newNodeId now, type := type, label := addNodeLabel type,
            x := match findNode s.nodes P with
              | some p => p.x + 50
              | none => 400 + rx * 100
            y := match findNode s.nodes P with
              | some p => p.y + 150
              | none => 200 + ry * 100
            parentId := some P, children := [] } ] := by
  have ht : truthy (some P) = true := by simpa [truthy] using hP
  simp only [addNode, ht, if_true, Option.bind, List.map_append, List.map_cons, List.map_nil,
    Option.some.injEq]
  by_cases h : newNodeId now = P
  · simp [h]
  · simp [h]

/-- A map over the collection that keeps `id`, `parentId` and `children` of every node
keeps consistency. -/
theorem consistent_map {nodes : List Node} (f : Node → Node)
    (hid : ∀ n, (f n).id = n.id) (hpar : ∀ n, (f n).parentId = n.parentId)
    (hch : ∀ n, (f n).children = n.children) (h : Consistent nodes) :
    Consistent (nodes.map f) := by
  intro q hq
  obtain ⟨p, hp, rfl⟩ := List.mem_map.mp hq
  refine ⟨?_, ?_⟩
  · intro i hi
    rw [hch] at hi
    obtain ⟨n, hn, hni, hnp⟩ := (h p hp).1 i hi
    exact ⟨f n, List.mem_map_of_mem f hn, by rw [hid, hni], by rw [hpar, hid, hnp]⟩
  · intro m hm hmp
    obtain ⟨n, hn, rfl⟩ := List.mem_map.mp hm
    rw [hpar, hid] at hmp
    rw [hid, hch]
    exact (h p hp).2 n hn hmp

/-- The handler `handleNodeDrag` keeps consistency. -/
theorem consistent_handleNodeDrag (s : WorkspaceState) (nodeId : String) (x y : ℚ)
    (h : Consistent s.nodes) : Consistent (handleNodeDrag s nodeId x y).nodes := by
  apply consistent_map _ _ _ _ h <;> intro n <;> by_cases hn : n.id = nodeId <;> simp [hn]

/-- The handler `updateNodeLabel` keeps consistency. -/
theorem consistent_updateNodeLabel (s : WorkspaceState) (nodeId label : String)
    (h : Consistent s.nodes) : Consistent (updateNodeLabel s nodeId label).nodes := by
  apply consistent_map _ _ _ _ h <;> intro n <;> by_cases hn : n.id = nodeId <;> simp [hn]

/-- The handler `deleteNode` keeps consistency whenever it returns. -/
theorem consistent_deleteNode (fuel : Nat) (s s' : WorkspaceState) (nodeId : String)
    (h : Consistent s.nodes) (hdel : deleteNode fuel s nodeId = some s') :
    Consistent s'.nodes := by
  unfold deleteNode at hdel
  cases hf : findNode s.nodes nodeId with
  | none =>
    simp only [hf, Option.some.injEq] at hdel
    subst hdel
    exact h
  | some node =>
    cases hds : getDescendants s.nodes fuel nodeId with
    | none => simp [hf, hds] at hdel
    | some ds =>
      simp only [hf, hds, Option.some.injEq] at hdel
      subst hdel
      intro q hq
      obtain ⟨p, hp, rfl⟩ := List.mem_map.mp hq
      obtain ⟨hp, _⟩ := List.mem_filter.mp hp
      refine ⟨?_, ?_⟩
      · intro i hi
        obtain ⟨hi, hids⟩ := List.mem_filter.mp hi
        obtain ⟨n, hn, hni, hnp⟩ := (h p hp).1 i hi
        refine ⟨{ n with children := n.children.filter (fun c => !ds.contains c) }, ?_, hni, hnp⟩
        exact List.mem_map.mpr ⟨n, List.mem_filter.mpr ⟨hn, by rw [hni]; exact hids⟩, rfl⟩
      · intro m hm hmp
        obtain ⟨n, hn, rfl⟩ := List.mem_map.mp hm
        obtain ⟨hn, hids⟩ := List.mem_filter.mp hn
        exact List.mem_filter.mpr ⟨(h p hp).2 n hn hmp, hids⟩

/-- The drop handler keeps consistency when no node names the new id as its parent. -/
theorem consistent_onDrop (s : WorkspaceState) (now : Nat) (type : String) (client rect : ℚ × ℚ)
    (h : Consistent s.nodes) (hfresh : ∀ n ∈ s.nodes, n.parentId ≠ some (newNodeId now)) :
    Consistent (onDrop s now type client rect).nodes := by
  unfold onDrop
  by_cases ht : (type != "") = true
  · simp only [ht, if_true]
    intro q hq
    rcases List.mem_append.mp hq with hq | hq
    · refine ⟨?_, ?_⟩
      · intro i hi
        obtain ⟨n, hn, hni, hnp⟩ := (h q hq).1 i hi
        exact ⟨n, List.mem_append_left _ hn, hni, hnp⟩
      · intro m hm hmp
        rcases List.mem_append.mp hm with hm | hm
        · exact (h q hq).2 m hm hmp
        · rw [List.mem_singleton] at hm
          subst hm
          simp at hmp
    · rw [List.mem_singleton] at hq
      subst hq
      refine ⟨?_, ?_⟩
      · intro i hi
        simp at hi
      · intro m hm hmp
        rcases List.mem_append.mp hm with hm | hm
        · exact absurd hmp (hfresh m hm)
        · rw [List.mem_singleton] at hm
          subst hm
          simp at hmp
  · simp only [ht]
    exact h

theorem addNode_nodes_of_falsy (s : WorkspaceState) (now : Nat) (rx ry : ℚ) (type : String)
    (parentId : Option String) (hP : truthy parentId = false) :
    (addNode s now rx ry type parentId).nodes =
      s.nodes ++
      [ { id := newNodeId now, type := type, label := addNodeLabel type,
          x := 400 + rx * 100, y := 200 + ry * 100,
          parentId := parentId, children := [] } ] := by
  simp [addNode, hP]

/-- The handler `addNode` keeps consistency when the new id is fresh as a parent
reference: no node has it as `parentId`, it is not the `parentId` passed, and the
`parentId` passed is not the empty string while some node has the empty id. -/
theorem consistent_addNode (s : WorkspaceState) (now : Nat) (rx ry : ℚ) (type : String)
    (parentId : Option String) (h : Consistent s.nodes)
    (hpar : ∀ n ∈ s.nodes, n.parentId ≠ some (newNodeId now))
    (harg : parentId ≠ some (newNodeId now))
    (hne : parentId = some "" → ∀ n ∈ s.nodes, n.id ≠ "") :
    Consistent (addNode s now rx ry type parentId).nodes := by
  by_cases ht : truthy parentId = true
  · obtain ⟨P, rfl⟩ : ∃ P, parentId = some P := by
      cases parentId with
      | none => simp [truthy] at ht
      | some P => exact ⟨P, rfl⟩
    have hP : P ≠ "" := by simpa [truthy] using ht
    have hnew : newNodeId now ≠ P := fun e => harg (by rw [e])
    rw [addNode_nodes_of_truthy s now rx ry type P hP]
    simp only [hnew, if_false]
    have hbid : ∀ n : Node, (if n.id = P then
        ({ n with children := n.children ++ [newNodeId now] } : Node) else n).id = n.id := by
      intro n
      split <;> rfl
    have hbpar : ∀ n : Node, (if n.id = P then
        ({ n with children := n.children ++ [newNodeId now] } : Node) else n).parentId
          = n.parentId := by
      intro n
      split <;> rfl
    intro q hq
    rcases List.mem_append.mp hq with hq | hq
    · obtain ⟨p, hp, rfl⟩ := List.mem_map.mp hq
      by_cases hpid : p.id = P
      · simp only [hpid, if_true]
        refine ⟨?_, ?_⟩
        · intro i hi
          rcases List.mem_append.mp hi with hi | hi
          · obtain ⟨n, hn, hni, hnp⟩ := (h p hp).1 i hi
            refine ⟨_, List.mem_append_left _ (List.mem_map_of_mem _ hn), ?_, ?_⟩
            · rw [hbid, hni]
            · rw [hbpar, hnp, hpid]
          · rw [List.mem_singleton] at hi
            subst hi
            exact ⟨_, List.mem_append_right _ (List.mem_singleton_self _), rfl, rfl⟩
        · intro m hm hmp
          rcases List.mem_append.mp hm with hm | hm
          · obtain ⟨n, hn, rfl⟩ := List.mem_map.mp hm
            have hnp : n.parentId = some p.id := by
              rw [hbpar] at hmp
              rw [hmp, hpid]
            have hmem := (h p hp).2 n hn hnp
            by_cases hnid : n.id = P
            · simp only [hnid, if_true]
              exact List.mem_append_left _ (hnid ▸ hmem)
            · simp only [hnid, if_false]
              exact List.mem_append_left _ hmem
          · rw [List.mem_singleton] at hm
            subst hm
            exact List.mem_append_right _ (List.mem_singleton_self _)
      · simp only [hpid, if_false]
        refine ⟨?_, ?_⟩
        · intro i hi
          obtain ⟨n, hn, hni, hnp⟩ := (h p hp).1 i hi
          refine ⟨_, List.mem_append_left _ (List.mem_map_of_mem _ hn), ?_, ?_⟩
          · rw [hbid, hni]
          · rw [hbpar, hnp]
        · intro m hm hmp
          rcases List.mem_append.mp hm with hm | hm
          · obtain ⟨n, hn, rfl⟩ := List.mem_map.mp hm
            have hnp : n.parentId = some p.id := by
              rw [hbpar] at hmp
              exact hmp
            have hmem := (h p hp).2 n hn hnp
            by_cases hnid : n.id = P
            · simp only [hnid, if_true]
              exact hnid ▸ hmem
            · simp only [hnid, if_false]
              exact hmem
          · rw [List.mem_singleton] at hm
            subst hm
            exact absurd (Option.some.inj hmp).symm hpid
    · rw [List.mem_singleton] at hq
      subst hq
      refine ⟨?_, ?_⟩
      · intro i hi
        simp at hi
      · intro m hm hmp
        rcases List.mem_append.mp hm with hm | hm
        · obtain ⟨n, hn, rfl⟩ := List.mem_map.mp hm
          have hnp : n.parentId = some (newNodeId now) := by
            rw [hbpar] at hmp
            exact hmp
          exact absurd hnp (hpar n hn)
        · rw [List.mem_singleton] at hm
          subst hm
          exact absurd (Option.some.inj hmp).symm hnew
  · have hf : truthy parentId = false := by simpa using ht
    rw [addNode_nodes_of_falsy s now rx ry type parentId hf]
    intro q hq
    rcases List.mem_append.mp hq with hq | hq
    · refine ⟨?_, ?_⟩
      · intro i hi
        obtain ⟨n, hn, hni, hnp⟩ := (h q hq).1 i hi
        exact ⟨n, List.mem_append_left _ hn, hni, hnp⟩
      · intro m hm hmp
        rcases List.mem_append.mp hm with hm | hm
        · exact (h q hq).2 m hm hmp
        · rw [List.mem_singleton] at hm
          subst hm
          exfalso
          have hq2 : parentId = some q.id := hmp
          have hqe : q.id = "" := by
            rw [hq2] at hf
            simpa [truthy] using hf
          exact hne (by rw [hq2, hqe]) q hq hqe
    · rw [List.mem_singleton] at hq
      subst hq
      refine ⟨?_, ?_⟩
      · intro i hi
        simp at hi
      · intro m hm hmp
        rcases List.mem_append.mp hm with hm | hm
        · exact absurd hmp (hpar m hm)
        · rw [List.mem_singleton] at hm
          subst hm
          exact absurd hmp harg

end Workspace

/-- C3. The initial four nodes are consistent, but three creations that read the same
clock value reach a state that is not: the second makes a node that is its own parent,
the third adds a node with the same id and no children. -/
theorem consistency_lost_after_id_collision :
    Workspace.Consistent Workspace.initialState.nodes ∧
    Workspace.Reachable Workspace.afterDrop ∧
    Workspace.afterDrop.nodes.map (fun n => (n.id, n.parentId, n.children)) =
      [ ("root", none, ["motor", "sensor"]),
        ("motor", some "root", ["encoder"]),
        ("sensor", some "root", []),
        ("encoder", some "motor", []),
        ("node-1700000000000", none, ["node-1700000000000"]),
        ("node-1700000000000", some "node-1700000000000", ["node-1700000000000"]),
        ("node-1700000000000", none, []) ] ∧
    ¬ Workspace.Consistent Workspace.afterDrop.nodes :=
  ⟨by decide, Workspace.reachable_afterDrop, by decide, by decide⟩

/-- C4. Two clicks on an add button that read the same clock value reach a state in
which two nodes have the same id: the id given to the second node is the id of a node
that is already in the collection. -/
theorem duplicate_id_after_same_clock :
    Workspace.Reachable Workspace.afterFirstAdd ∧
    Workspace.newNodeId 1700000000000 ∈ Workspace.afterFirstAdd.nodes.map Node.id ∧
    Workspace.Reachable Workspace.afterSecondAdd ∧
    Workspace.afterSecondAdd.nodes.map Node.id =
      ["root", "motor", "sensor", "encoder", "node-1700000000000", "node-1700000000000"] ∧
    ¬ (Workspace.afterSecondAdd.nodes.map Node.id).Nodup :=
  ⟨Workspace.reachable_afterFirstAdd, by decide, Workspace.reachable_afterSecondAdd,
    by decide, by decide⟩

/-! ### Adding and moving nodes -/

/-- C6, as stated, fails: `handleNodeDrag` called with (-50, -50) on the root of the
initial tree stores (-50, -50), not (0, 0). -/
theorem handleNodeDrag_stores_negative :
    (Workspace.handleNodeDrag Workspace.initialState "root" (-50) (-50)).nodes.map
        (fun n => (n.id, n.x, n.y)) =
      [ ("root", -50, -50), ("motor", 250, 250), ("sensor", 550, 250), ("encoder", 250, 400) ] := by
  simp [Workspace.handleNodeDrag, Workspace.initialState, Workspace.initialNodes]

/-- C6, amended. `handleNodeDrag` stores the coordinates it is given; the clamp is in the
pointer-move handler of the dragged node, which passes it `max 0 newX` and `max 0 newY`,
so after a pointer-move the dragged node, which is still present, has non-negative
coordinates. -/
theorem drag_move_stores_clamped (s : WorkspaceState) (node : Node) (l : NodeLocal)
    (canvas : CanvasArea) (client : ℚ × ℚ) (nodeId : String) (x y : ℚ) :
    (∀ n ∈ (Workspace.handleNodeDrag s nodeId x y).nodes, n.id = nodeId → n.x = x ∧ n.y = y) ∧
    (∀ n ∈ (ComponentNode.handleMouseMove s node l (some canvas) client).nodes,
      n.id = node.id →
        n.x = max 0 ((client.1 - canvas.left - l.dragOffset.1) /
          (if canvas.a = 0 then 1 else canvas.a)) ∧
        n.y = max 0 ((client.2 - canvas.top - l.dragOffset.2) /
          (if canvas.a = 0 then 1 else canvas.a)) ∧
        0 ≤ n.x ∧ 0 ≤ n.y) ∧
    (node ∈ s.nodes →
      ∃ n ∈ (ComponentNode.handleMouseMove s node l (some canvas) client).nodes,
        n.id = node.id) := by
  have hdrag : ∀ (i : String) (a b : ℚ), ∀ n ∈ (Workspace.handleNodeDrag s i a b).nodes,
      n.id = i → n.x = a ∧ n.y = b := by
    intro i a b n hn hid
    obtain ⟨m, _, rfl⟩ := List.mem_map.mp hn
    by_cases h : m.id = i
    · simp [h]
    · simp [h] at hid
  refine ⟨hdrag nodeId x y, ?_, ?_⟩
  · intro n hn hid
    obtain ⟨hx, hy⟩ := hdrag _ _ _ n hn hid
    exact ⟨hx, hy, hx ▸ le_max_left _ _, hy ▸ le_max_left _ _⟩
  · intro hmem
    exact ⟨_, List.mem_map.mpr ⟨node, hmem, rfl⟩, by simp⟩

/-- Dragging the root of the initial tree to the computed position (-50, -50) is
an instance of amended C6: the root is stored at (0, 0). -/
theorem drag_move_stores_clamped_witness :
    ∃ n ∈ (ComponentNode.handleMouseMove Workspace.initialState
        { id := "root", type := "system", label := "System Root", x := 400, y := 100,
          parentId := none, children := ["motor", "sensor"] }
        { isDragging := true, isEditing := false, editLabel := "System Root",
          dragOffset := (10, 10) }
        (some { left := 0, top := 0, a := 1 }) (-40, -40)).nodes,
      n.id = "root" ∧ n.x = 0 ∧ n.y = 0 := by
  have h := drag_move_stores_clamped Workspace.initialState
    { id := "root", type := "system", label := "System Root", x := 400, y := 100,
      parentId := none, children := ["motor", "sensor"] }
    { isDragging := true, isEditing := false, editLabel := "System Root",
      dragOffset := (10, 10) }
    { left := 0, top := 0, a := 1 } (-40, -40) "root" 0 0
  obtain ⟨n, hn, hid⟩ := h.2.2 (by simp [Workspace.initialState, Workspace.initialNodes])
  obtain ⟨hx, hy, _, _⟩ := h.2.1 n hn hid
  norm_num at hx hy
  exact ⟨n, hn, hid, hx, hy⟩

/-! ### Viewport -/

namespace Workspace

theorem applyZoomOp_bounds (s : WorkspaceState) (op : ZoomOp)
    (h : 1 / 2 ≤ s.zoom ∧ s.zoom ≤ 2) :
    1 / 2 ≤ (applyZoomOp s op).zoom ∧ (applyZoomOp s op).zoom ≤ 2 := by
  obtain ⟨h1, h2⟩ := h
  cases op with
  | zoomIn =>
    simp only [applyZoomOp, handleZoomIn]
    exact ⟨le_min (by linarith) (by norm_num), min_le_right _ _⟩
  | zoomOut =>
    simp only [applyZoomOp, handleZoomOut]
    exact ⟨le_max_right _ _, max_le (by linarith) (by norm_num)⟩
  | resetView =>
    simp only [applyZoomOp, handleZoomReset]
    norm_num

theorem runZoomOps_bounds (ops : List ZoomOp) :
    ∀ s : WorkspaceState, 1 / 2 ≤ s.zoom ∧ s.zoom ≤ 2 →
      1 / 2 ≤ (runZoomOps s ops).zoom ∧ (runZoomOps s ops).zoom ≤ 2 := by
  induction ops with
  | nil => intro s h; exact h
  | cons op ops ih =>
    intro s h
    exact ih (applyZoomOp s op) (applyZoomOp_bounds s op h)

end Workspace

/-- C7. After any finite sequence of zoomIn, zoomOut and resetView calls from the first
render, whose zoom is 1, the zoom is at least 0.5 and at most 2. -/
theorem zoom_stays_within_bounds (ops : List ZoomOp) :
    Workspace.initialState.zoom = 1 ∧
    1 / 2 ≤ (Workspace.runZoomOps Workspace.initialState ops).zoom ∧
    (Workspace.runZoomOps Workspace.initialState ops).zoom ≤ 2 :=
  ⟨rfl, Workspace.runZoomOps_bounds ops Workspace.initialState
    (by simp only [Workspace.initialState]; norm_num)⟩

/-- C8. From zoom 1, zoomIn then zoomOut gives zoom 1 again; and for every zoom between
0.5 and 1.9, zoomIn then zoomOut gives back the state it started from. -/
theorem zoomIn_then_zoomOut_restores :
    (Workspace.handleZoomOut (Workspace.handleZoomIn Workspace.initialState)).zoom = 1 ∧
    ∀ s : WorkspaceState, 1 / 2 ≤ s.zoom → s.zoom ≤ 19 / 10 →
      Workspace.handleZoomOut (Workspace.handleZoomIn s) = s := by
  have key : ∀ z : ℚ, 1 / 2 ≤ z → z ≤ 19 / 10 → max (min (z + 1 / 10) 2 - 1 / 10) (1 / 2) = z := by
    intro z h1 h2
    rw [min_eq_left (by linarith), max_eq_left (by linarith)]
    ring
  refine ⟨?_, ?_⟩
  · simp only [Workspace.handleZoomOut, Workspace.handleZoomIn, Workspace.initialState]
    exact key 1 (by norm_num) (by norm_num)
  · intro s h1 h2
    cases s with
    | mk nodes selectedNode zoom panOffset =>
      simp only [Workspace.handleZoomOut, Workspace.handleZoomIn]
      rw [key zoom h1 h2]

/-- The first render, at zoom 1, is an instance of C8. -/
theorem zoomIn_then_zoomOut_restores_witness :
    (1 / 2 : ℚ) ≤ Workspace.initialState.zoom ∧ Workspace.initialState.zoom ≤ 19 / 10 ∧
    Workspace.handleZoomOut (Workspace.handleZoomIn Workspace.initialState) =
      Workspace.initialState :=
  ⟨by simp only [Workspace.initialState]; norm_num,
    by simp only [Workspace.initialState]; norm_num,
    zoomIn_then_zoomOut_restores.2 Workspace.initialState
      (by simp only [Workspace.initialState]; norm_num)
      (by simp only [Workspace.initialState]; norm_num)⟩

/-- C9, as stated, fails in the binary64 arithmetic of the code.  One zoom-in click in the
first render gives the zoom 1.1, the Number value 2476979795053773 / 2 ^ 51, which lies
between 0.5 and 2; with pan (0, 0) the scene point (15, 15) is sent to (16.5, 16.5), and
the formula of the drop handler sends that to 14.999999999999998, the Number value
15 - 2 ^ (-49), in both coordinates. -/
theorem round_trip_loses_last_bit :
    (Workspace.handleZoomInF64 Workspace.initialState).zoom =
      2476979795053773 / 2251799813685248 ∧
    (1 / 2 : ℚ) ≤ 2476979795053773 / 2251799813685248 ∧
    (2476979795053773 / 2251799813685248 : ℚ) ≤ 2 ∧
    f64Round 15 = 15 ∧
    Workspace.sceneToScreenF64 (0, 0) (2476979795053773 / 2251799813685248) (15, 15) =
      (33 / 2, 33 / 2) ∧
    Workspace.screenToSceneF64 (0, 0) (2476979795053773 / 2251799813685248)
        (Workspace.sceneToScreenF64 (0, 0) (2476979795053773 / 2251799813685248) (15, 15)) =
      (15 - 1 / 2 ^ 49, 15 - 1 / 2 ^ 49) ∧
    Workspace.screenToSceneF64 (0, 0) (2476979795053773 / 2251799813685248)
        (Workspace.sceneToScreenF64 (0, 0) (2476979795053773 / 2251799813685248) (15, 15)) ≠
      (15, 15) := by
  refine ⟨by decide!, by norm_num, by norm_num, by decide!, by decide!, by decide!,
    by decide!⟩

/-- C9, amended. In exact arithmetic, for every pan, every zoom between 0.5 and 2 and
every scene point `p`, `screenToScene (sceneToScreen p) = p`, so that a palette drop at
the pointer position where the scene point `p` is drawn appends a node whose position
is `p`.  In the binary64 arithmetic of the code the round trip returns `p` at zoom 1
with pan (0, 0), for every `p` whose coordinates are Number values. -/
theorem screenToScene_sceneToScreen (panOffset : ℚ × ℚ) (zoom : ℚ) (p : ℚ × ℚ)
    (hlo : 1 / 2 ≤ zoom) (_hhi : zoom ≤ 2) :
    Workspace.screenToScene panOffset zoom (Workspace.sceneToScreen panOffset zoom p) = p ∧
    (∀ (s : WorkspaceState) (now : Nat) (type : String) (rect : ℚ × ℚ),
      s.panOffset = panOffset → s.zoom = zoom → type ≠ "" →
      (Workspace.onDrop s now type
          (rect.1 + (Workspace.sceneToScreen panOffset zoom p).1,
           rect.2 + (Workspace.sceneToScreen panOffset zoom p).2) rect).nodes.getLast?.map
        (fun n => (n.x, n.y)) = some p) ∧
    (f64Round p.1 = p.1 → f64Round p.2 = p.2 →
      Workspace.screenToSceneF64 (0, 0) 1 (Workspace.sceneToScreenF64 (0, 0) 1 p) = p) := by
  have hz : zoom ≠ 0 := by
    intro h
    rw [h] at hlo
    norm_num at hlo
  have key : Workspace.screenToScene panOffset zoom
      (Workspace.sceneToScreen panOffset zoom p) = p := by
    simp only [Workspace.screenToScene, Workspace.sceneToScreen]
    ext
    · simp only [add_sub_cancel_right]
      exact mul_div_cancel_right₀ _ hz
    · simp only [add_sub_cancel_right]
      exact mul_div_cancel_right₀ _ hz
  refine ⟨key, ?_, ?_⟩
  · intro s now type rect hpan hzoom htype
    have ht : (type != "") = true := by simpa using htype
    simp only [Workspace.onDrop, ht, if_true, hpan, hzoom, add_sub_cancel_left,
      List.getLast?_append_of_ne_nil _ (List.cons_ne_nil _ _), List.getLast?_singleton,
      Option.map_some']
    exact congrArg some key
  · intro h1 h2
    simp only [Workspace.screenToSceneF64, Workspace.sceneToScreenF64, mul_one, add_zero,
      sub_zero, div_one, h1, h2]

/-- Zoom 3/2 with pan (120, -40) and the scene point (10, 20) is an instance of amended
C9. -/
theorem screenToScene_sceneToScreen_witness :
    (1 / 2 : ℚ) ≤ 3 / 2 ∧ (3 / 2 : ℚ) ≤ 2 ∧
    Workspace.screenToScene (120, -40) (3 / 2)
      (Workspace.sceneToScreen (120, -40) (3 / 2) (10, 20)) = (10, 20) :=
  ⟨by norm_num, by norm_num,
    (screenToScene_sceneToScreen (120, -40) (3 / 2) (10, 20) (by norm_num) (by norm_num)).1⟩

/-! ### Renaming -/

namespace ComponentNode

theorem jsTrim_of_blank (b : String) (h : ∀ c ∈ b.data, isJsWhitespace c = true) :
    jsTrim b = "" := by
  have h1 : b.data.dropWhile isJsWhitespace = [] := by
    rw [List.dropWhile_eq_nil_iff]
    exact h
  unfold jsTrim
  rw [h1]
  rfl

end ComponentNode

/-- C10. Committing an edit buffer that is empty or holds only white space leaves the
workspace, so the node collection and the node's label, as it was, and puts the node's
label back into the edit buffer. -/
theorem handleLabelSave_blank_reverts (s : WorkspaceState) (node : Node) (l : NodeLocal)
    (h : ∀ c ∈ l.editLabel.data, ComponentNode.isJsWhitespace c = true) :
    (ComponentNode.handleLabelSave s node l).1 = s ∧
    (ComponentNode.handleLabelSave s node l).1.nodes = s.nodes ∧
    (ComponentNode.handleLabelSave s node l).2.editLabel = node.label ∧
    (ComponentNode.handleLabelSave s node l).2.isEditing = false := by
  have ht := ComponentNode.jsTrim_of_blank l.editLabel h
  simp [ComponentNode.handleLabelSave, ht]

/-- A buffer of a space, a tab and a no-break space on the root node is an instance
of C10. -/
theorem handleLabelSave_blank_reverts_witness :
    (ComponentNode.handleLabelSave Workspace.initialState
        { id := "root", type := "system", label := "System Root", x := 400, y := 100,
          parentId := none, children := ["motor", "sensor"] }
        { isDragging := false, isEditing := true, editLabel := " \t\u00a0",
          dragOffset := (0, 0) }).1 = Workspace.initialState ∧
    (ComponentNode.handleLabelSave Workspace.initialState
        { id := "root", type := "system", label := "System Root", x := 400, y := 100,
          parentId := none, children := ["motor", "sensor"] }
        { isDragging := false, isEditing := true, editLabel := " \t\u00a0",
          dragOffset := (0, 0) }).2.editLabel = "System Root" :=
  have h := handleLabelSave_blank_reverts Workspace.initialState
    { id := "root", type := "system", label := "System Root", x := 400, y := 100,
      parentId := none, children := ["motor", "sensor"] }
    { isDragging := false, isEditing := true, editLabel := " \t\u00a0", dragOffset := (0, 0) }
    (by decide)
  ⟨h.1, h.2.2.1⟩

/-! ### Selection -/

/-- C11, as stated, fails when `X` is the prior selection: from the state in which root
is selected, selecting root and then root again leaves root selected. -/
theorem select_twice_restores_selected :
    Workspace.rootSelected.selectedNode = some "root" ∧
    (Workspace.handleNodeSelect (Workspace.handleNodeSelect Workspace.rootSelected "root")
      "root").selectedNode = some "root" :=
  ⟨by decide, by decide⟩

/-- C11, amended. For every id `X` and every prior selection other than `X`, selecting `X`
makes `X` the selection and selecting `X` again leaves the selection empty; when `X` is
the prior selection the two selects restore it; a select never changes the nodes. -/
theorem handleNodeSelect_toggle (s : WorkspaceState) (X : String) :
    (s.selectedNode ≠ some X →
      (Workspace.handleNodeSelect s X).selectedNode = some X ∧
      (Workspace.handleNodeSelect (Workspace.handleNodeSelect s X) X).selectedNode = none) ∧
    (s.selectedNode = some X →
      (Workspace.handleNodeSelect s X).selectedNode = none ∧
      (Workspace.handleNodeSelect (Workspace.handleNodeSelect s X) X).selectedNode = some X) ∧
    (Workspace.handleNodeSelect s X).nodes = s.nodes ∧
    (Workspace.handleNodeSelect s X).zoom = s.zoom ∧
    (Workspace.handleNodeSelect s X).panOffset = s.panOffset := by
  refine ⟨?_, ?_, rfl, rfl, rfl⟩
  · intro h
    have h2 : ¬ (some X = s.selectedNode) := fun e => h e.symm
    simp [Workspace.handleNodeSelect, h2]
  · intro h
    simp [Workspace.handleNodeSelect, h]

/-- Selecting motor twice in the first render, where nothing is selected, is an instance
of amended C11. -/
theorem handleNodeSelect_toggle_witness :
    Workspace.initialState.selectedNode ≠ some "motor" ∧
    (Workspace.handleNodeSelect Workspace.initialState "motor").selectedNode = some "motor" ∧
    (Workspace.handleNodeSelect (Workspace.handleNodeSelect Workspace.initialState "motor")
      "motor").selectedNode = none :=
  ⟨by decide,
    (handleNodeSelect_toggle Workspace.initialState "motor").1 (by decide)⟩

/-- C12. For an id that no node of the collection has, `deleteNode` returns, whatever
the fuel, the state it was given: nodes and selection are unchanged. -/
theorem deleteNode_unknown_id_noop (fuel : Nat) (s : WorkspaceState) (nodeId : String)
    (h : nodeId ∉ s.nodes.map Node.id) :
    Workspace.deleteNode fuel s nodeId = some s ∧
    (∀ s', Workspace.deleteNode fuel s nodeId = some s' →
      s'.nodes = s.nodes ∧ s'.selectedNode = s.selectedNode) := by
  have hfind : Workspace.findNode s.nodes nodeId = none := Workspace.findNode_eq_none h
  have hdel : Workspace.deleteNode fuel s nodeId = some s := by
    unfold Workspace.deleteNode
    rw [hfind]
  refine ⟨hdel, ?_⟩
  intro s' hs'
  rw [hdel] at hs'
  cases hs'
  exact ⟨rfl, rfl⟩

/-- Deleting the unknown id ghost in the state where root is selected is an instance
of C12. -/
theorem deleteNode_unknown_id_noop_witness :
    "ghost" ∉ Workspace.rootSelected.nodes.map Node.id ∧
    Workspace.deleteNode 0 Workspace.rootSelected "ghost" = some Workspace.rootSelected :=
  ⟨by decide, (deleteNode_unknown_id_noop 0 Workspace.rootSelected "ghost" (by decide)).1⟩

namespace Workspace

theorem reachable_encoderSelected : Reachable encoderSelected :=
  Reachable.select
    { id := "encoder", type := "electrical", label := "Rotary Encoder", x := 250, y := 400,
      parentId := some "motor", children := [] }
    Reachable.init (by simp [initialState, initialNodes])

theorem deleteNode_encoderSelected :
    deleteNode 2 encoderSelected "motor" = some encoderSelectedMotorDeleted := by
  decide

theorem reachable_encoderSelectedMotorDeleted : Reachable encoderSelectedMotorDeleted :=
  Reachable.delete 2
    { id := "motor", type := "mechanical", label := "Motor Assembly", x := 250, y := 250,
      parentId := some "root", children := ["encoder"] }
    reachable_encoderSelected
    (by simp [encoderSelected, handleNodeSelect, initialState, initialNodes])
    deleteNode_encoderSelected

/-- When the id deleted is the selection, the selection afterwards is empty. -/
theorem deleteNode_clears_selected_id (fuel : Nat) (s s' : WorkspaceState) (nodeId : String)
    (hmem : nodeId ∈ s.nodes.map Node.id) (hsel : s.selectedNode = some nodeId)
    (hdel : deleteNode fuel s nodeId = some s') : s'.selectedNode = none := by
  obtain ⟨n, hn⟩ := findNode_isSome hmem
  unfold deleteNode at hdel
  cases hds : getDescendants s.nodes fuel nodeId with
  | none => simp [hn, hds] at hdel
  | some ds =>
    simp only [hn, hds, Option.some.injEq] at hdel
    subst hdel
    simp [hsel]

end Workspace

/-- C13. A click on encoder and then a click on the delete button of motor, its parent,
reach a state in which encoder is gone from the collection and is still the selection:
`deleteNode` clears the selection only when it equals the id it was called with. -/
theorem selection_survives_deleted_descendant :
    Workspace.Reachable Workspace.encoderSelected ∧
    Workspace.encoderSelected.selectedNode = some "encoder" ∧
    Workspace.InClosure Workspace.encoderSelected.nodes "motor" "encoder" ∧
    Workspace.deleteNode 2 Workspace.encoderSelected "motor" =
      some Workspace.encoderSelectedMotorDeleted ∧
    Workspace.Reachable Workspace.encoderSelectedMotorDeleted ∧
    Workspace.encoderSelectedMotorDeleted.nodes.map Node.id = ["root", "sensor"] ∧
    Workspace.encoderSelectedMotorDeleted.selectedNode = some "encoder" ∧
    "encoder" ∉ Workspace.encoderSelectedMotorDeleted.nodes.map Node.id := by
  refine ⟨Workspace.reachable_encoderSelected, by decide, ?_,
    Workspace.deleteNode_encoderSelected, Workspace.reachable_encoderSelectedMotorDeleted,
    by decide, by decide, by decide⟩
  apply Relation.ReflTransGen.single
  show "encoder" ∈ Workspace.childrenOf Workspace.encoderSelected.nodes "motor"
  decide

/-! ### Moving and renaming: what stays as it was -/

/-- C14. `handleNodeDrag` keeps the nodes in place and in order: every node keeps its id,
type, label, parentId and children, a node whose id differs from `nodeId` is unchanged,
a node with that id gets the coordinates given; selection, zoom and pan stay; when no
node has the id the state is unchanged. -/
theorem handleNodeDrag_overwrites_position_only (s : WorkspaceState) (nodeId : String)
    (x y : ℚ) :
    List.Forall₂
      (fun old new : Node =>
        new.id = old.id ∧ new.type = old.type ∧ new.label = old.label ∧
        new.parentId = old.parentId ∧ new.children = old.children ∧
        (old.id = nodeId → new.x = x ∧ new.y = y) ∧ (old.id ≠ nodeId → new = old))
      s.nodes (Workspace.handleNodeDrag s nodeId x y).nodes ∧
    (Workspace.handleNodeDrag s nodeId x y).nodes.length = s.nodes.length ∧
    (Workspace.handleNodeDrag s nodeId x y).selectedNode = s.selectedNode ∧
    (Workspace.handleNodeDrag s nodeId x y).zoom = s.zoom ∧
    (Workspace.handleNodeDrag s nodeId x y).panOffset = s.panOffset ∧
    (nodeId ∉ s.nodes.map Node.id → Workspace.handleNodeDrag s nodeId x y = s) := by
  refine ⟨?_, by simp [Workspace.handleNodeDrag], rfl, rfl, rfl, ?_⟩
  · simp only [Workspace.handleNodeDrag]
    rw [List.forall₂_map_right_iff, List.forall₂_same]
    intro n _
    by_cases h : n.id = nodeId
    · simp [h]
    · simp [h]
  · intro h
    have hmap : s.nodes.map (fun node =>
        if node.id = nodeId then ({ node with x := x, y := y } : Node) else node) = s.nodes := by
      have hcongr : s.nodes.map (fun node =>
          if node.id = nodeId then ({ node with x := x, y := y } : Node) else node)
            = s.nodes.map (fun node => node) := by
        apply List.map_congr_left
        intro n hn
        have hne : n.id ≠ nodeId := fun e => h (List.mem_map.mpr ⟨n, hn, e⟩)
        simp [hne]
      rw [hcongr]
      exact List.map_id' s.nodes
    cases s with
    | mk nodes selectedNode zoom panOffset =>
      simp only [Workspace.handleNodeDrag] at hmap ⊢
      rw [hmap]

namespace ComponentNode

/-- The method `trim` cuts a run of white space off each end of the buffer, and what is
left neither starts nor ends with white space. -/
theorem jsTrim_spec (b : String) :
    ∃ pre post : List Char,
      b.data = pre ++ (jsTrim b).data ++ post ∧
      (∀ c ∈ pre, isJsWhitespace c = true) ∧ (∀ c ∈ post, isJsWhitespace c = true) ∧
      (∀ c, (jsTrim b).data.head? = some c → isJsWhitespace c = false) ∧
      (∀ c, (jsTrim b).data.getLast? = some c → isJsWhitespace c = false) := by
  have htrim : (jsTrim b).data =
      ((b.data.dropWhile isJsWhitespace).reverse.dropWhile isJsWhitespace).reverse := rfl
  generalize hm : b.data.dropWhile isJsWhitespace = m at htrim
  generalize ht : m.reverse.dropWhile isJsWhitespace = t at htrim
  have h1 : b.data = b.data.takeWhile isJsWhitespace ++ m := by
    rw [← hm, List.takeWhile_append_dropWhile]
  have h2 : m = t.reverse ++ (m.reverse.takeWhile isJsWhitespace).reverse := by
    have h := List.takeWhile_append_dropWhile isJsWhitespace m.reverse
    rw [ht] at h
    have h' := congrArg List.reverse h
    rw [List.reverse_append, List.reverse_reverse] at h'
    exact h'.symm
  have hlast : ∀ c, t.reverse.getLast? = some c → isJsWhitespace c = false := by
    intro c hc
    rw [List.getLast?_reverse] at hc
    have h := List.head?_dropWhile_not isJsWhitespace m.reverse
    rw [ht, hc] at h
    exact h
  have hhead : ∀ c, t.reverse.head? = some c → isJsWhitespace c = false := by
    intro c hc
    have hne : t.reverse ≠ [] := by
      intro e
      rw [e] at hc
      simp at hc
    have hmh : m.head? = some c := by
      rw [h2, List.head?_append_of_ne_nil _ hne, hc]
    have h := List.head?_dropWhile_not isJsWhitespace b.data
    rw [hm, hmh] at h
    exact h
  refine ⟨b.data.takeWhile isJsWhitespace, (m.reverse.takeWhile isJsWhitespace).reverse,
    ?_, ?_, ?_, ?_, ?_⟩
  · rw [htrim, List.append_assoc, ← h2]
    exact h1
  · intro c hc
    exact List.mem_takeWhile_imp hc
  · intro c hc
    exact List.mem_takeWhile_imp (List.mem_reverse.mp hc)
  · rw [htrim]
    exact hhead
  · rw [htrim]
    exact hlast

end ComponentNode

/-- Dragging the unknown id ghost in the first render is an instance of C14: the state is
unchanged. -/
theorem handleNodeDrag_overwrites_position_only_witness :
    "ghost" ∉ Workspace.initialState.nodes.map Node.id ∧
    Workspace.handleNodeDrag Workspace.initialState "ghost" 10 20 = Workspace.initialState :=
  ⟨by decide,
    (handleNodeDrag_overwrites_position_only Workspace.initialState "ghost" 10 20).2.2.2.2.2
      (by decide)⟩

/-- Committing an edit buffer whose trimmed value is not empty gives every node with
the id of the edited node the trimmed buffer as label, with all other fields as before,
leaves every node with another id, the selection, zoom and pan unchanged, and ends the
edit; the trimmed buffer is the buffer without the white space at its two ends.  With
unique ids the edited node is the only node that changes. -/
theorem handleLabelSave_sets_trimmed_label (s : WorkspaceState) (node : Node) (l : NodeLocal)
    (h : ComponentNode.jsTrim l.editLabel ≠ "") :
    List.Forall₂
      (fun old new : Node =>
        (old.id = node.id → new = { old with label := ComponentNode.jsTrim l.editLabel }) ∧
        (old.id ≠ node.id → new = old))
      s.nodes (ComponentNode.handleLabelSave s node l).1.nodes ∧
    (ComponentNode.handleLabelSave s node l).1.selectedNode = s.selectedNode ∧
    (ComponentNode.handleLabelSave s node l).1.zoom = s.zoom ∧
    (ComponentNode.handleLabelSave s node l).1.panOffset = s.panOffset ∧
    (ComponentNode.handleLabelSave s node l).2.isEditing = false ∧
    (∃ pre post : List Char,
      l.editLabel.data = pre ++ (ComponentNode.jsTrim l.editLabel).data ++ post ∧
      (∀ c ∈ pre, ComponentNode.isJsWhitespace c = true) ∧
      (∀ c ∈ post, ComponentNode.isJsWhitespace c = true) ∧
      (∀ c, (ComponentNode.jsTrim l.editLabel).data.head? = some c →
        ComponentNode.isJsWhitespace c = false) ∧
      (∀ c, (ComponentNode.jsTrim l.editLabel).data.getLast? = some c →
        ComponentNode.isJsWhitespace c = false)) ∧
    ((s.nodes.map Node.id).Nodup → node ∈ s.nodes →
      List.Forall₂
        (fun old new : Node =>
          (old = node → new = { node with label := ComponentNode.jsTrim l.editLabel }) ∧
          (old ≠ node → new = old))
        s.nodes (ComponentNode.handleLabelSave s node l).1.nodes) := by
  have ht : (ComponentNode.jsTrim l.editLabel != "") = true := by simpa using h
  have hnodes : (ComponentNode.handleLabelSave s node l).1.nodes =
      s.nodes.map (fun n =>
        if n.id = node.id then { n with label := ComponentNode.jsTrim l.editLabel } else n) := by
    simp [ComponentNode.handleLabelSave, ht, Workspace.updateNodeLabel]
  refine ⟨?_, ?_, ?_, ?_, ?_, ComponentNode.jsTrim_spec l.editLabel, ?_⟩
  · rw [hnodes, List.forall₂_map_right_iff, List.forall₂_same]
    intro n _
    by_cases hn : n.id = node.id
    · simp [hn]
    · simp [hn]
  · simp [ComponentNode.handleLabelSave, ht, Workspace.updateNodeLabel]
  · simp [ComponentNode.handleLabelSave, ht, Workspace.updateNodeLabel]
  · simp [ComponentNode.handleLabelSave, ht, Workspace.updateNodeLabel]
  · simp [ComponentNode.handleLabelSave, ht]
  · intro hnd hmem
    rw [hnodes, List.forall₂_map_right_iff, List.forall₂_same]
    intro n hn
    by_cases hid : n.id = node.id
    · have hnn : n = node := List.inj_on_of_nodup_map hnd hn hmem hid
      subst hnn
      simp
    · have hnn : n ≠ node := fun e => hid (by rw [e])
      simp [hid, hnn]

/-- Committing the buffer "  Hub " on the root of the first render: the trimmed buffer is
not empty, the ids are unique and root is the only node that changes. -/
theorem handleLabelSave_sets_trimmed_label_witness :
    ComponentNode.jsTrim "  Hub " = "Hub" ∧
    (Workspace.initialState.nodes.map Node.id).Nodup ∧
    List.Forall₂
      (fun old new : Node =>
        (old = { id := "root", type := "system", label := "System Root", x := 400, y := 100,
                 parentId := none, children := ["motor", "sensor"] } →
          new = { id := "root", type := "system", label := ComponentNode.jsTrim "  Hub ",
                  x := 400, y := 100, parentId := none, children := ["motor", "sensor"] }) ∧
        (old ≠ { id := "root", type := "system", label := "System Root", x := 400, y := 100,
                 parentId := none, children := ["motor", "sensor"] } → new = old))
      Workspace.initialState.nodes
      (ComponentNode.handleLabelSave Workspace.initialState
        { id := "root", type := "system", label := "System Root", x := 400, y := 100,
          parentId := none, children := ["motor", "sensor"] }
        { isDragging := false, isEditing := true, editLabel := "  Hub ",
          dragOffset := (0, 0) }).1.nodes :=
  ⟨by decide, by decide,
    (handleLabelSave_sets_trimmed_label Workspace.initialState
      { id := "root", type := "system", label := "System Root", x := 400, y := 100,
        parentId := none, children := ["motor", "sensor"] }
      { isDragging := false, isEditing := true, editLabel := "  Hub ", dragOffset := (0, 0) }
      (by decide)).2.2.2.2.2.2 (by decide)
      (by simp [Workspace.initialState, Workspace.initialNodes])⟩

/-! ### The node made by `addNode` -/

namespace Workspace

theorem addNodeLabel_of_mem (t : ComponentType) (ht : t ∈ componentTypes) :
    addNodeLabel t.id = "New " ++ t.label := by
  simp only [componentTypes, List.mem_cons, List.mem_singleton, List.not_mem_nil,
    or_false] at ht
  rcases ht with rfl | rfl | rfl | rfl | rfl <;> rfl

theorem findNode_of_unique {nodes : List Node} {P : Node} (hP : P ∈ nodes)
    (huniq : ∀ n ∈ nodes, n.id = P.id → n = P) : findNode nodes P.id = some P := by
  obtain ⟨m, hm⟩ := findNode_isSome (List.mem_map.mpr ⟨P, hP, rfl⟩)
  obtain ⟨hmem, hid⟩ := findNode_some_mem hm
  rw [hm, huniq m hmem hid]

end Workspace

/-- For an existing parent node `P` whose id is not empty, is the id of no other node and
is not the new id, and for each of the five component types,
`addNode type P.id` appends one node with position (P.x + 50, P.y + 150), label "New "
followed by the display label of the type, the type given, `parentId` P.id and no
children; `P` gets the new id appended to its children and every other node is
unchanged. -/
theorem addNode_child_fields (s : WorkspaceState) (now : Nat) (rx ry : ℚ)
    (t : ComponentType) (P : Node) (ht : t ∈ Workspace.componentTypes) (hP : P ∈ s.nodes)
    (hne : P.id ≠ "") (huniq : ∀ n ∈ s.nodes, n.id = P.id → n = P)
    (hnew : Workspace.newNodeId now ≠ P.id) :
    (Workspace.addNode s now rx ry t.id (some P.id)).nodes =
      s.nodes.map (fun n =>
        if n = P then { P with children := P.children ++ [Workspace.newNodeId now] } else n) ++
      [ { id := Workspace.newNodeId now, type := t.id, label := "New " ++ t.label,
          x := P.x + 50, y := P.y + 150, parentId := some P.id, children := [] } ] ∧
    (Workspace.addNode s now rx ry t.id (some P.id)).nodes.length = s.nodes.length + 1 := by
  have hfind := Workspace.findNode_of_unique hP huniq
  have hnodes : (Workspace.addNode s now rx ry t.id (some P.id)).nodes =
      s.nodes.map (fun n =>
        if n = P then { P with children := P.children ++ [Workspace.newNodeId now] } else n) ++
      [ { id := Workspace.newNodeId now, type := t.id, label := "New " ++ t.label,
          x := P.x + 50, y := P.y + 150, parentId := some P.id, children := [] } ] := by
    rw [Workspace.addNode_nodes_of_truthy s now rx ry t.id P.id hne]
    simp only [hnew, if_false, hfind, Workspace.addNodeLabel_of_mem t ht]
    congr 1
    apply List.map_congr_left
    intro n hn
    by_cases hid : n.id = P.id
    · have hnP : n = P := huniq n hn hid
      subst hnP
      simp
    · have hnP : n ≠ P := fun e => hid (by rw [e])
      simp [hid, hnP]
  refine ⟨hnodes, ?_⟩
  rw [hnodes]
  simp

/-- Adding a software child of motor in the first render, where no id repeats. -/
theorem addNode_child_fields_witness :
    ({ id := "software", label := "Software", color := "#EC4899" } : ComponentType) ∈
      Workspace.componentTypes ∧
    ({ id := "motor", type := "mechanical", label := "Motor Assembly", x := 250, y := 250,
       parentId := some "root", children := ["encoder"] } : Node) ∈
      Workspace.initialState.nodes ∧
    (Workspace.addNode Workspace.initialState 5 (1 / 2) (1 / 2) "software"
        (some "motor")).nodes =
      Workspace.initialState.nodes.map (fun n =>
        if n = { id := "motor", type := "mechanical", label := "Motor Assembly", x := 250,
                 y := 250, parentId := some "root", children := ["encoder"] }
        then { id := "motor", type := "mechanical", label := "Motor Assembly", x := 250,
               y := 250, parentId := some "root",
               children := ["encoder"] ++ [Workspace.newNodeId 5] }
        else n) ++
      [ { id := Workspace.newNodeId 5, type := "software", label := "New " ++ "Software",
          x := 250 + 50, y := 250 + 150, parentId := some "motor", children := [] } ] :=
  ⟨by decide, by simp [Workspace.initialState, Workspace.initialNodes],
    (addNode_child_fields Workspace.initialState 5 (1 / 2) (1 / 2)
      { id := "software", label := "Software", color := "#EC4899" }
      { id := "motor", type := "mechanical", label := "Motor Assembly", x := 250, y := 250,
        parentId := some "root", children := ["encoder"] }
      (by decide) (by simp [Workspace.initialState, Workspace.initialNodes]) (by decide)
      (by decide) (by decide)).1⟩

/-- C17. `addNode` makes the id of the node it creates the selection, but the drop handler
never sets the selection: a palette drop in the first render appends a node and leaves
the selection empty. -/
theorem drop_does_not_select_new_node :
    (∀ (s : WorkspaceState) (now : Nat) (rx ry : ℚ) (type : String) (parentId : Option String),
      (Workspace.addNode s now rx ry type parentId).selectedNode =
        some (Workspace.newNodeId now)) ∧
    (∀ (s : WorkspaceState) (now : Nat) (type : String) (client rect : ℚ × ℚ),
      (Workspace.onDrop s now type client rect).selectedNode = s.selectedNode) ∧
    (Workspace.onDrop Workspace.initialState 1700000000000 "system" (300, 300) (0, 0)).nodes.map
        Node.id = ["root", "motor", "sensor", "encoder", "node-1700000000000"] ∧
    (Workspace.onDrop Workspace.initialState 1700000000000 "system" (300, 300)
        (0, 0)).selectedNode = none := by
  refine ⟨fun s now rx ry type parentId => rfl, ?_, by decide, by decide⟩
  intro s now type client rect
  unfold Workspace.onDrop
  split <;> rfl

/-! ### Viewport controls and connections -/

/-- C18. `handleZoomReset` gives zoom 1 and pan (0, 0); it, `handleZoomIn` and
`handleZoomOut` leave the nodes and the selection as they were. -/
theorem handleZoomReset_resets_view (s : WorkspaceState) :
    (Workspace.handleZoomReset s).zoom = 1 ∧
    (Workspace.handleZoomReset s).panOffset = (0, 0) ∧
    (Workspace.handleZoomReset s).nodes = s.nodes ∧
    (Workspace.handleZoomReset s).selectedNode = s.selectedNode ∧
    (Workspace.handleZoomIn s).nodes = s.nodes ∧
    (Workspace.handleZoomIn s).selectedNode = s.selectedNode ∧
    (Workspace.handleZoomOut s).nodes = s.nodes ∧
    (Workspace.handleZoomOut s).selectedNode = s.selectedNode :=
  ⟨rfl, rfl, rfl, rfl, rfl, rfl, rfl, rfl⟩

/-- C19, as stated, fails for a node whose parentId names no node of the collection:
`renderConnections` returns no edge for it. -/
theorem renderConnections_orphan_has_no_edge :
    Workspace.orphanNodes.map Node.parentId = [some "motor"] ∧
    Workspace.renderConnections Workspace.orphanNodes = [none] :=
  ⟨by decide, by decide⟩

/-- C19, amended. The output of `renderConnections` has one entry per node, in order.
For a node `c` whose parentId is not empty and names a node, with `p` the node found
for it, the entry is the curve from (p.x + 80, p.y + 40) to (c.x + 80, c.y) with
control points (p.x + 80, m) and (c.x + 80, m), m = ((p.y + 40) + c.y) / 2, and key
p.id-c.id; for a node without parentId, or whose parentId is empty or names no node,
the entry is no edge. -/
theorem renderConnections_entries (nodes : List Node) (k : Nat) (c : Node)
    (hk : nodes[k]? = some c) :
    (Workspace.renderConnections nodes).length = nodes.length ∧
    (∀ pid p, c.parentId = some pid → pid ≠ "" → Workspace.findNode nodes pid = some p →
      p ∈ nodes ∧ p.id = pid ∧
      (Workspace.renderConnections nodes)[k]? = some (some
        { key := p.id ++ "-" ++ c.id
          start := (p.x + 80, p.y + 40)
          control1 := (p.x + 80, ((p.y + 40) + c.y) / 2)
          control2 := (c.x + 80, ((p.y + 40) + c.y) / 2)
          finish := (c.x + 80, c.y) })) ∧
    (c.parentId = none → (Workspace.renderConnections nodes)[k]? = some none) ∧
    (c.parentId = some "" → (Workspace.renderConnections nodes)[k]? = some none) ∧
    (∀ pid, c.parentId = some pid → Workspace.findNode nodes pid = none →
      (Workspace.renderConnections nodes)[k]? = some none) := by
  have hget : (Workspace.renderConnections nodes)[k]? =
      some (if !truthy c.parentId then none
        else
          match c.parentId.bind (Workspace.findNode nodes) with
          | none => none
          | some parent =>
            some { key := parent.id ++ "-" ++ c.id
                   start := (parent.x + 80, parent.y + 40)
                   control1 := (parent.x + 80, ((parent.y + 40) + c.y) / 2)
                   control2 := (c.x + 80, ((parent.y + 40) + c.y) / 2)
                   finish := (c.x + 80, c.y) }) := by
    simp [Workspace.renderConnections, List.getElem?_map, hk]
  refine ⟨by simp [Workspace.renderConnections], ?_, ?_, ?_, ?_⟩
  · intro pid p hpar hne hfind
    obtain ⟨hmem, hid⟩ := Workspace.findNode_some_mem hfind
    refine ⟨hmem, hid, ?_⟩
    rw [hget]
    simp [hpar, truthy, hne, hfind]
  · intro hpar
    rw [hget]
    simp [hpar, truthy]
  · intro hpar
    rw [hget]
    simp [hpar, truthy]
  · intro pid hpar hfind
    rw [hget]
    simp [hpar, hfind]

/-- The edge from root to motor in the first render is an instance of amended C19. -/
theorem renderConnections_entries_witness :
    Workspace.initialNodes[1]? = some
      { id := "motor", type := "mechanical", label := "Motor Assembly", x := 250, y := 250,
        parentId := some "root", children := ["encoder"] } ∧
    Workspace.findNode Workspace.initialNodes "root" = some
      { id := "root", type := "system", label := "System Root", x := 400, y := 100,
        parentId := none, children := ["motor", "sensor"] } ∧
    (Workspace.renderConnections Workspace.initialNodes)[1]? = some (some
      { key := "root" ++ "-" ++ "motor"
        start := (400 + 80, 100 + 40)
        control1 := (400 + 80, ((100 + 40) + 250) / 2)
        control2 := (250 + 80, ((100 + 40) + 250) / 2)
        finish := (250 + 80, 250) }) :=
  ⟨by decide, by decide,
    ((renderConnections_entries Workspace.initialNodes 1
      { id := "motor", type := "mechanical", label := "Motor Assembly", x := 250, y := 250,
        parentId := some "root", children := ["encoder"] } (by decide)).2.1
      "root"
      { id := "root", type := "system", label := "System Root", x := 400, y := 100,
        parentId := none, children := ["motor", "sensor"] }
      rfl (by decide) (by decide)).2.2⟩

/-! ### Toolbar -/

namespace Workspace

theorem newNodeId_ne_empty (now : Nat) : newNodeId now ≠ "" := by
  intro h
  have hlen := congrArg String.length h
  have h5 : "node-".length = 5 := by decide
  have h0 : "".length = 0 := by decide
  rw [newNodeId, String.length_append, h5, h0] at hlen
  omega

theorem addNode_ids (s : WorkspaceState) (now : Nat) (rx ry : ℚ) (type : String)
    (parentId : Option String) :
    (addNode s now rx ry type parentId).nodes.map Node.id =
      s.nodes.map Node.id ++ [newNodeId now] := by
  by_cases ht : truthy parentId = true
  · simp only [addNode, ht, if_true, List.map_map, List.map_append, List.map_cons,
      List.map_nil]
    congr 1
    · apply List.map_congr_left
      intro n _
      simp only [Function.comp]
      split <;> rfl
    · split <;> rfl
  · have hf : truthy parentId = false := by simpa using ht
    rw [addNode_nodes_of_falsy s now rx ry type parentId hf]
    simp

theorem onDrop_ids_subset (s : WorkspaceState) (now : Nat) (type : String)
    (client rect : ℚ × ℚ) :
    ∀ i ∈ (onDrop s now type client rect).nodes.map Node.id,
      i ∈ s.nodes.map Node.id ∨ i = newNodeId now := by
  intro i hi
  unfold onDrop at hi
  split at hi
  · simp only [List.map_append, List.map_cons, List.map_nil, List.mem_append,
      List.mem_singleton] at hi
    exact hi
  · exact Or.inl hi

theorem deleteNode_ids_subset {fuel : Nat} {s s' : WorkspaceState} {nodeId : String}
    (h : deleteNode fuel s nodeId = some s') :
    (∀ i ∈ s'.nodes.map Node.id, i ∈ s.nodes.map Node.id) ∧
    (s'.selectedNode = s.selectedNode ∨ s'.selectedNode = none) := by
  unfold deleteNode at h
  cases hf : findNode s.nodes nodeId with
  | none =>
    simp only [hf, Option.some.injEq] at h
    subst h
    exact ⟨fun i hi => hi, Or.inl rfl⟩
  | some node =>
    cases hds : getDescendants s.nodes fuel nodeId with
    | none => simp [hf, hds] at h
    | some ds =>
      simp only [hf, hds, Option.some.injEq] at h
      subst h
      refine ⟨?_, ?_⟩
      · intro i hi
        obtain ⟨m, hm, rfl⟩ := List.mem_map.mp hi
        obtain ⟨n, hn, rfl⟩ := List.mem_map.mp hm
        exact List.mem_map.mpr ⟨n, (List.mem_filter.mp hn).1, rfl⟩
      · by_cases hsel : s.selectedNode = some nodeId
        · right
          simp [hsel]
        · left
          simp [hsel]

theorem handleNodeDrag_ids (s : WorkspaceState) (nodeId : String) (x y : ℚ) :
    (handleNodeDrag s nodeId x y).nodes.map Node.id = s.nodes.map Node.id := by
  simp only [handleNodeDrag, List.map_map]
  apply List.map_congr_left
  intro n _
  simp only [Function.comp]
  split <;> rfl

theorem updateNodeLabel_ids (s : WorkspaceState) (nodeId label : String) :
    (updateNodeLabel s nodeId label).nodes.map Node.id = s.nodes.map Node.id := by
  simp only [updateNodeLabel, List.map_map]
  apply List.map_congr_left
  intro n _
  simp only [Function.comp]
  split <;> rfl

/-- In every reachable state no node has the empty string as id, and the empty string
is not the selection. -/
theorem reachable_nonempty_ids {s : WorkspaceState} (h : Reachable s) :
    (∀ i ∈ s.nodes.map Node.id, i ≠ "") ∧ s.selectedNode ≠ some "" := by
  induction h with
  | init => exact ⟨by decide, by decide⟩
  | @select s n _ hn ih =>
    refine ⟨ih.1, ?_⟩
    have hne : n.id ≠ "" := ih.1 _ (List.mem_map.mpr ⟨n, hn, rfl⟩)
    simp only [handleNodeSelect]
    split
    · simp
    · simpa using hne
  | @drag s n l canvas client _ _ ih =>
    cases canvas with
    | none => exact ih
    | some c =>
      refine ⟨?_, ih.2⟩
      simp only [ComponentNode.handleMouseMove]
      rw [handleNodeDrag_ids]
      exact ih.1
  | @add s now rx ry t _ _ _ _ _ _ ih =>
    refine ⟨?_, ?_⟩
    · rw [addNode_ids]
      intro i hi
      rcases List.mem_append.mp hi with hi | hi
      · exact ih.1 i hi
      · rw [List.mem_singleton] at hi
        rw [hi]
        exact newNodeId_ne_empty now
    · show some (newNodeId now) ≠ some ""
      simpa using newNodeId_ne_empty now
  | @drop s now type client rect _ ih =>
    refine ⟨?_, ?_⟩
    · intro i hi
      rcases onDrop_ids_subset s now type client rect i hi with hi | hi
      · exact ih.1 i hi
      · rw [hi]
        exact newNodeId_ne_empty now
    · have hsel : (onDrop s now type client rect).selectedNode = s.selectedNode := by
        unfold onDrop
        split <;> rfl
      rw [hsel]
      exact ih.2
  | @delete s s' fuel n _ _ hdel ih =>
    obtain ⟨hids, hsel⟩ := deleteNode_ids_subset hdel
    refine ⟨fun i hi => ih.1 i (hids i hi), ?_⟩
    rcases hsel with hsel | hsel
    · rw [hsel]
      exact ih.2
    · rw [hsel]
      simp
  | @deleteSelected s s' fuel sel _ _ _ hdel ih =>
    obtain ⟨hids, hsel⟩ := deleteNode_ids_subset hdel
    refine ⟨fun i hi => ih.1 i (hids i hi), ?_⟩
    rcases hsel with hsel | hsel
    · rw [hsel]
      exact ih.2
    · rw [hsel]
      simp
  | @rename s n l _ _ ih =>
    simp only [ComponentNode.handleLabelSave]
    split
    · refine ⟨?_, ih.2⟩
      rw [updateNodeLabel_ids]
      exact ih.1
    · exact ih
  | zoomIn _ ih => exact ih
  | zoomOut _ ih => exact ih
  | zoomReset _ ih => exact ih
  | pan _ _ _ ih => exact ih

theorem reachable_rootSelected : Reachable rootSelected :=
  Reachable.select
    { id := "root", type := "system", label := "System Root", x := 400, y := 100,
      parentId := none, children := ["motor", "sensor"] }
    Reachable.init (by simp [initialState, initialNodes])

end Workspace

/-- C20. In every reachable state the delete button of the toolbar is disabled exactly
when nothing is selected; the zoom-in button is disabled exactly when zoom ≥ 2 and
the zoom-out button exactly when zoom ≤ 0.5; and with nothing selected the delete
handler of the toolbar returns the state unchanged. -/
theorem toolbar_disabled_states :
    (∀ s : WorkspaceState, Workspace.Reachable s →
      (Toolbar.deleteDisabled s.selectedNode = true ↔ s.selectedNode = none)) ∧
    (∀ selectedNode : Option String,
      Toolbar.deleteDisabled selectedNode = true ↔
        selectedNode = none ∨ selectedNode = some "") ∧
    (∀ zoom : ℚ, Toolbar.zoomInDisabled zoom = true ↔ 2 ≤ zoom) ∧
    (∀ zoom : ℚ, Toolbar.zoomOutDisabled zoom = true ↔ zoom ≤ 1 / 2) ∧
    (∀ (fuel : Nat) (s : WorkspaceState), s.selectedNode = none →
      Workspace.onDeleteNode fuel s = some s) := by
  have hgen : ∀ selectedNode : Option String,
      Toolbar.deleteDisabled selectedNode = true ↔
        selectedNode = none ∨ selectedNode = some "" := by
    intro sel
    cases sel with
    | none => simp [Toolbar.deleteDisabled, truthy]
    | some x => simp [Toolbar.deleteDisabled, truthy]
  refine ⟨?_, hgen, ?_, ?_, ?_⟩
  · intro s hs
    rw [hgen]
    constructor
    · rintro (h | h)
      · exact h
      · exact absurd h (Workspace.reachable_nonempty_ids hs).2
    · intro h
      exact Or.inl h
  · intro zoom
    simp [Toolbar.zoomInDisabled]
  · intro zoom
    simp [Toolbar.zoomOutDisabled]
  · intro fuel s h
    simp [Workspace.onDeleteNode, h]

/-- The first render, with nothing selected, and the state after a click on root are two
cases of C20: delete is disabled in the first and enabled in the second. -/
theorem toolbar_disabled_states_witness :
    Workspace.Reachable Workspace.rootSelected ∧
    Workspace.rootSelected.selectedNode ≠ none ∧
    Toolbar.deleteDisabled Workspace.rootSelected.selectedNode ≠ true ∧
    Workspace.initialState.selectedNode = none ∧
    Toolbar.deleteDisabled Workspace.initialState.selectedNode = true ∧
    Workspace.onDeleteNode 0 Workspace.initialState = some Workspace.initialState :=
  ⟨Workspace.reachable_rootSelected, by decide,
    fun h => absurd
      ((toolbar_disabled_states.1 Workspace.rootSelected Workspace.reachable_rootSelected).mp h)
      (by decide),
    rfl,
    (toolbar_disabled_states.1 Workspace.initialState Workspace.Reachable.init).mpr rfl,
    toolbar_disabled_states.2.2.2.2 0 Workspace.initialState rfl⟩

/-! ### Dropping, adding under an unknown parent -/

/-- C21. For a non-empty token the drop handler appends exactly one node, with the new
id, the dropped type, no parent, no children and the position
((px - panX) / zoom, (py - panY) / zoom), where (px, py) is the pointer position taken
from the top-left corner of the container; the nodes before it, the selection, zoom
and pan are unchanged.  A drop with the empty token returns the state unchanged. -/
theorem onDrop_appends_one_node (s : WorkspaceState) (now : Nat) (type : String)
    (rect p : ℚ × ℚ) :
    (type ≠ "" →
      (Workspace.onDrop s now type (rect.1 + p.1, rect.2 + p.2) rect).nodes =
        s.nodes ++
        [ { id := Workspace.newNodeId now, type := type, label := Workspace.dropLabel type,
            x := (p.1 - s.panOffset.1) / s.zoom, y := (p.2 - s.panOffset.2) / s.zoom,
            parentId := none, children := [] } ] ∧
      (Workspace.onDrop s now type (rect.1 + p.1, rect.2 + p.2) rect).nodes.length =
        s.nodes.length + 1 ∧
      (Workspace.onDrop s now type (rect.1 + p.1, rect.2 + p.2) rect).selectedNode =
        s.selectedNode ∧
      (Workspace.onDrop s now type (rect.1 + p.1, rect.2 + p.2) rect).zoom = s.zoom ∧
      (Workspace.onDrop s now type (rect.1 + p.1, rect.2 + p.2) rect).panOffset =
        s.panOffset) ∧
    Workspace.onDrop s now "" (rect.1 + p.1, rect.2 + p.2) rect = s := by
  refine ⟨?_, ?_⟩
  · intro ht
    have hb : (type != "") = true := by simpa using ht
    simp [Workspace.onDrop, hb, Workspace.screenToScene]
  · simp [Workspace.onDrop]

/-- A drop of the token system at (310, 160) from the corner of the container, in a state
with pan (10, 10) and zoom 3/2, is an instance of C21: the node lands at (200, 100). -/
theorem onDrop_appends_one_node_witness :
    ("system" : String) ≠ "" ∧
    (Workspace.onDrop { Workspace.initialState with zoom := 3 / 2, panOffset := (10, 10) }
        5 "system" (20 + 310, 30 + 160) (20, 30)).nodes =
      Workspace.initialState.nodes ++
      [ { id := Workspace.newNodeId 5, type := "system",
          label := Workspace.dropLabel "system",
          x := (310 - 10) / (3 / 2), y := (160 - 10) / (3 / 2),
          parentId := none, children := [] } ] :=
  ⟨by decide,
    ((onDrop_appends_one_node
      { Workspace.initialState with zoom := 3 / 2, panOffset := (10, 10) }
      5 "system" (20, 30) (310, 160)).1 (by decide)).1⟩

namespace Workspace

theorem reachable_addedUnderDeleted : Reachable addedUnderDeleted :=
  Reachable.add 1700000000000 (1 / 2) (1 / 2) systemType reachable_encoderSelectedMotorDeleted
    (by norm_num) (by norm_num) (by norm_num) (by norm_num) (by decide)

end Workspace

/-- C22, as stated, fails: in the reachable state in which the deleted encoder is still
the selection, a click on an add button calls `addNode` with the parentId encoder,
which names no node, and a node with that parentId is appended. -/
theorem stale_selection_addNode_appends :
    Workspace.Reachable Workspace.encoderSelectedMotorDeleted ∧
    Workspace.encoderSelectedMotorDeleted.selectedNode = some "encoder" ∧
    Workspace.encoderSelectedMotorDeleted.nodes.map Node.id = ["root", "sensor"] ∧
    Workspace.Reachable Workspace.addedUnderDeleted ∧
    Workspace.addedUnderDeleted.nodes.map (fun n => (n.id, n.parentId, n.children)) =
      [ ("root", none, ["sensor"]), ("sensor", some "root", []),
        ("node-1700000000000", some "encoder", []) ] :=
  ⟨Workspace.reachable_encoderSelectedMotorDeleted, by decide, by decide,
    Workspace.reachable_addedUnderDeleted, by decide⟩

/-- C22, amended. `addNode` with a non-empty parentId that names no node of the collection
and is not the new id appends one node, which carries that parentId, has no children
and sits at the position (400 + 100 rx, 200 + 100 ry) of a node without parent; the
nodes before it are unchanged and the new node becomes the selection. -/
theorem addNode_unknown_parent (s : WorkspaceState) (now : Nat) (rx ry : ℚ)
    (type P : String) (hP : P ≠ "") (hmem : P ∉ s.nodes.map Node.id)
    (hnew : Workspace.newNodeId now ≠ P) :
    (Workspace.addNode s now rx ry type (some P)).nodes =
      s.nodes ++
      [ { id := Workspace.newNodeId now, type := type, label := Workspace.addNodeLabel type,
          x := 400 + rx * 100, y := 200 + ry * 100,
          parentId := some P, children := [] } ] ∧
    (Workspace.addNode s now rx ry type (some P)).selectedNode =
      some (Workspace.newNodeId now) := by
  refine ⟨?_, rfl⟩
  rw [Workspace.addNode_nodes_of_truthy s now rx ry type P hP]
  have hfind : Workspace.findNode s.nodes P = none := Workspace.findNode_eq_none hmem
  have hmap : s.nodes.map (fun node =>
      if node.id = P then
        ({ node with children := node.children ++ [Workspace.newNodeId now] } : Node)
      else node) = s.nodes := by
    have hcongr : s.nodes.map (fun node =>
        if node.id = P then
          ({ node with children := node.children ++ [Workspace.newNodeId now] } : Node)
        else node) = s.nodes.map (fun node => node) := by
      apply List.map_congr_left
      intro n hn
      have hne : n.id ≠ P := fun e => hmem (List.mem_map.mpr ⟨n, hn, e⟩)
      simp [hne]
    rw [hcongr]
    exact List.map_id' s.nodes
  rw [hmap, hfind]
  simp only [hnew, if_false]

/-- The palette click in the state in which the deleted encoder is still the selection
is an instance of amended C22. -/
theorem addNode_unknown_parent_witness :
    ("encoder" : String) ≠ "" ∧
    "encoder" ∉ Workspace.encoderSelectedMotorDeleted.nodes.map Node.id ∧
    Workspace.newNodeId 1700000000000 ≠ "encoder" ∧
    (Workspace.addNode Workspace.encoderSelectedMotorDeleted 1700000000000 (1 / 2) (1 / 2)
        "system" (some "encoder")).nodes =
      Workspace.encoderSelectedMotorDeleted.nodes ++
      [ { id := Workspace.newNodeId 1700000000000, type := "system",
          label := Workspace.addNodeLabel "system",
          x := 400 + 1 / 2 * 100, y := 200 + 1 / 2 * 100,
          parentId := some "encoder", children := [] } ] :=
  ⟨by decide, by decide, by decide,
    (addNode_unknown_parent Workspace.encoderSelectedMotorDeleted 1700000000000 (1 / 2)
      (1 / 2) "system" "encoder" (by decide) (by decide) (by decide)).1⟩

/-! ### Panning and dragging -/

namespace Workspace

theorem handleMouseMove_frame (s : WorkspaceState) (c : WorkspaceLocal) (p : ℚ × ℚ) :
    (handleMouseMove s c p).nodes = s.nodes ∧ (handleMouseMove s c p).zoom = s.zoom ∧
    (handleMouseMove s c p).selectedNode = s.selectedNode := by
  unfold handleMouseMove
  split <;> exact ⟨rfl, rfl, rfl⟩

theorem runMouseMoves_frame (c : WorkspaceLocal) (moves : List (ℚ × ℚ)) :
    ∀ s : WorkspaceState, (runMouseMoves s c moves).nodes = s.nodes ∧
      (runMouseMoves s c moves).zoom = s.zoom ∧
      (runMouseMoves s c moves).selectedNode = s.selectedNode := by
  induction moves with
  | nil => intro s; exact ⟨rfl, rfl, rfl⟩
  | cons p ps ih =>
    intro s
    obtain ⟨h1, h2, h3⟩ := ih (handleMouseMove s c p)
    obtain ⟨g1, g2, g3⟩ := handleMouseMove_frame s c p
    exact ⟨h1.trans g1, h2.trans g2, h3.trans g3⟩

theorem runMouseMoves_idle (c : WorkspaceLocal) (hc : c.isPanning = false)
    (moves : List (ℚ × ℚ)) : ∀ s : WorkspaceState, runMouseMoves s c moves = s := by
  induction moves with
  | nil => intro s; rfl
  | cons p ps ih =>
    intro s
    have h : handleMouseMove s c p = s := by simp [handleMouseMove, hc]
    show runMouseMoves (handleMouseMove s c p) c ps = s
    rw [h]
    exact ih s

theorem runMouseMoves_last (c : WorkspaceLocal) (hc : c.isPanning = true)
    (s : WorkspaceState) (moves : List (ℚ × ℚ)) (p : ℚ × ℚ) :
    (runMouseMoves s c (moves ++ [p])).panOffset =
      (p.1 - c.panStartRef.1, p.2 - c.panStartRef.2) := by
  simp [runMouseMoves, List.foldl_append, handleMouseMove, hc]

end Workspace

/-- C23. A mouse down on the empty canvas at `p0` turns panning on and records the anchor
`p0 - pan`; after any run of mouse moves that ends at `p` the pan is the pan at mouse down
plus `p - p0`, so a move back to `p0` restores it; while panning is off, as in the first
render and after mouse up or mouse leave, mouse moves leave the state unchanged; mouse
moves never change nodes, zoom or selection. -/
theorem canvas_pan_follows_pointer (s : WorkspaceState) (c : WorkspaceLocal) (p0 : ℚ × ℚ) :
    (Workspace.handleMouseDown s c true p0).isPanning = true ∧
    (Workspace.handleMouseDown s c true p0).panStartRef =
      (p0.1 - s.panOffset.1, p0.2 - s.panOffset.2) ∧
    (∀ (moves : List (ℚ × ℚ)) (p : ℚ × ℚ),
      (Workspace.runMouseMoves s (Workspace.handleMouseDown s c true p0)
          (moves ++ [p])).panOffset =
        (s.panOffset.1 + (p.1 - p0.1), s.panOffset.2 + (p.2 - p0.2))) ∧
    (∀ moves : List (ℚ × ℚ),
      (Workspace.runMouseMoves s (Workspace.handleMouseDown s c true p0)
          (moves ++ [p0])).panOffset = s.panOffset) ∧
    (∀ (s' : WorkspaceState) (c' : WorkspaceLocal) (moves : List (ℚ × ℚ)),
      c'.isPanning = false → Workspace.runMouseMoves s' c' moves = s') ∧
    Workspace.initialLocal.isPanning = false ∧
    (Workspace.handleMouseUp c).isPanning = false ∧
    (∀ (s' : WorkspaceState) (c' : WorkspaceLocal) (moves : List (ℚ × ℚ)),
      (Workspace.runMouseMoves s' c' moves).nodes = s'.nodes ∧
      (Workspace.runMouseMoves s' c' moves).zoom = s'.zoom ∧
      (Workspace.runMouseMoves s' c' moves).selectedNode = s'.selectedNode) := by
  have hpan : (Workspace.handleMouseDown s c true p0).isPanning = true := by
    simp [Workspace.handleMouseDown]
  have hstart : (Workspace.handleMouseDown s c true p0).panStartRef =
      (p0.1 - s.panOffset.1, p0.2 - s.panOffset.2) := by
    simp [Workspace.handleMouseDown]
  have hmoves : ∀ (moves : List (ℚ × ℚ)) (p : ℚ × ℚ),
      (Workspace.runMouseMoves s (Workspace.handleMouseDown s c true p0)
          (moves ++ [p])).panOffset =
        (s.panOffset.1 + (p.1 - p0.1), s.panOffset.2 + (p.2 - p0.2)) := by
    intro moves p
    rw [Workspace.runMouseMoves_last _ hpan, hstart]
    ext <;> simp <;> ring
  refine ⟨hpan, hstart, hmoves, ?_, ?_, rfl, rfl, ?_⟩
  · intro moves
    rw [hmoves]
    ext <;> simp
  · intro s' c' moves hc
    exact Workspace.runMouseMoves_idle c' hc moves s'
  · intro s' c' moves
    exact Workspace.runMouseMoves_frame c' moves s'

/-- After mouse up, a run of mouse moves in the first render is an instance of C23: the
state is unchanged. -/
theorem canvas_pan_follows_pointer_witness :
    (Workspace.handleMouseUp Workspace.initialLocal).isPanning = false ∧
    Workspace.runMouseMoves Workspace.initialState
      (Workspace.handleMouseUp Workspace.initialLocal) [(10, 10), (30, 50)] =
        Workspace.initialState :=
  ⟨rfl,
    (canvas_pan_follows_pointer Workspace.initialState Workspace.initialLocal (0, 0)).2.2.2.2.1
      Workspace.initialState (Workspace.handleMouseUp Workspace.initialLocal)
      [(10, 10), (30, 50)] rfl⟩

namespace ComponentNode

theorem dragMouseMove_after_mouseDown (s : WorkspaceState) (node : Node) (l : NodeLocal)
    (canvas : CanvasArea) (p0 rect p : ℚ × ℚ) (hed : l.isEditing = false) :
    dragMouseMove s node (handleMouseDown l false p0 rect) (some canvas) p =
      Workspace.handleNodeDrag s node.id
        (max 0 ((p.1 - canvas.left - (p0.1 - rect.1)) /
          (if canvas.a = 0 then 1 else canvas.a)))
        (max 0 ((p.2 - canvas.top - (p0.2 - rect.2)) /
          (if canvas.a = 0 then 1 else canvas.a))) := by
  have hdown : handleMouseDown l false p0 rect =
      { l with isDragging := true, dragOffset := (p0.1 - rect.1, p0.2 - rect.2) } := by
    simp [handleMouseDown, hed]
  rw [hdown]
  simp [dragMouseMove, handleMouseMove]

end ComponentNode

/-- C24. A mouse down on a node that is not being edited, outside its action buttons,
starts the drag and records the offset of the pointer from the node's corner; every
mouse move at `p` during the drag calls `handleNodeDrag` for the node with
x = max(0, (p.x - canvas.left - offset.x) / scale), and the same for y, where scale is
the entry `a` of the canvas transform, or 1 when that is 0.  Without a drag a mouse
move calls nothing. -/
theorem drag_move_calls_handleNodeDrag (s : WorkspaceState) (node : Node) (l : NodeLocal)
    (canvas : CanvasArea) (p0 rect p : ℚ × ℚ) (hed : l.isEditing = false) :
    (ComponentNode.handleMouseDown l false p0 rect).isDragging = true ∧
    (ComponentNode.handleMouseDown l false p0 rect).dragOffset =
      (p0.1 - rect.1, p0.2 - rect.2) ∧
    ComponentNode.dragMouseMove s node (ComponentNode.handleMouseDown l false p0 rect)
        (some canvas) p =
      Workspace.handleNodeDrag s node.id
        (max 0 ((p.1 - canvas.left - (p0.1 - rect.1)) /
          (if canvas.a = 0 then 1 else canvas.a)))
        (max 0 ((p.2 - canvas.top - (p0.2 - rect.2)) /
          (if canvas.a = 0 then 1 else canvas.a))) ∧
    (∀ l' : NodeLocal, l'.isDragging = false →
      ComponentNode.dragMouseMove s node l' (some canvas) p = s) := by
  have hdown : ComponentNode.handleMouseDown l false p0 rect =
      { l with isDragging := true, dragOffset := (p0.1 - rect.1, p0.2 - rect.2) } := by
    simp [ComponentNode.handleMouseDown, hed]
  refine ⟨by rw [hdown], by rw [hdown], ?_, ?_⟩
  · rw [hdown]
    simp [ComponentNode.dragMouseMove, ComponentNode.handleMouseMove]
  · intro l' hl'
    simp [ComponentNode.dragMouseMove, hl']

/-- A drag of the root of the first render, picked up 10 right and 10 below its corner,
is an instance of C24. -/
theorem drag_move_calls_handleNodeDrag_witness :
    ({ isDragging := false, isEditing := false, editLabel := "System Root",
       dragOffset := (0, 0) } : NodeLocal).isEditing = false ∧
    ComponentNode.dragMouseMove Workspace.initialState
      { id := "root", type := "system", label := "System Root", x := 400, y := 100,
        parentId := none, children := ["motor", "sensor"] }
      (ComponentNode.handleMouseDown
        { isDragging := false, isEditing := false, editLabel := "System Root",
          dragOffset := (0, 0) } false (410, 110) (400, 100))
      (some { left := 0, top := 0, a := 1 }) (500, 300) =
    Workspace.handleNodeDrag Workspace.initialState "root"
      (max 0 ((500 - 0 - (410 - 400)) / (if (1 : ℚ) = 0 then 1 else 1)))
      (max 0 ((300 - 0 - (110 - 100)) / (if (1 : ℚ) = 0 then 1 else 1))) :=
  ⟨rfl,
    (drag_move_calls_handleNodeDrag Workspace.initialState
      { id := "root", type := "system", label := "System Root", x := 400, y := 100,
        parentId := none, children := ["motor", "sensor"] }
      { isDragging := false, isEditing := false, editLabel := "System Root",
        dragOffset := (0, 0) }
      { left := 0, top := 0, a := 1 } (410, 110) (400, 100) (500, 300) rfl).2.2.1⟩

/-- C30, as stated, fails in the binary64 arithmetic of the code.  With zoom 1.1 (the
Number value 2476979795053773 / 2 ^ 51) and the canvas corner at (100, 100), the root of
the first render, at (400, 100), is drawn at (540, 210); a mouse down at (600, 220) on it
followed by a mouse move at the same point stores 399.99999999999994 and
99.99999999999999 as its coordinates, not 400 and 100. -/
theorem drag_back_to_start_moves_node :
    ComponentNode.drawnAtF64 100 (2476979795053773 / 2251799813685248) 400 = 540 ∧
    ComponentNode.drawnAtF64 100 (2476979795053773 / 2251799813685248) 100 = 210 ∧
    (ComponentNode.handleMouseDownF64
      { isDragging := false, isEditing := false, editLabel := "System Root",
        dragOffset := (0, 0) } false (600, 220) (540, 210)) =
      { isDragging := true, isEditing := false, editLabel := "System Root",
        dragOffset := (60, 10) } ∧
    (ComponentNode.handleMouseMoveF64 Workspace.initialState
      { id := "root", type := "system", label := "System Root", x := 400, y := 100,
        parentId := none, children := ["motor", "sensor"] }
      { isDragging := true, isEditing := false, editLabel := "System Root",
        dragOffset := (60, 10) }
      (some { left := 100, top := 100, a := 2476979795053773 / 2251799813685248 })
      (600, 220)).nodes.map (fun n => (n.id, n.x, n.y)) =
      [ ("root", 400 - 1 / 2 ^ 44, 100 - 1 / 2 ^ 46), ("motor", 250, 250),
        ("sensor", 550, 250), ("encoder", 250, 400) ] ∧
    (400 - 1 / 2 ^ 44 : ℚ) ≠ 400 := by
  refine ⟨by decide!, by decide!, by decide!, by decide!, by norm_num⟩

/-- C30, amended. In exact arithmetic, when the node is drawn at
origin + zoom * (node.x, node.y), the canvas area has its corner at origin and scale
zoom > 0, a mouse down at `p0` on the node followed by a mouse move at `p` calls
`handleNodeDrag` with
(max(0, node.x + (p.x - p0.x) / zoom), max(0, node.y + (p.y - p0.y) / zoom)), so these
are the coordinates stored for every node with the id of the dragged node, all other
fields and all other nodes being as before; a move with p = p0 on a node with
non-negative coordinates stores the node's own coordinates, so the node stays in the
collection as it was. -/
theorem drag_follows_pointer (s : WorkspaceState) (node : Node) (l : NodeLocal)
    (origin p0 p : ℚ × ℚ) (zoom : ℚ) (hz : 0 < zoom) (hed : l.isEditing = false) :
    ComponentNode.dragMouseMove s node
        (ComponentNode.handleMouseDown l false p0
          (origin.1 + zoom * node.x, origin.2 + zoom * node.y))
        (some { left := origin.1, top := origin.2, a := zoom }) p =
      Workspace.handleNodeDrag s node.id
        (max 0 (node.x + (p.1 - p0.1) / zoom)) (max 0 (node.y + (p.2 - p0.2) / zoom)) ∧
    List.Forall₂
      (fun old new : Node =>
        (old.id = node.id →
          new = { old with x := max 0 (node.x + (p.1 - p0.1) / zoom),
                           y := max 0 (node.y + (p.2 - p0.2) / zoom) }) ∧
        (old.id ≠ node.id → new = old))
      s.nodes
      (ComponentNode.dragMouseMove s node
        (ComponentNode.handleMouseDown l false p0
          (origin.1 + zoom * node.x, origin.2 + zoom * node.y))
        (some { left := origin.1, top := origin.2, a := zoom }) p).nodes ∧
    (0 ≤ node.x → 0 ≤ node.y →
      ComponentNode.dragMouseMove s node
          (ComponentNode.handleMouseDown l false p0
            (origin.1 + zoom * node.x, origin.2 + zoom * node.y))
          (some { left := origin.1, top := origin.2, a := zoom }) p0 =
        Workspace.handleNodeDrag s node.id node.x node.y ∧
      (∀ n ∈ (ComponentNode.dragMouseMove s node
          (ComponentNode.handleMouseDown l false p0
            (origin.1 + zoom * node.x, origin.2 + zoom * node.y))
          (some { left := origin.1, top := origin.2, a := zoom }) p0).nodes,
        n.id = node.id → n.x = node.x ∧ n.y = node.y) ∧
      (node ∈ s.nodes → node ∈ (Workspace.handleNodeDrag s node.id node.x node.y).nodes)) := by
  have hne : zoom ≠ 0 := ne_of_gt hz
  have hx : ∀ q : ℚ × ℚ,
      (q.1 - origin.1 - (p0.1 - (origin.1 + zoom * node.x))) / zoom =
        node.x + (q.1 - p0.1) / zoom := by
    intro q
    field_simp
    ring
  have hy : ∀ q : ℚ × ℚ,
      (q.2 - origin.2 - (p0.2 - (origin.2 + zoom * node.y))) / zoom =
        node.y + (q.2 - p0.2) / zoom := by
    intro q
    field_simp
    ring
  have hmove : ∀ q : ℚ × ℚ,
      ComponentNode.dragMouseMove s node
          (ComponentNode.handleMouseDown l false p0
            (origin.1 + zoom * node.x, origin.2 + zoom * node.y))
          (some { left := origin.1, top := origin.2, a := zoom }) q =
        Workspace.handleNodeDrag s node.id
          (max 0 (node.x + (q.1 - p0.1) / zoom)) (max 0 (node.y + (q.2 - p0.2) / zoom)) := by
    intro q
    have h := ComponentNode.dragMouseMove_after_mouseDown s node l
      { left := origin.1, top := origin.2, a := zoom } p0
      (origin.1 + zoom * node.x, origin.2 + zoom * node.y) q hed
    rw [h]
    simp only [hne, if_false, hx q, hy q]
  have hback : 0 ≤ node.x → 0 ≤ node.y →
      ComponentNode.dragMouseMove s node
          (ComponentNode.handleMouseDown l false p0
            (origin.1 + zoom * node.x, origin.2 + zoom * node.y))
          (some { left := origin.1, top := origin.2, a := zoom }) p0 =
        Workspace.handleNodeDrag s node.id node.x node.y := by
    intro h0x h0y
    rw [hmove p0]
    simp [max_eq_right h0x, max_eq_right h0y]
  refine ⟨hmove p, ?_, ?_⟩
  · rw [hmove p]
    simp only [Workspace.handleNodeDrag]
    rw [List.forall₂_map_right_iff, List.forall₂_same]
    intro n _
    by_cases hn : n.id = node.id
    · simp [hn]
    · simp [hn]
  · intro h0x h0y
    refine ⟨hback h0x h0y, ?_, ?_⟩
    · rw [hback h0x h0y]
      intro n hn hid
      simp only [Workspace.handleNodeDrag] at hn
      obtain ⟨m, _, rfl⟩ := List.mem_map.mp hn
      by_cases hm : m.id = node.id
      · simp [hm]
      · simp [hm] at hid
    · intro hmem
      exact List.mem_map.mpr ⟨node, hmem, by simp⟩

/-- A drag of the root of the first render at zoom 2, with the canvas corner at (100, 50),
is an instance of amended C30. -/
theorem drag_follows_pointer_witness :
    (0 : ℚ) < 2 ∧
    ComponentNode.dragMouseMove Workspace.initialState
        { id := "root", type := "system", label := "System Root", x := 400, y := 100,
          parentId := none, children := ["motor", "sensor"] }
        (ComponentNode.handleMouseDown
          { isDragging := false, isEditing := false, editLabel := "System Root",
            dragOffset := (0, 0) } false (905, 255) (100 + 2 * 400, 50 + 2 * 100))
        (some { left := 100, top := 50, a := 2 }) (925, 215) =
      Workspace.handleNodeDrag Workspace.initialState "root"
        (max 0 (400 + (925 - 905) / 2)) (max 0 (100 + (215 - 255) / 2)) :=
  ⟨by norm_num,
    (drag_follows_pointer Workspace.initialState
      { id := "root", type := "system", label := "System Root", x := 400, y := 100,
        parentId := none, children := ["motor", "sensor"] }
      { isDragging := false, isEditing := false, editLabel := "System Root",
        dragOffset := (0, 0) }
      (100, 50) (905, 255) (925, 215) 2 (by norm_num) rfl).1⟩

/-! ### The assistant panel -/

/-- C26, as stated, fails in a window narrower than 380: with the panel picked up at its
corner and the pointer at (60, 70) in a window of 300 by 600, the move handler sets the
position (0, 20), and 0 is not at most 300 - 380. -/
theorem assistant_panel_leaves_narrow_window :
    (Workspace.assistantHeaderMouseDown Workspace.initialLocal false (50, 50)
      (0, 0)).isDraggingAssistant = true ∧
    (Workspace.assistantHeaderMouseMove
      (Workspace.assistantHeaderMouseDown Workspace.initialLocal false (50, 50) (0, 0))
      (60, 70) 300 600).assistantPosition = some (0, 20) ∧
    ¬ ((0 : ℚ) ≤ 300 - 380) := by
  refine ⟨by simp [Workspace.assistantHeaderMouseDown], ?_, by norm_num⟩
  simp [Workspace.assistantHeaderMouseMove, Workspace.assistantHeaderMouseDown,
    Workspace.initialLocal]
  constructor <;> norm_num

/-- C26, amended. While the assistant panel is dragged, the position (x, y) that the move
handler sets has 0 ≤ x and 0 ≤ y for every pointer position and every window size,
and x ≤ innerWidth - 380 when the window is at least 380 wide, y ≤ innerHeight - 100
when it is at least 100 high; the handlers of the assistant header change neither
nodes, selection, pan, zoom nor the local state of a node. -/
theorem assistant_panel_stays_in_window (c : WorkspaceLocal) (client : ℚ × ℚ)
    (innerWidth innerHeight : ℚ) (hdrag : c.isDraggingAssistant = true) :
    (∃ pos : ℚ × ℚ,
      (Workspace.assistantHeaderMouseMove c client innerWidth innerHeight).assistantPosition =
        some pos ∧
      0 ≤ pos.1 ∧ 0 ≤ pos.2 ∧
      (380 ≤ innerWidth → pos.1 ≤ innerWidth - 380) ∧
      (100 ≤ innerHeight → pos.2 ≤ innerHeight - 100)) ∧
    (∀ (u : UIState) (onButton : Bool) (rect : ℚ × ℚ),
      (u.assistantMouseMove client innerWidth innerHeight).ws = u.ws ∧
      (u.assistantMouseMove client innerWidth innerHeight).locals = u.locals ∧
      (u.assistantMouseDown onButton client rect).ws = u.ws ∧
      (u.assistantMouseDown onButton client rect).locals = u.locals ∧
      u.assistantMouseUp.ws = u.ws ∧ u.assistantMouseUp.locals = u.locals) := by
  have hpos : (Workspace.assistantHeaderMouseMove c client innerWidth
      innerHeight).assistantPosition =
      some (max 0 (min (innerWidth - 380) (client.1 - c.assistantDragRef.1)),
            max 0 (min (innerHeight - 100) (client.2 - c.assistantDragRef.2))) := by
    simp [Workspace.assistantHeaderMouseMove, hdrag]
  refine ⟨⟨_, hpos, ?_, ?_, ?_, ?_⟩, ?_⟩
  · exact le_max_left _ _
  · exact le_max_left _ _
  · intro hw
    exact max_le (by linarith) (min_le_left _ _)
  · intro hh
    exact max_le (by linarith) (min_le_left _ _)
  · intro u onButton rect
    exact ⟨rfl, rfl, rfl, rfl, rfl, rfl⟩

/-- A move of the dragged panel to (900, 700) in a window of 1280 by 720 is an instance
of amended C26: the position set is (900, 620), inside the bounds. -/
theorem assistant_panel_stays_in_window_witness :
    (Workspace.assistantHeaderMouseDown Workspace.initialLocal false (50, 50)
      (0, 0)).isDraggingAssistant = true ∧
    ∃ pos : ℚ × ℚ,
      (Workspace.assistantHeaderMouseMove
        (Workspace.assistantHeaderMouseDown Workspace.initialLocal false (50, 50) (0, 0))
        (950, 750) 1280 720).assistantPosition = some pos ∧
      0 ≤ pos.1 ∧ 0 ≤ pos.2 ∧
      ((380 : ℚ) ≤ 1280 → pos.1 ≤ 1280 - 380) ∧ ((100 : ℚ) ≤ 720 → pos.2 ≤ 720 - 100) :=
  ⟨by simp [Workspace.assistantHeaderMouseDown],
    (assistant_panel_stays_in_window
      (Workspace.assistantHeaderMouseDown Workspace.initialLocal false (50, 50) (0, 0))
      (950, 750) 1280 720 (by simp [Workspace.assistantHeaderMouseDown])).1⟩

/-! ### Click after a drag -/

namespace ComponentNode

theorem dragMouseMove_selectedNode (s : WorkspaceState) (node : Node) (l : NodeLocal)
    (canvas : Option CanvasArea) (p : ℚ × ℚ) :
    (dragMouseMove s node l canvas p).selectedNode = s.selectedNode := by
  unfold dragMouseMove handleMouseMove
  split
  · split <;> rfl
  · rfl

theorem dragMoves_selectedNode (node : Node) (l : NodeLocal) (canvas : Option CanvasArea)
    (moves : List (ℚ × ℚ)) :
    ∀ s : WorkspaceState,
      (moves.foldl (fun acc p => dragMouseMove acc node l canvas p) s).selectedNode =
        s.selectedNode := by
  induction moves with
  | nil => intro s; rfl
  | cons p ps ih =>
    intro s
    rw [List.foldl_cons, ih, dragMouseMove_selectedNode]

end ComponentNode

/-- C25, as stated, fails: in the first render, with nothing selected, a drag of root
(mouse down, one mouse move that takes it from (400, 100) to (490, 290), mouse up and
the click that follows) ends with root as the selection. -/
theorem click_after_drag_selects :
    Workspace.initialState.selectedNode = none ∧
    (ComponentNode.dragGesture Workspace.initialState
      { id := "root", type := "system", label := "System Root", x := 400, y := 100,
        parentId := none, children := ["motor", "sensor"] }
      { isDragging := false, isEditing := false, editLabel := "System Root",
        dragOffset := (0, 0) }
      (some { left := 0, top := 0, a := 1 }) (410, 110) (400, 100)
      [(500, 300)]).1.selectedNode = some "root" ∧
    (ComponentNode.dragGesture Workspace.initialState
      { id := "root", type := "system", label := "System Root", x := 400, y := 100,
        parentId := none, children := ["motor", "sensor"] }
      { isDragging := false, isEditing := false, editLabel := "System Root",
        dragOffset := (0, 0) }
      (some { left := 0, top := 0, a := 1 }) (410, 110) (400, 100)
      [(500, 300)]).1.nodes.map (fun n => (n.id, n.x, n.y)) =
      [("root", 490, 290), ("motor", 250, 250), ("sensor", 550, 250), ("encoder", 250, 400)] := by
  refine ⟨rfl, ?_, ?_⟩
  · simp [ComponentNode.dragGesture, ComponentNode.onClick, Workspace.handleNodeSelect,
      ComponentNode.dragMouseMove_selectedNode, Workspace.initialState]
  · simp [ComponentNode.dragGesture, ComponentNode.onClick, Workspace.handleNodeSelect,
      ComponentNode.dragMouseMove, ComponentNode.handleMouseMove,
      ComponentNode.handleMouseDown, Workspace.handleNodeDrag, Workspace.initialState,
      Workspace.initialNodes]
    norm_num

/-- C25, amended. The click that ends a drag gesture toggles the selection like any other
click on the node: after mouse down on a node, any mouse moves, mouse up and the click,
the selection is empty when the node was the selection and is the node otherwise; the
mouse moves themselves leave the selection as it was, and the drag flag is off again. -/
theorem click_after_drag_toggles (s : WorkspaceState) (node : Node) (l : NodeLocal)
    (canvas : Option CanvasArea) (p0 rect : ℚ × ℚ) (moves : List (ℚ × ℚ)) :
    (ComponentNode.dragGesture s node l canvas p0 rect moves).1.selectedNode =
      (if some node.id = s.selectedNode then none else some node.id) ∧
    (ComponentNode.dragGesture s node l canvas p0 rect moves).1.selectedNode =
      (Workspace.handleNodeSelect s node.id).selectedNode ∧
    (moves.foldl (fun acc p => ComponentNode.dragMouseMove acc node
        (ComponentNode.handleMouseDown l false p0 rect) canvas p) s).selectedNode =
      s.selectedNode ∧
    (ComponentNode.dragGesture s node l canvas p0 rect moves).2.isDragging = false := by
  have hsel := ComponentNode.dragMoves_selectedNode node
    (ComponentNode.handleMouseDown l false p0 rect) canvas moves s
  refine ⟨?_, ?_, hsel, rfl⟩
  · simp only [ComponentNode.dragGesture, ComponentNode.onClick, Workspace.handleNodeSelect,
      hsel]
  · simp only [ComponentNode.dragGesture, ComponentNode.onClick, Workspace.handleNodeSelect,
      hsel]

/-! ### Interaction states -/

namespace UIState

/-- The first render with the label of root in edit mode and canvas panning started. -/
theorem editing_and_panning_reachable :
    UIReachable
      ((initial.editButton
        { id := "root", type := "system", label := "System Root", x := 400, y := 100,
          parentId := none, children := ["motor", "sensor"] }).canvasMouseDown true (10, 10)) := by
  apply Relation.ReflTransGen.tail (b := initial.editButton
    { id := "root", type := "system", label := "System Root", x := 400, y := 100,
      parentId := none, children := ["motor", "sensor"] })
  · apply Relation.ReflTransGen.single
    exact UIStep.editButton _ _ (by simp [initial, Workspace.initialState, Workspace.initialNodes])
  · exact UIStep.canvasMouseDown _ true (10, 10)

theorem noneActive_initial : initial.NoneActive := by
  refine ⟨by simp [panning, initial, Workspace.initialLocal], ?_, ?_,
    by simp [assistantDragging, initial, Workspace.initialLocal]⟩
  · rintro ⟨n, _, h⟩
    simp [initial] at h
  · rintro ⟨n, _, h⟩
    simp [initial] at h

theorem atMostOne_of_idle_nodes {u : UIState} (hd : ¬ u.nodeDragging) (he : ¬ u.labelEditing)
    (h : ¬ (u.panning ∧ u.assistantDragging)) : u.AtMostOneActive :=
  ⟨fun x => hd x.2, fun x => he x.2, h, fun x => hd x.1, fun x => hd x.1, fun x => he x.1⟩

theorem atMostOne_of_idle_pointer {u : UIState} (hp : ¬ u.panning)
    (ha : ¬ u.assistantDragging) (h : ¬ (u.nodeDragging ∧ u.labelEditing)) :
    u.AtMostOneActive :=
  ⟨fun x => hp x.1, fun x => hp x.1, fun x => hp x.1, h, fun x => ha x.2, fun x => ha x.2⟩

end UIState

/-- C27, as stated, fails: a click on the edit button of root followed by a mouse down on
the empty canvas reaches a state in which the label of root is being edited and canvas
panning is active. -/
theorem editing_and_panning_both_active :
    UIReachable
      ((UIState.initial.editButton
        { id := "root", type := "system", label := "System Root", x := 400, y := 100,
          parentId := none, children := ["motor", "sensor"] }).canvasMouseDown true (10, 10)) ∧
    ((UIState.initial.editButton
        { id := "root", type := "system", label := "System Root", x := 400, y := 100,
          parentId := none, children := ["motor", "sensor"] }).canvasMouseDown true
      (10, 10)).wl.isPanning = true ∧
    (((UIState.initial.editButton
        { id := "root", type := "system", label := "System Root", x := 400, y := 100,
          parentId := none, children := ["motor", "sensor"] }).canvasMouseDown true
      (10, 10)).locals "root").isEditing = true ∧
    ¬ ((UIState.initial.editButton
        { id := "root", type := "system", label := "System Root", x := 400, y := 100,
          parentId := none, children := ["motor", "sensor"] }).canvasMouseDown true
      (10, 10)).AtMostOneActive := by
  have hpan : ((UIState.initial.editButton
        { id := "root", type := "system", label := "System Root", x := 400, y := 100,
          parentId := none, children := ["motor", "sensor"] }).canvasMouseDown true
      (10, 10)).wl.isPanning = true := by
    simp [UIState.canvasMouseDown, Workspace.handleMouseDown]
  have hedit : (((UIState.initial.editButton
        { id := "root", type := "system", label := "System Root", x := 400, y := 100,
          parentId := none, children := ["motor", "sensor"] }).canvasMouseDown true
      (10, 10)).locals "root").isEditing = true := by
    simp [UIState.canvasMouseDown, UIState.editButton, ComponentNode.editButtonClick]
  refine ⟨UIState.editing_and_panning_reachable, hpan, hedit, ?_⟩
  intro h
  apply h.2.1
  refine ⟨hpan, ?_⟩
  refine ⟨{ id := "root", type := "system", label := "System Root", x := 400, y := 100,
            parentId := none, children := ["motor", "sensor"] }, ?_, hedit⟩
  simp [UIState.canvasMouseDown, UIState.editButton, UIState.initial,
    Workspace.initialState, Workspace.initialNodes]

namespace UIState

theorem not_nodeDragging_of {u v : UIState}
    (hids : ∀ i ∈ v.ws.nodes.map Node.id, i ∈ u.ws.nodes.map Node.id)
    (hflag : ∀ i, (v.locals i).isDragging = true → (u.locals i).isDragging = true)
    (h : ¬ u.nodeDragging) : ¬ v.nodeDragging := by
  rintro ⟨n, hn, hdrag⟩
  obtain ⟨m, hm, hid⟩ := List.mem_map.mp (hids n.id (List.mem_map_of_mem _ hn))
  exact h ⟨m, hm, by rw [hid]; exact hflag _ hdrag⟩

theorem not_labelEditing_of {u v : UIState}
    (hids : ∀ i ∈ v.ws.nodes.map Node.id, i ∈ u.ws.nodes.map Node.id)
    (hflag : ∀ i, (v.locals i).isEditing = true → (u.locals i).isEditing = true)
    (h : ¬ u.labelEditing) : ¬ v.labelEditing := by
  rintro ⟨n, hn, hedit⟩
  obtain ⟨m, hm, hid⟩ := List.mem_map.mp (hids n.id (List.mem_map_of_mem _ hn))
  exact h ⟨m, hm, by rw [hid]; exact hflag _ hedit⟩

theorem update_flag {f : String → NodeLocal} {a : String} {v : NodeLocal}
    (flag : NodeLocal → Bool) (hv : flag v = true → flag (f a) = true) (i : String) :
    flag (Function.update f a v i) = true → flag (f i) = true := by
  by_cases h : i = a
  · subst h
    rw [Function.update_same]
    exact hv
  · rw [Function.update_noteq h]
    exact fun x => x

theorem dragMouseMove_ids (s : WorkspaceState) (n : Node) (l : NodeLocal)
    (canvas : Option CanvasArea) (client : ℚ × ℚ) :
    (ComponentNode.dragMouseMove s n l canvas client).nodes.map Node.id =
      s.nodes.map Node.id := by
  unfold ComponentNode.dragMouseMove ComponentNode.handleMouseMove
  split
  · split
    · rfl
    · exact Workspace.handleNodeDrag_ids _ _ _ _
  · rfl

theorem handleLabelSave_ids (s : WorkspaceState) (n : Node) (l : NodeLocal) :
    (ComponentNode.handleLabelSave s n l).1.nodes.map Node.id = s.nodes.map Node.id := by
  unfold ComponentNode.handleLabelSave
  split
  · exact Workspace.updateNodeLabel_ids _ _ _
  · rfl

theorem handleLabelSave_isDragging (s : WorkspaceState) (n : Node) (l : NodeLocal) :
    (ComponentNode.handleLabelSave s n l).2.isDragging = l.isDragging := by
  unfold ComponentNode.handleLabelSave
  split <;> rfl

theorem handleMouseDown_isEditing (l : NodeLocal) (onActions : Bool) (client rect : ℚ × ℚ) :
    (ComponentNode.handleMouseDown l onActions client rect).isEditing = l.isEditing := by
  unfold ComponentNode.handleMouseDown
  split <;> rfl

theorem step_from_idle {u v : UIState} (hstep : UIStep u v) (h : u.NoneActive) :
    v.AtMostOneActive := by
  obtain ⟨hp, hd, he, ha⟩ := h
  cases hstep with
  | canvasMouseDown onCanvas client =>
    have hA : ¬ (u.canvasMouseDown onCanvas client).assistantDragging := by
      intro hx
      have hx2 : (Workspace.handleMouseDown u.ws u.wl onCanvas client).isDraggingAssistant
          = true := hx
      unfold Workspace.handleMouseDown at hx2
      split at hx2 <;> exact ha hx2
    exact atMostOne_of_idle_nodes (u := u.canvasMouseDown onCanvas client) hd he
      (fun x => hA x.2)
  | canvasMouseMove client =>
    have hD : ¬ (u.canvasMouseMove client).nodeDragging := by
      refine not_nodeDragging_of (u := u) (v := u.canvasMouseMove client) ?_
        (fun i x => x) hd
      intro i hi
      have hi2 : i ∈ (Workspace.handleMouseMove u.ws u.wl client).nodes.map Node.id := hi
      rw [(Workspace.handleMouseMove_frame u.ws u.wl client).1] at hi2
      exact hi2
    exact atMostOne_of_idle_pointer (u := u.canvasMouseMove client) hp ha (fun x => hD x.1)
  | canvasMouseUp =>
    exact atMostOne_of_idle_nodes (u := u.canvasMouseUp) hd he (fun x => ha x.2)
  | nodeMouseDown n onActions client rect hn =>
    have hE : ¬ (u.nodeMouseDown n onActions client rect).labelEditing := by
      refine not_labelEditing_of (u := u) (v := u.nodeMouseDown n onActions client rect)
        (fun i hi => hi) ?_ he
      intro i hx
      exact update_flag (f := u.locals) (a := n.id)
        (v := ComponentNode.handleMouseDown (u.locals n.id) onActions client rect)
        NodeLocal.isEditing (by rw [handleMouseDown_isEditing]; exact fun x => x) i hx
    exact atMostOne_of_idle_pointer (u := u.nodeMouseDown n onActions client rect) hp ha
      (fun x => hE x.2)
  | documentMouseMove n canvas client hn =>
    have hD : ¬ (u.documentMouseMove n canvas client).nodeDragging := by
      refine not_nodeDragging_of (u := u) (v := u.documentMouseMove n canvas client) ?_
        (fun i x => x) hd
      intro i hi
      have hi2 : i ∈ (ComponentNode.dragMouseMove u.ws n (u.locals n.id) canvas
          client).nodes.map Node.id := hi
      rw [dragMouseMove_ids] at hi2
      exact hi2
    exact atMostOne_of_idle_pointer (u := u.documentMouseMove n canvas client) hp ha
      (fun x => hD x.1)
  | documentMouseUp n hn =>
    have hE : ¬ (u.documentMouseUp n).labelEditing := by
      refine not_labelEditing_of (u := u) (v := u.documentMouseUp n) (fun i hi => hi) ?_ he
      intro i hx
      exact update_flag (f := u.locals) (a := n.id)
        (v := ComponentNode.handleMouseUp (u.locals n.id))
        NodeLocal.isEditing (fun x => x) i hx
    exact atMostOne_of_idle_pointer (u := u.documentMouseUp n) hp ha (fun x => hE x.2)
  | editButton n hn =>
    have hD : ¬ (u.editButton n).nodeDragging := by
      refine not_nodeDragging_of (u := u) (v := u.editButton n) (fun i hi => hi) ?_ hd
      intro i hx
      exact update_flag (f := u.locals) (a := n.id)
        (v := ComponentNode.editButtonClick (u.locals n.id))
        NodeLocal.isDragging (fun x => x) i hx
    exact atMostOne_of_idle_pointer (u := u.editButton n) hp ha (fun x => hD x.1)
  | labelSave n hn =>
    have hD : ¬ (u.labelSave n).nodeDragging := by
      refine not_nodeDragging_of (u := u) (v := u.labelSave n) ?_ ?_ hd
      · intro i hi
        have hi2 : i ∈ (ComponentNode.handleLabelSave u.ws n (u.locals n.id)).1.nodes.map
            Node.id := hi
        rw [handleLabelSave_ids] at hi2
        exact hi2
      · intro i hx
        exact update_flag (f := u.locals) (a := n.id)
          (v := (ComponentNode.handleLabelSave u.ws n (u.locals n.id)).2)
          NodeLocal.isDragging (by rw [handleLabelSave_isDragging]; exact fun x => x) i hx
    exact atMostOne_of_idle_pointer (u := u.labelSave n) hp ha (fun x => hD x.1)
  | labelCancel n hn =>
    have hD : ¬ (u.labelCancel n).nodeDragging := by
      refine not_nodeDragging_of (u := u) (v := u.labelCancel n) (fun i hi => hi) ?_ hd
      intro i hx
      exact update_flag (f := u.locals) (a := n.id)
        (v := ComponentNode.handleLabelCancel n (u.locals n.id))
        NodeLocal.isDragging (fun x => x) i hx
    exact atMostOne_of_idle_pointer (u := u.labelCancel n) hp ha (fun x => hD x.1)
  | assistantMouseDown onButton client rect =>
    have hP : ¬ (u.assistantMouseDown onButton client rect).panning := by
      intro hx
      have hx2 : (Workspace.assistantHeaderMouseDown u.wl onButton client rect).isPanning
          = true := hx
      unfold Workspace.assistantHeaderMouseDown at hx2
      split at hx2 <;> exact hp hx2
    exact atMostOne_of_idle_nodes (u := u.assistantMouseDown onButton client rect) hd he
      (fun x => hP x.1)
  | assistantMouseMove client innerWidth innerHeight =>
    have hP : ¬ (u.assistantMouseMove client innerWidth innerHeight).panning := by
      intro hx
      have hx2 : (Workspace.assistantHeaderMouseMove u.wl client innerWidth
          innerHeight).isPanning = true := hx
      unfold Workspace.assistantHeaderMouseMove at hx2
      split at hx2 <;> exact hp hx2
    exact atMostOne_of_idle_nodes (u := u.assistantMouseMove client innerWidth innerHeight)
      hd he (fun x => hP x.1)
  | assistantMouseUp =>
    exact atMostOne_of_idle_nodes (u := u.assistantMouseUp) hd he (fun x => hp x.1)

end UIState

/-- C27, amended. From a state in which none of the four interaction states is active,
such as the first render, one call of any handler leaves at most one of them active.  A
mouse down on a node starts no drag while the node is being edited or when it hits
the action buttons, a mouse down off the empty canvas starts no pan, a mouse down on a
button of the assistant header starts no assistant drag. -/
theorem one_handler_call_starts_at_most_one :
    UIState.initial.NoneActive ∧
    (∀ u v : UIState, UIStep u v → u.NoneActive → v.AtMostOneActive) ∧
    (∀ (l : NodeLocal) (onActions : Bool) (client rect : ℚ × ℚ), l.isEditing = true →
      ComponentNode.handleMouseDown l onActions client rect = l) ∧
    (∀ (l : NodeLocal) (client rect : ℚ × ℚ),
      ComponentNode.handleMouseDown l true client rect = l) ∧
    (∀ (s : WorkspaceState) (c : WorkspaceLocal) (client : ℚ × ℚ),
      Workspace.handleMouseDown s c false client = c) ∧
    (∀ (c : WorkspaceLocal) (client rect : ℚ × ℚ),
      Workspace.assistantHeaderMouseDown c true client rect = c) := by
  refine ⟨UIState.noneActive_initial, fun u v hstep h => UIState.step_from_idle hstep h,
    ?_, ?_, ?_, ?_⟩
  · intro l onActions client rect h
    simp [ComponentNode.handleMouseDown, h]
  · intro l client rect
    simp [ComponentNode.handleMouseDown]
  · intro s c client
    simp [Workspace.handleMouseDown]
  · intro c client rect
    simp [Workspace.assistantHeaderMouseDown]

/-- A mouse down on root in the first render, where nothing is active, is an instance of
amended C27: afterwards at most one interaction state is active. -/
theorem one_handler_call_starts_at_most_one_witness :
    UIState.initial.NoneActive ∧
    (UIState.initial.nodeMouseDown
      { id := "root", type := "system", label := "System Root", x := 400, y := 100,
        parentId := none, children := ["motor", "sensor"] }
      false (410, 110) (400, 100)).AtMostOneActive :=
  ⟨UIState.noneActive_initial,
    one_handler_call_starts_at_most_one.2.1 _ _
      (UIStep.nodeMouseDown UIState.initial
        { id := "root", type := "system", label := "System Root", x := 400, y := 100,
          parentId := none, children := ["motor", "sensor"] }
        false (410, 110) (400, 100)
        (by simp [UIState.initial, Workspace.initialState, Workspace.initialNodes]))
      UIState.noneActive_initial⟩

/-! ### C28: fresh ids keep the children links a forest -/

namespace Workspace

theorem findNode_map (nodes : List Node) (f : Node → Node) (hid : ∀ n, (f n).id = n.id)
    (a : String) : findNode (nodes.map f) a = (findNode nodes a).map f := by
  unfold findNode
  induction nodes with
  | nil => rfl
  | cons n ns ih =>
    simp only [List.map_cons, List.find?_cons, hid]
    cases h : (n.id == a) with
    | true => rfl
    | false => exact ih

theorem childrenOf_map (nodes : List Node) (f : Node → Node) (hid : ∀ n, (f n).id = n.id)
    (hch : ∀ n, (f n).children = n.children) (a : String) :
    childrenOf (nodes.map f) a = childrenOf nodes a := by
  unfold childrenOf
  rw [findNode_map nodes f hid a]
  cases findNode nodes a with
  | none => rfl
  | some n => exact hch n

theorem childrenOf_append_leaf (nodes : List Node) (m : Node) (hm : m.children = [])
    (a : String) : childrenOf (nodes ++ [m]) a = childrenOf nodes a := by
  unfold childrenOf findNode
  rw [List.find?_append]
  cases h : List.find? (fun n => n.id == a) nodes with
  | some n => rfl
  | none =>
    simp only [Option.none_or, List.find?_cons, List.find?_nil]
    cases (m.id == a) with
    | true => exact hm
    | false => rfl

theorem findNode_filter_of_true (nodes : List Node) (p : Node → Bool) (a : String)
    (hp : ∀ n ∈ nodes, n.id = a → p n = true) :
    findNode (nodes.filter p) a = findNode nodes a := by
  unfold findNode
  induction nodes with
  | nil => rfl
  | cons n ns ih =>
    have ih2 := ih (fun m hm => hp m (List.mem_cons_of_mem _ hm))
    by_cases hna : n.id = a
    · have hpn : p n = true := hp n (List.mem_cons_self _ _) hna
      simp [List.filter_cons, hpn, List.find?_cons, hna]
    · have hb : (n.id == a) = false := by simpa using hna
      cases hpn : p n with
      | true => simp only [List.filter_cons, hpn, if_true, List.find?_cons, hb]; exact ih2
      | false =>
        simp only [List.filter_cons, hpn, List.find?_cons, hb]
        exact ih2

theorem findNode_filter_of_false (nodes : List Node) (p : Node → Bool) (a : String)
    (hp : ∀ n ∈ nodes, n.id = a → p n = false) :
    findNode (nodes.filter p) a = none := by
  unfold findNode
  rw [List.find?_eq_none]
  intro n hn hid
  obtain ⟨hmem, hpn⟩ := List.mem_filter.mp hn
  have := hp n hmem (by simpa using hid)
  rw [this] at hpn
  exact absurd hpn (by decide)

/-- After `deleteNode` every children list is a sublist of what it was. -/
theorem childrenOf_deleteNode {fuel : Nat} {s s' : WorkspaceState} {nodeId : String}
    (h : deleteNode fuel s nodeId = some s') (a : String) :
    (childrenOf s'.nodes a).Sublist (childrenOf s.nodes a) := by
  unfold deleteNode at h
  cases hf : findNode s.nodes nodeId with
  | none =>
    simp only [hf, Option.some.injEq] at h
    subst h
    exact List.Sublist.refl _
  | some node =>
    simp only [hf] at h
    cases hd : getDescendants s.nodes fuel nodeId with
    | none => simp [hd] at h
    | some ds =>
      simp only [hd, Option.some.injEq] at h
      subst h
      show (childrenOf ((s.nodes.filter (fun node => !ds.contains node.id)).map (fun node =>
        { node with children := node.children.filter (fun c => !ds.contains c) })) a).Sublist
        (childrenOf s.nodes a)
      unfold childrenOf
      rw [findNode_map (s.nodes.filter (fun node => !ds.contains node.id)) (fun node =>
        { node with children := node.children.filter (fun c => !ds.contains c) })
        (fun _ => rfl) a]
      by_cases ha : ds.contains a = true
      · rw [findNode_filter_of_false]
        · exact List.nil_sublist _
        · intro n _ hn
          simpa [hn] using ha
      · rw [findNode_filter_of_true]
        · cases findNode s.nodes a with
          | none => exact List.Sublist.refl _
          | some n => exact List.filter_sublist _
        · intro n _ hn
          simpa [hn] using ha

theorem forest_of_sublist {n1 n2 : List Node}
    (h : ∀ a, (childrenOf n1 a).Sublist (childrenOf n2 a)) (hf : Forest n2) : Forest n1 := by
  obtain ⟨hac, hup, hnd⟩ := hf
  refine ⟨?_, ?_, ?_⟩
  · intro a ha
    exact hac a (Relation.TransGen.mono (fun x y hxy => (h x).subset hxy) ha)
  · intro a b c hca hcb
    exact hup a b c ((h a).subset hca) ((h b).subset hcb)
  · intro a
    exact (hnd a).sublist (h a)

/-- Hanging a new leaf `N` under `P` keeps a forest a forest. -/
theorem forest_add_edge {n1 n2 : List Node} (P N : String) (hPN : N ≠ P)
    (hleaf : childrenOf n2 N = []) (hnew : ∀ a, N ∉ childrenOf n2 a)
    (h : ∀ a, childrenOf n1 a = childrenOf n2 a ∨
      (a = P ∧ childrenOf n1 a = childrenOf n2 a ++ [N]))
    (hf : Forest n2) : Forest n1 := by
  obtain ⟨hac, hup, hnd⟩ := hf
  have hedge : ∀ a c, c ∈ childrenOf n1 a → c ∈ childrenOf n2 a ∨ (a = P ∧ c = N) := by
    intro a c hc
    rcases h a with e | ⟨ha, e⟩
    · exact Or.inl (e ▸ hc)
    · rw [e, List.mem_append, List.mem_singleton] at hc
      rcases hc with hc | hc
      · exact Or.inl hc
      · exact Or.inr ⟨ha, hc⟩
  have hN : childrenOf n1 N = [] := by
    rcases h N with e | ⟨ha, _⟩
    · rw [e, hleaf]
    · exact absurd ha hPN
  have hpath : ∀ a b, Relation.TransGen (ChildLink n1) a b →
      Relation.TransGen (ChildLink n2) a b ∨ b = N := by
    intro a b hab
    induction hab with
    | single hc =>
      rcases hedge _ _ hc with hc2 | ⟨_, hc2⟩
      · exact Or.inl (Relation.TransGen.single hc2)
      · exact Or.inr hc2
    | tail _ hc ih =>
      rcases ih with ih | ih
      · rcases hedge _ _ hc with hc2 | ⟨_, hc2⟩
        · exact Or.inl (Relation.TransGen.tail ih hc2)
        · exact Or.inr hc2
      · subst ih
        unfold ChildLink at hc
        rw [hN] at hc
        simp at hc
  refine ⟨?_, ?_, ?_⟩
  · intro a ha
    rcases hpath a a ha with h2 | h2
    · exact hac a h2
    · subst h2
      obtain ⟨b, hb, _⟩ := Relation.TransGen.head'_iff.mp ha
      unfold ChildLink at hb
      rw [hN] at hb
      simp at hb
  · intro a b c hca hcb
    rcases hedge _ _ hca with h1 | ⟨ha, hc1⟩
    · rcases hedge _ _ hcb with h2 | ⟨_, hc2⟩
      · exact hup a b c h1 h2
      · subst hc2
        exact absurd h1 (hnew a)
    · rcases hedge _ _ hcb with h2 | ⟨hb, _⟩
      · subst hc1
        exact absurd h2 (hnew b)
      · rw [ha, hb]
  · intro a
    rcases h a with e | ⟨_, e⟩
    · rw [e]
      exact hnd a
    · rw [e, List.nodup_append]
      refine ⟨hnd a, List.nodup_singleton _, ?_⟩
      intro x hx hx2
      rw [List.mem_singleton] at hx2
      subst hx2
      exact hnew a hx

end Workspace

namespace Workspace

/-- What `addNode` with a new id that differs from `parentId` does to the children lists:
the list of `parentId` gains the new id at its end, every other list stays. -/
theorem childrenOf_addNode (s : WorkspaceState) (now : Nat) (rx ry : ℚ) (type : String)
    (parentId : Option String) (hne : parentId ≠ some (newNodeId now)) (a : String) :
    childrenOf (addNode s now rx ry type parentId).nodes a = childrenOf s.nodes a ∨
    (some a = parentId ∧
      childrenOf (addNode s now rx ry type parentId).nodes a
        = childrenOf s.nodes a ++ [newNodeId now]) := by
  by_cases ht : truthy parentId = true
  · cases parentId with
    | none => simp [truthy] at ht
    | some P =>
      have hP : P ≠ "" := by simpa [truthy] using ht
      have hNP : newNodeId now ≠ P := fun e => hne (by rw [e])
      rw [addNode_nodes_of_truthy s now rx ry type P hP, if_neg hNP,
        childrenOf_append_leaf _ _ rfl]
      unfold childrenOf
      rw [findNode_map s.nodes (fun node =>
        if node.id = P then { node with children := node.children ++ [newNodeId now] }
        else node) (fun n => by dsimp only; split <;> rfl) a]
      cases hfa : findNode s.nodes a with
      | none => exact Or.inl rfl
      | some n =>
        have hid : n.id = a := (findNode_some_mem hfa).2
        by_cases haP : a = P
        · right
          refine ⟨by rw [haP], ?_⟩
          simp [hid, haP]
        · left
          simp [hid, haP]
  · have hf : truthy parentId = false := by simpa using ht
    left
    rw [addNode_nodes_of_falsy s now rx ry type parentId hf]
    exact childrenOf_append_leaf _ _ rfl a

theorem childrenOf_onDrop (s : WorkspaceState) (now : Nat) (type : String)
    (client rect : ℚ × ℚ) (a : String) :
    childrenOf (onDrop s now type client rect).nodes a = childrenOf s.nodes a := by
  unfold onDrop
  split
  · exact childrenOf_append_leaf _ _ rfl a
  · rfl

theorem childrenOf_handleNodeDrag (s : WorkspaceState) (nodeId : String) (x y : ℚ)
    (a : String) : childrenOf (handleNodeDrag s nodeId x y).nodes a = childrenOf s.nodes a :=
  childrenOf_map s.nodes _ (fun n => by split <;> rfl) (fun n => by split <;> rfl) a

theorem childrenOf_updateNodeLabel (s : WorkspaceState) (nodeId label : String)
    (a : String) : childrenOf (updateNodeLabel s nodeId label).nodes a = childrenOf s.nodes a :=
  childrenOf_map s.nodes _ (fun n => by split <;> rfl) (fun n => by split <;> rfl) a

theorem childrenOf_mem_node {nodes : List Node} {a c : String}
    (h : c ∈ childrenOf nodes a) : ∃ n ∈ nodes, n.id = a ∧ c ∈ n.children := by
  unfold childrenOf at h
  cases hf : findNode nodes a with
  | none => simp [hf] at h
  | some n =>
    simp only [hf] at h
    exact ⟨n, (findNode_some_mem hf).1, (findNode_some_mem hf).2, h⟩

theorem forest_initialNodes : Forest initialNodes := by
  have hnd : (initialNodes.map Node.id).Nodup := by decide
  have hlink : ∀ a c, c ∈ childrenOf initialNodes a →
      (a = "root" ∧ (c = "motor" ∨ c = "sensor")) ∨ (a = "motor" ∧ c = "encoder") := by
    intro a c h
    obtain ⟨n, hn, hid, hc⟩ := childrenOf_mem_node h
    simp only [initialNodes, List.mem_cons, List.mem_singleton, List.not_mem_nil,
      or_false] at hn
    rcases hn with rfl | rfl | rfl | rfl <;> simp at hc hid <;> simp [← hid, hc]
  refine ⟨?_, ?_, ?_⟩
  · apply acyclic_of_rank
      (fun a => if a = "root" then 2 else if a = "motor" then 1 else 0)
    intro a c hc
    rcases hlink a c hc with ⟨rfl, rfl | rfl⟩ | ⟨rfl, rfl⟩ <;> decide
  · intro a b c hca hcb
    rcases hlink a c hca with ⟨rfl, rfl | rfl⟩ | ⟨rfl, rfl⟩ <;>
      rcases hlink b _ hcb with ⟨rfl, h | h⟩ | ⟨rfl, h⟩ <;>
      first | rfl | exact absurd h (by decide)
  · intro a
    by_cases ha : a ∈ initialNodes.map Node.id
    · obtain ⟨n, hn, rfl⟩ := List.mem_map.mp ha
      rw [childrenOf_of_mem hnd hn]
      simp only [initialNodes, List.mem_cons, List.mem_singleton, List.not_mem_nil,
        or_false] at hn
      rcases hn with rfl | rfl | rfl | rfl <;> decide
    · rw [childrenOf_eq_nil ha]
      exact List.nodup_nil

end Workspace

namespace Workspace

/-- With fresh ids every id of the collection, every id listed as a child and the selection
were produced before, and the children links form a forest. -/
theorem freshReachable_forest {used : List String} {s : WorkspaceState}
    (h : FreshReachable used s) :
    (∀ i ∈ s.nodes.map Node.id, i ∈ used) ∧
    (∀ a c, c ∈ childrenOf s.nodes a → c ∈ used) ∧
    (∀ x, s.selectedNode = some x → x ∈ used) ∧
    Forest s.nodes := by
  induction h with
  | init =>
    refine ⟨fun i hi => hi, ?_, ?_, forest_initialNodes⟩
    · intro a c hc
      obtain ⟨n, hn, _, hcn⟩ := childrenOf_mem_node hc
      simp only [initialState, initialNodes, List.mem_cons, List.mem_singleton,
        List.not_mem_nil, or_false] at hn
      rcases hn with rfl | rfl | rfl | rfl <;> simp at hcn <;>
        rcases hcn with rfl | rfl <;> simp [initialNodes]
    · intro x hx
      simp [initialState] at hx
  | @select used s n _ hn ih =>
    obtain ⟨hids, hch, hsel, hfor⟩ := ih
    refine ⟨hids, hch, ?_, hfor⟩
    intro x hx
    simp only [handleNodeSelect] at hx
    split at hx
    · simp at hx
    · simp only [Option.some.injEq] at hx
      subst hx
      exact hids _ (List.mem_map.mpr ⟨n, hn, rfl⟩)
  | @add used s now rx ry type _ hfresh ih =>
    obtain ⟨hids, hch, hsel, hfor⟩ := ih
    have hne : s.selectedNode ≠ some (newNodeId now) := fun e => hfresh (hsel _ e)
    have hnotid : newNodeId now ∉ s.nodes.map Node.id := fun e => hfresh (hids _ e)
    refine ⟨?_, ?_, ?_, ?_⟩
    · intro i hi
      rw [addNode_ids, List.mem_append, List.mem_singleton] at hi
      rcases hi with hi | hi
      · exact List.mem_cons_of_mem _ (hids i hi)
      · rw [hi]
        exact List.mem_cons_self _ _
    · intro a c hc
      rcases childrenOf_addNode s now rx ry type s.selectedNode hne a with e | ⟨_, e⟩
      · rw [e] at hc
        exact List.mem_cons_of_mem _ (hch a c hc)
      · rw [e, List.mem_append, List.mem_singleton] at hc
        rcases hc with hc | hc
        · exact List.mem_cons_of_mem _ (hch a c hc)
        · rw [hc]
          exact List.mem_cons_self _ _
    · intro x hx
      simp only [addNode, Option.some.injEq] at hx
      rw [← hx]
      exact List.mem_cons_self _ _
    · cases hs : s.selectedNode with
      | none =>
        apply forest_of_sublist _ hfor
        intro a
        rcases childrenOf_addNode s now rx ry type none (by simp) a with e | ⟨e, _⟩
        · rw [e]
        · simp at e
      | some P =>
        rw [hs] at hne
        apply forest_add_edge P (newNodeId now) (fun e => hne (by rw [e]))
          (childrenOf_eq_nil hnotid) (fun a e => hfresh (hch a _ e)) _ hfor
        intro a
        rcases childrenOf_addNode s now rx ry type (some P) hne a with e | ⟨e1, e2⟩
        · exact Or.inl e
        · exact Or.inr ⟨by simpa using e1, e2⟩
  | @drop used s now type client rect _ ih =>
    obtain ⟨hids, hch, hsel, hfor⟩ := ih
    refine ⟨?_, ?_, ?_, ?_⟩
    · intro i hi
      rcases onDrop_ids_subset s now type client rect i hi with hi | hi
      · exact List.mem_cons_of_mem _ (hids i hi)
      · rw [hi]
        exact List.mem_cons_self _ _
    · intro a c hc
      rw [childrenOf_onDrop] at hc
      exact List.mem_cons_of_mem _ (hch a c hc)
    · intro x hx
      have hsame : (onDrop s now type client rect).selectedNode = s.selectedNode := by
        unfold onDrop
        split <;> rfl
      rw [hsame] at hx
      exact List.mem_cons_of_mem _ (hsel x hx)
    · apply forest_of_sublist _ hfor
      intro a
      rw [childrenOf_onDrop]
  | @delete used s s' fuel nodeId _ hdel ih =>
    obtain ⟨hids, hch, hsel, hfor⟩ := ih
    obtain ⟨hsub, hselsub⟩ := deleteNode_ids_subset hdel
    refine ⟨fun i hi => hids i (hsub i hi),
      fun a c hc => hch a c ((childrenOf_deleteNode hdel a).subset hc), ?_,
      forest_of_sublist (childrenOf_deleteNode hdel) hfor⟩
    intro x hx
    rcases hselsub with e | e
    · rw [e] at hx
      exact hsel x hx
    · rw [e] at hx
      simp at hx
  | @drag used s nodeId newX newY _ ih =>
    obtain ⟨hids, hch, hsel, hfor⟩ := ih
    refine ⟨?_, ?_, hsel, ?_⟩
    · intro i hi
      rw [handleNodeDrag_ids] at hi
      exact hids i hi
    · intro a c hc
      rw [childrenOf_handleNodeDrag] at hc
      exact hch a c hc
    · apply forest_of_sublist _ hfor
      intro a
      rw [childrenOf_handleNodeDrag]
  | @rename used s nodeId newLabel _ ih =>
    obtain ⟨hids, hch, hsel, hfor⟩ := ih
    refine ⟨?_, ?_, hsel, ?_⟩
    · intro i hi
      rw [updateNodeLabel_ids] at hi
      exact hids i hi
    · intro a c hc
      rw [childrenOf_updateNodeLabel] at hc
      exact hch a c hc
    · apply forest_of_sublist _ hfor
      intro a
      rw [childrenOf_updateNodeLabel]

/-- Under unique parents two ids that both reach `i` lie on one path. -/
theorem inClosure_comparable {nodes : List Node} (hu : UniqueParent nodes) {a b i : String}
    (ha : InClosure nodes a i) (hb : InClosure nodes b i) :
    InClosure nodes a b ∨ InClosure nodes b a := by
  unfold InClosure at *
  induction ha with
  | refl => exact Or.inr hb
  | @tail j k haj hjk ih =>
    rcases Relation.ReflTransGen.cases_tail hb with e | ⟨m, hbm, hmk⟩
    · left
      rw [← e]
      exact Relation.ReflTransGen.tail haj hjk
    · have : j = m := hu j m k hjk hmk
      subst this
      exact ih hbm

/-- In a forest the subtrees of two different children of one id share no id. -/
theorem subtrees_disjoint {nodes : List Node} (hf : Forest nodes) {p c d i : String}
    (hc : c ∈ childrenOf nodes p) (hd : d ∈ childrenOf nodes p) (hcd : c ≠ d)
    (hci : InClosure nodes c i) (hdi : InClosure nodes d i) : False := by
  obtain ⟨hac, hup, _⟩ := hf
  have key : ∀ x y, x ∈ childrenOf nodes p → y ∈ childrenOf nodes p → x ≠ y →
      InClosure nodes x y → False := by
    intro x y hx hy hxy hreach
    rcases Relation.ReflTransGen.cases_tail hreach with e | ⟨m, hxm, hmy⟩
    · exact hxy e.symm
    · have : m = p := hup m p y hmy hy
      subst this
      exact hac m (Relation.TransGen.head' hx hxm)
  rcases inClosure_comparable hup hci hdi with h | h
  · exact key c d hc hd hcd h
  · exact key d c hd hc (fun e => hcd e.symm) h

theorem flatMapOpt_nodup {f : String → Option (List String)} :
    ∀ {l r : List String}, flatMapOpt f l = some r → l.Nodup →
      (∀ c ∈ l, ∀ ds, f c = some ds → ds.Nodup) →
      (∀ c ∈ l, ∀ d ∈ l, c ≠ d → ∀ r1 r2, f c = some r1 → f d = some r2 →
        ∀ i, i ∈ r1 → i ∉ r2) →
      r.Nodup
  | [], r, h, _, _, _ => by
    simp only [flatMapOpt, Option.some.injEq] at h
    subst h
    exact List.nodup_nil
  | c :: cs, r, h, hnd, hpart, hdisj => by
    have hall := h
    unfold flatMapOpt at h
    cases hc : f c with
    | none => simp [hc] at h
    | some ds =>
      cases hcs : flatMapOpt f cs with
      | none => simp [hc, hcs] at h
      | some rest =>
        simp only [hc, hcs, Option.some.injEq] at h
        subst h
        rw [List.nodup_cons] at hnd
        rw [List.nodup_append]
        refine ⟨hpart c (List.mem_cons_self _ _) ds hc, ?_, ?_⟩
        · exact flatMapOpt_nodup hcs hnd.2
            (fun x hx => hpart x (List.mem_cons_of_mem _ hx))
            (fun x hx y hy => hdisj x (List.mem_cons_of_mem _ hx) y (List.mem_cons_of_mem _ hy))
        · intro i hi hi2
          obtain ⟨d, hd, r2, hr2, hir2⟩ := (flatMapOpt_mem hcs i).mp hi2
          have hne : c ≠ d := fun e => hnd.1 (e ▸ hd)
          exact hdisj c (List.mem_cons_self _ _) d (List.mem_cons_of_mem _ hd) hne ds r2 hc hr2
            i hi hir2

/-- In a forest the traversal lists no id twice. -/
theorem getDescendants_nodup {nodes : List Node} (hf : Forest nodes) :
    ∀ (fuel : Nat) (id : String) (ds : List String),
      getDescendants nodes fuel id = some ds → ds.Nodup
  | 0, _, _, h => by simp [getDescendants] at h
  | fuel + 1, id, ds, h => by
    unfold getDescendants at h
    cases hfind : findNode nodes id with
    | none =>
      simp only [hfind, Option.some.injEq] at h
      subst h
      exact List.nodup_singleton _
    | some node =>
      simp only [hfind] at h
      split at h
      · simp only [Option.some.injEq] at h
        subst h
        exact List.nodup_singleton _
      · cases hflat : flatMapOpt (getDescendants nodes fuel) node.children with
        | none => simp [hflat] at h
        | some flat =>
          simp only [hflat, Option.some.injEq] at h
          subst h
          have hch : childrenOf nodes id = node.children := by simp [childrenOf, hfind]
          rw [List.nodup_cons]
          refine ⟨?_, ?_⟩
          · intro hid
            obtain ⟨c, hc, r, hr, hir⟩ := (flatMapOpt_mem hflat id).mp hid
            have hreach : InClosure nodes c id := (getDescendants_mem nodes fuel c r hr id).mp hir
            exact hf.1 id (Relation.TransGen.head' (show ChildLink nodes id c by
              unfold ChildLink; rw [hch]; exact hc) hreach)
          · refine flatMapOpt_nodup hflat (hch ▸ hf.2.2 id)
              (fun c _ r hr => getDescendants_nodup hf fuel c r hr) ?_
            intro c hc d hd hcd r1 r2 hr1 hr2 i hi1 hi2
            exact subtrees_disjoint hf (p := id) (hch ▸ hc) (hch ▸ hd) hcd
              ((getDescendants_mem nodes fuel c r1 hr1 i).mp hi1)
              ((getDescendants_mem nodes fuel d r2 hr2 i).mp hi2)

end Workspace

/-- C28. In every state that `addNode` with ids not produced before, the drop handler,
`deleteNode`, `handleNodeDrag` and `updateNodeLabel` produce from the initial four-node
tree, the children links are acyclic, and for every id the traversal `getDescendants`
returns for all large enough fuel, so that `deleteNode` returns; the list it returns
holds exactly the ids of the descendant closure and holds none of them twice. -/
theorem fresh_ids_traversal_lists_closure_once (used : List String) (s : WorkspaceState)
    (h : Workspace.FreshReachable used s) :
    Workspace.Acyclic s.nodes ∧
    ∀ id : String, ∃ fuel0, ∀ fuel, fuel0 ≤ fuel →
      ∃ ds, Workspace.getDescendants s.nodes fuel id = some ds ∧
        ds.Nodup ∧
        (∀ i, i ∈ ds ↔ Workspace.InClosure s.nodes id i) ∧
        (Workspace.deleteNode fuel s id).isSome = true := by
  obtain ⟨_, _, _, hfor⟩ := Workspace.freshReachable_forest h
  refine ⟨hfor.1, ?_⟩
  intro id
  obtain ⟨fuel0, hfuel⟩ := Workspace.getDescendants_terminates s.nodes id
    (Workspace.acyclicFrom_of_acyclic hfor.1 id)
  refine ⟨fuel0, ?_⟩
  intro fuel hle
  obtain ⟨ds, hds⟩ := hfuel fuel hle
  refine ⟨ds, hds, Workspace.getDescendants_nodup hfor fuel id ds hds,
    Workspace.getDescendants_mem s.nodes fuel id ds hds, ?_⟩
  unfold Workspace.deleteNode
  cases Workspace.findNode s.nodes id with
  | none => rfl
  | some n => simp [hds]

/-- The state after one add click at clock value 1700000000000 in the first render is
reached with a fresh id, so C28 applies to it. -/
theorem fresh_ids_traversal_lists_closure_once_witness :
    Workspace.FreshReachable
      (Workspace.newNodeId 1700000000000 :: Workspace.initialNodes.map Node.id)
      Workspace.afterFirstAdd ∧
    (Workspace.Acyclic Workspace.afterFirstAdd.nodes ∧
     ∀ id : String, ∃ fuel0, ∀ fuel, fuel0 ≤ fuel →
      ∃ ds, Workspace.getDescendants Workspace.afterFirstAdd.nodes fuel id = some ds ∧
        ds.Nodup ∧
        (∀ i, i ∈ ds ↔ Workspace.InClosure Workspace.afterFirstAdd.nodes id i) ∧
        (Workspace.deleteNode fuel Workspace.afterFirstAdd id).isSome = true) :=
  ⟨Workspace.FreshReachable.add 1700000000000 (1 / 2) (1 / 2) Workspace.systemType.id
      Workspace.FreshReachable.init (by decide),
    fresh_ids_traversal_lists_closure_once _ _
      (Workspace.FreshReachable.add 1700000000000 (1 / 2) (1 / 2) Workspace.systemType.id
        Workspace.FreshReachable.init (by decide))⟩

/-! ### C29: what `deleteNode` leaves alone -/

namespace Workspace

/-- Under consistency and unique ids, a child of a node outside the closure of `nodeId`
lies in the closure only when it is `nodeId` itself. -/
theorem survivor_child_in_closure {nodes : List Node} (hcons : Consistent nodes)
    (hnd : (nodes.map Node.id).Nodup) {nodeId : String} {n : Node} (hn : n ∈ nodes)
    (hout : ¬ InClosure nodes nodeId n.id) {c : String} (hc : c ∈ n.children)
    (hin : InClosure nodes nodeId c) : c = nodeId := by
  rcases Relation.ReflTransGen.cases_tail hin with e | ⟨j, hj, hjc⟩
  · exact e
  · exfalso
    obtain ⟨m, hm, hmid, hcm⟩ := childrenOf_mem_node hjc
    obtain ⟨n1, hn1, hid1, hp1⟩ := (hcons m hm).1 c hcm
    obtain ⟨n2, hn2, hid2, hp2⟩ := (hcons n hn).1 c hc
    have e12 : n1 = n2 := List.inj_on_of_nodup_map hnd hn1 hn2 (by rw [hid1, hid2])
    rw [e12, hp2, Option.some.injEq] at hp1
    apply hout
    rw [hp1, hmid]
    exact hj

/-- Under consistency and unique ids at most one node lists `nodeId` as a child. -/
theorem parent_unique {nodes : List Node} (hcons : Consistent nodes)
    (hnd : (nodes.map Node.id).Nodup) {nodeId : String} {p q : Node} (hp : p ∈ nodes)
    (hq : q ∈ nodes) (hpc : nodeId ∈ p.children) (hqc : nodeId ∈ q.children) : p = q := by
  obtain ⟨n1, hn1, hid1, hp1⟩ := (hcons p hp).1 nodeId hpc
  obtain ⟨n2, hn2, hid2, hp2⟩ := (hcons q hq).1 nodeId hqc
  have e12 : n1 = n2 := List.inj_on_of_nodup_map hnd hn1 hn2 (by rw [hid1, hid2])
  rw [e12, hp2, Option.some.injEq] at hp1
  exact (List.inj_on_of_nodup_map hnd hp hq hp1.symm)

end Workspace

/-- C29, as stated, fails: the single node that lists itself as its child is a state with
bidirectional consistency and unique ids in which the id exists, yet `deleteNode` of
that id returns for no amount of fuel, so there is no state after the call. -/
theorem consistent_selfLoop_delete_never_returns :
    Workspace.Consistent Workspace.selfLoopState.nodes ∧
    (Workspace.selfLoopState.nodes.map Node.id).Nodup ∧
    "a" ∈ Workspace.selfLoopState.nodes.map Node.id ∧
    ∀ fuel, Workspace.deleteNode fuel Workspace.selfLoopState "a" = none := by
  refine ⟨by decide, by decide, by decide, ?_⟩
  intro fuel
  have hf : Workspace.findNode Workspace.selfLoopState.nodes "a" = some
      { id := "a", type := "system", label := "New System", x := 400, y := 200,
        parentId := some "a", children := ["a"] } := by
    simp [Workspace.findNode, Workspace.selfLoopState, List.find?]
  simp [Workspace.deleteNode, hf, Workspace.getDescendants_selfLoop]

/-- C29, amended. In a state with bidirectional parent/child consistency and unique ids,
for an existing id from which no cycle of children links is reachable, `deleteNode`
returns for all large enough fuel; the nodes it keeps are, in their old order, the
nodes outside the descendant closure of the id; a kept node that does not list the id
as a child is unchanged, a kept node that lists it differs only in that the id is
removed from its children; at most one node lists the id, and that node is kept; zoom
and pan offset are unchanged. -/
theorem deleteNode_frame (s : WorkspaceState) (nodeId : String)
    (hcons : Workspace.Consistent s.nodes) (hnd : (s.nodes.map Node.id).Nodup)
    (hac : Workspace.AcyclicFrom s.nodes nodeId) (hmem : nodeId ∈ s.nodes.map Node.id) :
    (∀ p ∈ s.nodes, ∀ q ∈ s.nodes, nodeId ∈ p.children → nodeId ∈ q.children → p = q) ∧
    (∀ p ∈ s.nodes, nodeId ∈ p.children → ¬ Workspace.InClosure s.nodes nodeId p.id) ∧
    ∃ fuel0, ∀ fuel, fuel0 ≤ fuel → ∃ (s' : WorkspaceState) (ds : List String),
      Workspace.deleteNode fuel s nodeId = some s' ∧
      (∀ i, i ∈ ds ↔ Workspace.InClosure s.nodes nodeId i) ∧
      List.Forall₂
        (fun old new =>
          (nodeId ∉ old.children → new = old) ∧
          (nodeId ∈ old.children →
            new = { old with children := old.children.filter (fun c => c != nodeId) }))
        (s.nodes.filter (fun n => !ds.contains n.id)) s'.nodes ∧
      s'.zoom = s.zoom ∧ s'.panOffset = s.panOffset := by
  refine ⟨fun p hp q hq hpc hqc => Workspace.parent_unique hcons hnd hp hq hpc hqc, ?_, ?_⟩
  · intro p hp hpc hin
    have hlink : Workspace.ChildLink s.nodes p.id nodeId := by
      unfold Workspace.ChildLink
      rw [Workspace.childrenOf_of_mem hnd hp]
      exact hpc
    exact hac nodeId Relation.ReflTransGen.refl (Relation.TransGen.tail' hin hlink)
  · obtain ⟨fuel0, hfuel⟩ := Workspace.getDescendants_terminates s.nodes nodeId hac
    refine ⟨fuel0, ?_⟩
    intro fuel hle
    obtain ⟨ds, hds⟩ := hfuel fuel hle
    have hcl := Workspace.getDescendants_mem s.nodes fuel nodeId ds hds
    have hself : nodeId ∈ ds := (hcl nodeId).mpr Relation.ReflTransGen.refl
    refine ⟨_, ds, Workspace.deleteNode_eq hmem hds, hcl, ?_, rfl, rfl⟩
    rw [List.forall₂_map_right_iff, List.forall₂_same]
    intro n hn
    obtain ⟨hnmem, hnout⟩ := List.mem_filter.mp hn
    have hout : ¬ Workspace.InClosure s.nodes nodeId n.id := by
      intro hin
      have : n.id ∈ ds := (hcl n.id).mpr hin
      simp [this] at hnout
    have hkey : ∀ c ∈ n.children, (!ds.contains c) = (c != nodeId) := by
      intro c hc
      by_cases hcd : c ∈ ds
      · have : c = nodeId :=
          Workspace.survivor_child_in_closure hcons hnd hnmem hout hc ((hcl c).mp hcd)
        simp [this, hself]
      · have hne : c ≠ nodeId := fun e => hcd (e ▸ hself)
        simp [hcd, hne]
    have hfilter : n.children.filter (fun c => !ds.contains c)
        = n.children.filter (fun c => c != nodeId) := List.filter_congr hkey
    refine ⟨?_, ?_⟩
    · intro hnot
      have hall : n.children.filter (fun c => !ds.contains c) = n.children := by
        rw [hfilter, List.filter_eq_self]
        intro c hc
        have hne : c ≠ nodeId := fun e => hnot (e ▸ hc)
        simpa using hne
      rw [hall]
    · intro _
      rw [hfilter]

/-- Deleting B from the chain root → A → B → C is an instance of amended C29. -/
theorem deleteNode_frame_witness :
    Workspace.Consistent Workspace.chainState.nodes ∧
    (Workspace.chainState.nodes.map Node.id).Nodup ∧
    Workspace.AcyclicFrom Workspace.chainState.nodes "B" ∧
    "B" ∈ Workspace.chainState.nodes.map Node.id ∧
    ((∀ p ∈ Workspace.chainState.nodes, ∀ q ∈ Workspace.chainState.nodes,
        "B" ∈ p.children → "B" ∈ q.children → p = q) ∧
     (∀ p ∈ Workspace.chainState.nodes, "B" ∈ p.children →
        ¬ Workspace.InClosure Workspace.chainState.nodes "B" p.id) ∧
     ∃ fuel0, ∀ fuel, fuel0 ≤ fuel → ∃ (s' : WorkspaceState) (ds : List String),
      Workspace.deleteNode fuel Workspace.chainState "B" = some s' ∧
      (∀ i, i ∈ ds ↔ Workspace.InClosure Workspace.chainState.nodes "B" i) ∧
      List.Forall₂
        (fun old new =>
          ("B" ∉ old.children → new = old) ∧
          ("B" ∈ old.children →
            new = { old with children := old.children.filter (fun c => c != "B") }))
        (Workspace.chainState.nodes.filter (fun n => !ds.contains n.id)) s'.nodes ∧
      s'.zoom = Workspace.chainState.zoom ∧
      s'.panOffset = Workspace.chainState.panOffset) :=
  ⟨by decide, by decide,
    Workspace.acyclicFrom_of_acyclic Workspace.chainNodes_acyclic "B", by decide,
    deleteNode_frame Workspace.chainState "B" (by decide) (by decide)
      (Workspace.acyclicFrom_of_acyclic Workspace.chainNodes_acyclic "B") (by decide)⟩

/-! ### Adding under a parent, in the states the handlers produce -/

/-- C5. In every state that the handlers produce from the first render, where no node has
the empty string as its id, for every type and every id `P` of a node in the
collection, `addNode type P` appends one node, whose id is the new id and whose
`parentId` is `P`; every node with id `P` then has its previous children, in order,
followed by the new id. -/
theorem addNode_links_child_to_parent (s : WorkspaceState) (hs : Workspace.Reachable s)
    (now : Nat) (rx ry : ℚ) (type P : String) (hmem : P ∈ s.nodes.map Node.id) :
    P ≠ "" ∧
    (Workspace.addNode s now rx ry type (some P)).nodes.map Node.id =
      s.nodes.map Node.id ++ [Workspace.newNodeId now] ∧
    (∃ n, (Workspace.addNode s now rx ry type (some P)).nodes.getLast? = some n ∧
      n.id = Workspace.newNodeId now ∧ n.parentId = some P) ∧
    (∃ p ∈ s.nodes, p.id = P) ∧
    (∀ p ∈ s.nodes, p.id = P →
      { p with children := p.children ++ [Workspace.newNodeId now] } ∈
        (Workspace.addNode s now rx ry type (some P)).nodes) ∧
    (∀ q ∈ (Workspace.addNode s now rx ry type (some P)).nodes, q.id = P →
      Workspace.newNodeId now ∈ q.children) := by
  have hP : P ≠ "" := (Workspace.reachable_nonempty_ids hs).1 P hmem
  rw [Workspace.addNode_nodes_of_truthy s now rx ry type P hP]
  refine ⟨hP, ?_, ?_, ?_, ?_, ?_⟩
  · rw [List.map_append, List.map_map]
    congr 1
    · apply List.map_congr_left
      intro n _
      by_cases h : n.id = P <;> simp [h]
    · by_cases h : Workspace.newNodeId now = P <;> simp [h]
  · rw [List.getLast?_append_of_ne_nil _ (by simp), List.getLast?_singleton]
    by_cases h : Workspace.newNodeId now = P
    · exact ⟨_, rfl, by simp [h], by simp [h]⟩
    · exact ⟨_, rfl, by simp [h], by simp [h]⟩
  · obtain ⟨p, hp, hid⟩ := List.mem_map.mp hmem
    exact ⟨p, hp, hid⟩
  · intro p hp hid
    apply List.mem_append_left
    exact List.mem_map.mpr ⟨p, hp, by simp [hid]⟩
  · intro q hq hid
    rcases List.mem_append.mp hq with hq | hq
    · obtain ⟨p, _, rfl⟩ := List.mem_map.mp hq
      by_cases h : p.id = P
      · simp [h]
      · simp [h] at hid
    · rw [List.mem_singleton] at hq
      subst hq
      by_cases h : Workspace.newNodeId now = P
      · simp [h]
      · simp [h] at hid

/-- Adding a child of root in the first render is an instance of C5. -/
theorem addNode_links_child_to_parent_witness :
    Workspace.Reachable Workspace.initialState ∧
    "root" ∈ Workspace.initialState.nodes.map Node.id ∧
    (Workspace.addNode Workspace.initialState 5 0 0 "software" (some "root")).nodes.map Node.id =
      Workspace.initialState.nodes.map Node.id ++ [Workspace.newNodeId 5] ∧
    (∃ n, (Workspace.addNode Workspace.initialState 5 0 0 "software"
        (some "root")).nodes.getLast? = some n ∧
      n.id = Workspace.newNodeId 5 ∧ n.parentId = some "root") ∧
    (∀ p ∈ Workspace.initialState.nodes, p.id = "root" →
      { p with children := p.children ++ [Workspace.newNodeId 5] } ∈
        (Workspace.addNode Workspace.initialState 5 0 0 "software" (some "root")).nodes) ∧
    (∀ q ∈ (Workspace.addNode Workspace.initialState 5 0 0 "software" (some "root")).nodes,
      q.id = "root" → Workspace.newNodeId 5 ∈ q.children) :=
  ⟨Workspace.Reachable.init, by decide,
    (addNode_links_child_to_parent Workspace.initialState Workspace.Reachable.init 5 0 0
      "software" "root" (by decide)).2.1,
    (addNode_links_child_to_parent Workspace.initialState Workspace.Reachable.init 5 0 0
      "software" "root" (by decide)).2.2.1,
    (addNode_links_child_to_parent Workspace.initialState Workspace.Reachable.init 5 0 0
      "software" "root" (by decide)).2.2.2.2.1,
    (addNode_links_child_to_parent Workspace.initialState Workspace.Reachable.init 5 0 0
      "software" "root" (by decide)).2.2.2.2.2⟩

/-! ### What a repeated clock value does to renaming and to the fields of a child -/

/-- C15, as stated, fails after two add clicks that read the same clock value: the
collection then holds two different nodes with the id node-1700000000000, the second
being the child of the first, and committing the buffer " Hub " on the first gives the
label Hub to the second as well. -/
theorem rename_relabels_node_with_same_id :
    Workspace.Reachable Workspace.afterSecondAdd ∧
    Workspace.afterSecondAdd.nodes.map (fun n => (n.id, n.parentId, n.label)) =
      [ ("root", none, "System Root"), ("motor", some "root", "Motor Assembly"),
        ("sensor", some "root", "Sensor Module"), ("encoder", some "motor", "Rotary Encoder"),
        ("node-1700000000000", none, "New System"),
        ("node-1700000000000", some "node-1700000000000", "New System") ] ∧
    ({ id := "node-1700000000000", type := "system", label := "New System", x := 450,
       y := 250, parentId := none, children := ["node-1700000000000"] } : Node) ∈
      Workspace.afterSecondAdd.nodes ∧
    ComponentNode.jsTrim " Hub " = "Hub" ∧
    (ComponentNode.handleLabelSave Workspace.afterSecondAdd
      { id := "node-1700000000000", type := "system", label := "New System", x := 450,
        y := 250, parentId := none, children := ["node-1700000000000"] }
      { isDragging := false, isEditing := true, editLabel := " Hub ",
        dragOffset := (0, 0) }).1.nodes.map (fun n => (n.id, n.parentId, n.label)) =
      [ ("root", none, "System Root"), ("motor", some "root", "Motor Assembly"),
        ("sensor", some "root", "Sensor Module"), ("encoder", some "motor", "Rotary Encoder"),
        ("node-1700000000000", none, "Hub"),
        ("node-1700000000000", some "node-1700000000000", "Hub") ] := by
  refine ⟨Workspace.reachable_afterSecondAdd, by decide, by decide!, by decide, by decide⟩

/-- C16, as stated, fails when the click that adds the child reads the clock value that
made the id of the parent.  After one add click the new node, at (450, 250), is the
selection and the only node with its id; a second add click at the same clock value
calls `addNode` with that id as `parentId`, and the node it creates, at (500, 400), has
its own id as `parentId` and lists itself as its only child. -/
theorem child_of_same_clock_parent_lists_itself :
    Workspace.Reachable Workspace.afterFirstAdd ∧
    Workspace.afterFirstAdd.nodes =
      Workspace.initialNodes ++
      [ { id := "node-1700000000000", type := "system", label := "New System", x := 450,
          y := 250, parentId := none, children := [] } ] ∧
    (Workspace.afterFirstAdd.nodes.map Node.id).Nodup ∧
    Workspace.afterFirstAdd.selectedNode = some "node-1700000000000" ∧
    Workspace.afterSecondAdd =
      Workspace.addNode Workspace.afterFirstAdd 1700000000000 (1 / 2) (1 / 2) "system"
        (some "node-1700000000000") ∧
    Workspace.Reachable Workspace.afterSecondAdd ∧
    Workspace.afterSecondAdd.nodes.length = Workspace.afterFirstAdd.nodes.length + 1 ∧
    Workspace.afterSecondAdd.nodes.getLast? =
      some { id := "node-1700000000000", type := "system", label := "New System", x := 500,
             y := 400, parentId := some "node-1700000000000",
             children := ["node-1700000000000"] } := by
  refine ⟨Workspace.reachable_afterFirstAdd, by decide!, by decide, by decide, by decide!,
    Workspace.reachable_afterSecondAdd, by decide, by decide!⟩
